import Mathlib

/-!
Iscrie: the Maven2 coordinate resolver.

A shallow embedding of `core/importer/maven2/maven2_helper.go` and of
`Maven2Importer.BuildFullTargetURL` (`core/importer/maven2/maven2.go`).

Go strings are modelled as lists of characters (`Str`), that is, as valid
UTF-8 texts read rune by rune, which is how Go's `regexp` package reads them.
A Go result `(values..., error)` is modelled as a tuple whose last component is
`Option Str`: `none` is the `nil` error and `some msg` an error with message
`msg`.  Logging calls (`utils.LogDebug`, `utils.LogError`) have no effect on the
returned values and are left out.  Paths use `/` as their separator.
-/

namespace Iscrie

/-- Go `string`, as the list of its characters. -/
abbrev Str := List Char

/-! ## The Go standard library functions the code calls -/

/-- `strings.Split(s, sep)` for a one-character separator: the pieces of `s`
between the occurrences of `sep`; a text without `sep` gives one piece. -/
def stringsSplit (s : Str) (sep : Char) : List Str :=
  match s with
  | [] => [[]]
  | c :: cs =>
    if c = sep then [] :: stringsSplit cs sep
    else
      match stringsSplit cs sep with
      | [] => [[c]]
      | seg :: more => (c :: seg) :: more

/-- `strings.Join(elems, sep)`. -/
def stringsJoin (elems : List Str) (sep : Str) : Str :=
  match elems with
  | [] => []
  | [a] => a
  | a :: b :: more => a ++ sep ++ stringsJoin (b :: more) sep

/-- `strings.ReplaceAll(s, old, new)` for one-character `old` and `new`. -/
def stringsReplaceAll (s : Str) (old new : Char) : Str :=
  s.map (fun c => if c = old then new else c)

/-- `strings.TrimSuffix(s, suffix)`: `s` without the trailing `suffix` when it
ends with it, `s` itself otherwise. -/
def stringsTrimSuffix (s suffix : Str) : Str :=
  if suffix.isSuffixOf s then s.take (s.length - suffix.length) else s

/-- The loop of `filepath.Ext`, run over the reversed path: it walks back from
the last character, stops with no extension at a path separator, and returns the
text from the first dot it meets; `seen` holds the characters already passed. -/
def extScan (rev seen : Str) : Str :=
  match rev with
  | [] => []
  | c :: more =>
    if c = '/' then []
    else if c = '.' then c :: seen
    else extScan more (c :: seen)

/-- `filepath.Ext(path)` (with `/` as the path separator). -/
def filepathExt (path : Str) : Str := extScan path.reverse []

/-! ## A backtracking matcher for the regular expressions of Go's `regexp`

Go's `regexp` returns the leftmost match and, among those, the one a
backtracking search finds first (its documented "leftmost-first" semantics).
The matcher below is that backtracking search, for the operators the pattern of
`ParseMavenFileName` uses. -/

/-- Regular expressions: the fragment used by the code. -/
inductive Re where
  /-- `^` without the `m` flag: beginning of the text -/
  | bot : Re
  /-- `$` without the `m` flag: end of the text -/
  | eot : Re
  /-- one character of a class -/
  | cls : (Char → Bool) → Re
  /-- a class repeated zero or more times, greedy (`*`) or not (`*?`) -/
  | star : (Char → Bool) → Bool → Re
  /-- concatenation -/
  | seq : Re → Re → Re
  /-- greedy `(?: ... )?` -/
  | opt : Re → Re
  /-- capturing group number `n` -/
  | cap : Nat → Re → Re

/-- Matcher state: the position in the text, the text from there on and the
capture groups recorded so far (an empty text for a group that did not take
part, as `FindStringSubmatch` reports it). -/
structure MState where
  pos : Nat
  rest : Str
  caps : List Str
deriving DecidableEq, Repr

/-- `x+` or `x+?` as `x x*` or `x x*?`. -/
def Re.plus (p : Char → Bool) (greedy : Bool) : Re := .seq (.cls p) (.star p greedy)

/-- The repetition of a class from state `(pos, s)`; `k` is the rest of the match.
Greedy: one more character first, then stop here. Non-greedy: stop here first. -/
def starRun (p : Char → Bool) (greedy : Bool) (caps : List Str)
    (k : MState → Option MState) (pos : Nat) (s : Str) : Option MState :=
  match s with
  | [] => k ⟨pos, [], caps⟩
  | c :: t =>
    if p c then
      if greedy then
        match starRun p greedy caps k (pos + 1) t with
        | some r => some r
        | none => k ⟨pos, c :: t, caps⟩
      else
        match k ⟨pos, c :: t, caps⟩ with
        | some r => some r
        | none => starRun p greedy caps k (pos + 1) t
    else k ⟨pos, c :: t, caps⟩

/-- Backtracking match of `r` from state `st`, with `k` the rest of the match:
the first success in priority order. -/
def Re.run (r : Re) (st : MState) (k : MState → Option MState) : Option MState :=
  match r with
  | .bot => if st.pos = 0 then k st else none
  | .eot => if st.rest = [] then k st else none
  | .cls p =>
    match st.rest with
    | [] => none
    | c :: t => if p c then k ⟨st.pos + 1, t, st.caps⟩ else none
  | .star p greedy => starRun p greedy st.caps k st.pos st.rest
  | .seq a b => a.run st (fun st1 => b.run st1 k)
  | .opt a =>
    match a.run st k with
    | some r => some r
    | none => k st
  | .cap n a =>
    a.run st (fun st1 =>
      k ⟨st1.pos, st1.rest, st1.caps.set n (st.rest.take (st1.pos - st.pos))⟩)

/-- One attempt of the search: the match that starts at position `pos`, where the
text from there on is `s`. The result is the whole match followed by the groups. -/
def matchAt (r : Re) (groups : Nat) (pos : Nat) (s : Str) : Option (List Str) :=
  match r.run ⟨pos, s, List.replicate (groups + 1) []⟩ some with
  | some st => some (st.caps.set 0 (s.take (st.pos - pos)))
  | none => none

/-- The search for the leftmost match: start positions are tried in order. -/
def findFrom (r : Re) (groups : Nat) (pos : Nat) (s : Str) : Option (List Str) :=
  match s with
  | [] => matchAt r groups pos []
  | c :: t =>
    match matchAt r groups pos (c :: t) with
    | some found => some found
    | none => findFrom r groups (pos + 1) t

/-- `regex.FindStringSubmatch(s)` for a pattern with `groups` capturing groups:
`none` is the `nil` slice, otherwise the whole match followed by the groups. -/
def FindStringSubmatch (r : Re) (groups : Nat) (s : Str) : Option (List Str) :=
  findFrom r groups 0 s

/-! ## `maven2_helper.go` -/

/-- The class of `.` (without the `s` flag): any character but a line feed. -/
def anyNotNL (c : Char) : Bool := c != '\n'

/-- The class `\d`. -/
def isDigit (c : Char) : Bool := c.isDigit

/-- The class `[\w\.-]`: ASCII letters, digits, `_`, `.` and `-`. -/
def isWordDotHyphen (c : Char) : Bool := c.isAlphanum || c == '_' || c == '.' || c == '-'

/-- The literal `-`. -/
def isHyphen (c : Char) : Bool := c == '-'

/-- Group 1, `(.+?)`. -/
def artifactGroup : Re := .cap 1 (Re.plus anyNotNL false)

/-- Group 2, `(\d[\w\.-]*?)`. -/
def versionGroup : Re := .cap 2 (.seq (.cls isDigit) (.star isWordDotHyphen false))

/-- The optional tail `(?:-([\w\.-]+))?` with group 3. -/
def classifierGroup : Re :=
  .opt (.seq (.cls isHyphen) (.cap 3 (Re.plus isWordDotHyphen true)))

/-- The pattern `^(.+?)-(\d[\w\.-]*?)(?:-([\w\.-]+))?$`. -/
def mavenFileNameRegex : Re :=
  .seq .bot (.seq artifactGroup (.seq (.cls isHyphen)
    (.seq versionGroup (.seq classifierGroup .eot))))

/-- The base name matched by `ParseMavenFileName`:
`strings.TrimSuffix(fileName, filepath.Ext(fileName))`. -/
def baseName (fileName : Str) : Str := stringsTrimSuffix fileName (filepathExt fileName)

/-- The `matches` slice of `ParseMavenFileName`. -/
def fileNameMatches (fileName : Str) : Option (List Str) :=
  FindStringSubmatch mavenFileNameRegex 3 (baseName fileName)

/-- `ParseMavenFileName(fileName, versionFromPath)`, returning
`(artifactID, version, classifier, extension, err)`. -/
def ParseMavenFileName (fileName versionFromPath : Str) :
    Str × Str × Str × Str × Option Str :=
  let extension := filepathExt fileName
  match fileNameMatches fileName with
  | none =>
    ([], [], [], [], some ("failed to parse file name '".toList ++ fileName ++
      "'. Regex did not match".toList))
  | some found =>
    if found.length < 3 then
      ([], [], [], [], some ("failed to parse file name '".toList ++ fileName ++
        "'. Regex did not match".toList))
    else
      let artifactID := found.getD 1 []
      let parsedVersion := found.getD 2 []
      let classifierCandidate := found.getD 3 []
      if parsedVersion = versionFromPath then
        (artifactID, parsedVersion, classifierCandidate, extension, none)
      else
        (artifactID, versionFromPath, parsedVersion, extension, none)

/-- `GenerateMavenPath(groupID, artifactID, version, classifier, extension)`. -/
def GenerateMavenPath (groupID artifactID version classifier extension : Str) : Str :=
  let basePath := stringsReplaceAll groupID '.' '/' ++ "/".toList ++ artifactID ++
    "/".toList ++ version
  if classifier ≠ [] then
    basePath ++ "/".toList ++ artifactID ++ "-".toList ++ version ++ "-".toList ++
      classifier ++ extension
  else
    basePath ++ "/".toList ++ artifactID ++ "-".toList ++ version ++ extension

/-! ## `maven2.go` -/

/-- The fields of `Maven2Importer` that `BuildFullTargetURL` reads, and
`ForceReplace`; the HTTP client adapter plays no part in the URL. -/
structure Maven2Importer where
  BaseURL : Str
  Repository : Str
  RootPath : Str
  ForceReplace : Bool

/-- The body of `Maven2Importer.BuildFullTargetURL(filePath)`, returning
`(url, err)`.  The three functions it calls are parameters: `filepathRel` stands
for the standard library's `filepath.Rel`, `parse` for `ParseMavenFileName` and
`generate` for `GenerateMavenPath`.  `filepath.ToSlash` is the identity where
`/` is the path separator. -/
def BuildFullTargetURLWith (filepathRel : Str → Str → Str × Option Str)
    (parse : Str → Str → Str × Str × Str × Str × Option Str)
    (generate : Str → Str → Str → Str → Str → Str)
    (mi : Maven2Importer) (filePath : Str) : Str × Option Str :=
  match filepathRel mi.RootPath filePath with
  | (_, some err) => ([], some ("failed to compute relative path: ".toList ++ err))
  | (relativePath, none) =>
    let normalizedPath := relativePath
    let segments := stringsSplit normalizedPath '/'
    if segments.length < 3 then
      ([], some ("invalid Maven2 path: ".toList ++ normalizedPath))
    else
      let groupID := stringsJoin (segments.take (segments.length - 3)) ".".toList
      let version := segments.getD (segments.length - 2) []
      let fileName := segments.getD (segments.length - 1) []
      match parse fileName version with
      | (_, _, _, _, some err) =>
        ([], some ("failed to parse Maven file name '".toList ++ fileName ++
          "': ".toList ++ err))
      | (artifactID, parsedVersion, classifier, extension, none) =>
        let mavenPath := generate groupID artifactID parsedVersion classifier extension
        (mi.BaseURL ++ "/repository/".toList ++ mi.Repository ++ "/".toList ++ mavenPath,
          none)

/-- `Maven2Importer.BuildFullTargetURL(filePath)`. -/
def BuildFullTargetURL (filepathRel : Str → Str → Str × Option Str)
    (mi : Maven2Importer) (filePath : Str) : Str × Option Str :=
  BuildFullTargetURLWith filepathRel ParseMavenFileName GenerateMavenPath mi filePath

/-! ## `network/middleware/retry.go`

Go's `int` is taken to be 64 bits wide (as on amd64 and arm64) and
`time.Duration` is an `int64` count of nanoseconds; both wrap around on overflow.
An operation `func() error` is modelled as a function from the state of the
world to the error it returns and the new state. `Retry` can fail to return, so
its loop is given a bound `fuel` on the number of iterations it may run: the
result `none` means that the loop is still running after `fuel` iterations. -/

/-- The value a 64-bit signed integer takes when the exact result of an
arithmetic operation is `x`. -/
def wrapInt64 (x : Int) : Int :=
  (x + 9223372036854775808) % 18446744073709551616 - 9223372036854775808

/-- `math.MaxInt64`. -/
def maxInt64 : Int := 9223372036854775807

/-- `math.MinInt64`. -/
def minInt64 : Int := -9223372036854775808

/-- The verb `%d` on an integer. -/
def fmtInt (n : Int) : Str := (toString n).toList

/-- The verb `%w` (or `%v`) on an error. -/
def fmtError (e : Option Str) : Str :=
  match e with
  | some msg => msg
  | none => "%!w(<nil>)".toList

/-- What `Retry` does, in order: an invocation of the operation, with the error
it returned, or a call of `time.Sleep`, with its argument. -/
inductive RetryEvent where
  | call (result : Option Str) : RetryEvent
  | sleep (d : Int) : RetryEvent
deriving DecidableEq, Repr

/-- The outcome of a run: the returned error, the state of the world and the
invocations and sleeps of the run, in order. -/
structure RetryResult (σ : Type) where
  err : Option Str
  state : σ
  events : List RetryEvent
deriving DecidableEq

/-- The error returned after the loop of `Retry`. -/
def retryExhausted (attempts : Int) (lastErr : Option Str) : Str :=
  "Operation failed after ".toList ++ fmtInt attempts ++ " attempts: ".toList ++
    fmtError lastErr

/-- The `for` loop of `Retry` from the test `attempt <= attempts` on, and the
`return` that follows it. -/
def retryLoop {σ : Type} (operation : σ → Option Str × σ) (attempts : Int) (fuel : Nat)
    (attempt delay : Int) (lastErr : Option Str) (s : σ) : Option (RetryResult σ) :=
  match fuel with
  | 0 =>
    if attempt ≤ attempts then none
    else some ⟨some (retryExhausted attempts lastErr), s, []⟩
  | fuel + 1 =>
    if attempt ≤ attempts then
      match operation s with
      | (none, s1) => some ⟨none, s1, [RetryEvent.call none]⟩
      | (some e, s1) =>
        if attempt < attempts then
          (retryLoop operation attempts fuel (wrapInt64 (attempt + 1)) (wrapInt64 (delay * 2))
            (some e) s1).map
            (fun r => ⟨r.err, r.state,
              RetryEvent.call (some e) :: RetryEvent.sleep delay :: r.events⟩)
        else
          (retryLoop operation attempts fuel (wrapInt64 (attempt + 1)) delay (some e) s1).map
            (fun r => ⟨r.err, r.state, RetryEvent.call (some e) :: r.events⟩)
    else some ⟨some (retryExhausted attempts lastErr), s, []⟩

/-- `Retry(attempts, delay, operation)` run from the state `s`. -/
def Retry {σ : Type} (fuel : Nat) (attempts delay : Int) (operation : σ → Option Str × σ)
    (s : σ) : Option (RetryResult σ) :=
  if attempts ≤ 0 then some ⟨some "Attempts must be greater than 0".toList, s, []⟩
  else retryLoop operation attempts fuel 1 delay none s

/-- The number of invocations of the operation among the events. -/
def callCount (events : List RetryEvent) : Nat :=
  match events with
  | [] => 0
  | RetryEvent.call _ :: rest => callCount rest + 1
  | RetryEvent.sleep _ :: rest => callCount rest

/-- The arguments of the calls of `time.Sleep` among the events, in order. -/
def sleepsOf (events : List RetryEvent) : List Int :=
  match events with
  | [] => []
  | RetryEvent.call _ :: rest => sleepsOf rest
  | RetryEvent.sleep d :: rest => d :: sleepsOf rest

/-- The state of the world after `k` invocations of the operation. -/
def stateAfter {σ : Type} (operation : σ → Option Str × σ) (s : σ) (k : Nat) : σ :=
  match k with
  | 0 => s
  | k + 1 => stateAfter operation (operation s).2 k

/-- The errors returned by the first `k` invocations of the operation. -/
def firstResults {σ : Type} (operation : σ → Option Str × σ) (s : σ) (k : Nat) :
    List (Option Str) :=
  match k with
  | 0 => []
  | k + 1 => (operation s).1 :: firstResults operation (operation s).2 k

/-- The error returned by the invocation number `k + 1` of the operation. -/
def resultOf {σ : Type} (operation : σ → Option Str × σ) (s : σ) (k : Nat) : Option Str :=
  (operation (stateAfter operation s k)).1

/-- Attempts that are each followed by a sleep, the first sleep lasting `delay`
and each next one twice the one before (in 64-bit arithmetic). -/
def backoffEvents (delay : Int) (results : List (Option Str)) : List RetryEvent :=
  match results with
  | [] => []
  | r :: rest =>
    RetryEvent.call r :: RetryEvent.sleep delay :: backoffEvents (wrapInt64 (delay * 2)) rest

/-- The loop of `Retry` with `n` attempts left, when its counter does not
overflow. -/
def retryTotal {σ : Type} (operation : σ → Option Str × σ) (attempts : Int) (n : Nat)
    (delay : Int) (lastErr : Option Str) (s : σ) : RetryResult σ :=
  match n with
  | 0 => ⟨some (retryExhausted attempts lastErr), s, []⟩
  | n + 1 =>
    match operation s with
    | (none, s1) => ⟨none, s1, [RetryEvent.call none]⟩
    | (some e, s1) =>
      if n = 0 then
        ⟨some (retryExhausted attempts (some e)), s1, [RetryEvent.call (some e)]⟩
      else
        ⟨(retryTotal operation attempts n (wrapInt64 (delay * 2)) (some e) s1).err,
          (retryTotal operation attempts n (wrapInt64 (delay * 2)) (some e) s1).state,
          RetryEvent.call (some e) :: RetryEvent.sleep delay ::
            (retryTotal operation attempts n (wrapInt64 (delay * 2)) (some e) s1).events⟩

/-! ## `network/http_client.go`, `core/importer/upload.go` and the upload
functions of the importers

The file system and the HTTP transport are the environment of the upload. The
file system is a function from paths to what `os.Open` and `file.Stat` find
there; it does not change during an upload. The transport (`http.Client.Do`) is
a function of the request and of the state of the network. The world records
the calls that the claims count. -/

/-- An `http.Request`: method, URL, the path of the open file that is its body,
and the headers that were set. -/
structure Request where
  method : Str
  url : Str
  body : Str
  headers : List (Str × Str)
deriving DecidableEq

/-- An `http.Response`, reduced to its status code. -/
structure Response where
  statusCode : Int
deriving DecidableEq

/-- What `os.Open(path)` followed by `file.Stat()` finds at a path: an error of
`os.Open`, an error of `Stat`, or a file of a given size. -/
inductive FileEntry where
  | openError (msg : Str) : FileEntry
  | statError (msg : Str) : FileEntry
  | regular (size : Int) : FileEntry
deriving DecidableEq

/-- The environment of an upload: the file system, the error of
`http.NewRequest(method, url, body)` if any, the value of the `Authorization`
header that `SetBasicAuth` builds, and `http.Client.Do` as a function of the
request and the state of the network. -/
structure UploadEnv (τ : Type) where
  fileSystem : Str → FileEntry
  newRequestError : Str → Str → Option Str
  basicAuth : Str → Str → Str
  clientDo : Request → τ → Except Str Response × τ

/-- The state of the world during an upload: the state of the network, the
paths passed to `os.Open`, the number of calls of `CreatePutRequest` and the
requests passed to `HTTPClientAdapter.Do`, in order. -/
structure UploadWorld (τ : Type) where
  net : τ
  opened : List Str
  prepared : Nat
  sent : List Request
deriving DecidableEq

/-- `Authenticator`. -/
structure Authenticator where
  authType : Str
  userToken : Str
  passToken : Str
  accessToken : Str
  headerName : Str
  headerValue : Str
deriving DecidableEq

/-- `HTTPClientAdapter`, with the authenticator of its `HTTPClient` (`none` when
that pointer is `nil`). -/
structure HTTPClientAdapter where
  authenticator : Option Authenticator
  BaseURL : Str
  Repository : Str
  ForceReplace : Bool
deriving DecidableEq

/-- `req.Header.Set(key, value)`: the value replaces the ones the key had. Keys
are compared as they are given: the canonical form that `net/http` gives to
header names is not modelled. -/
def headerSet (headers : List (Str × Str)) (key value : Str) : List (Str × Str) :=
  headers.filter (fun kv => kv.1 != key) ++ [(key, value)]

/-- The verb `%v` on a boolean. -/
def fmtBool (b : Bool) : Str := if b then "true".toList else "false".toList

/-- `AddCommonHeaders(req, forceReplace)`. -/
def AddCommonHeaders (req : Request) (forceReplace : Bool) : Request :=
  { req with headers :=
      (headerSet
        (headerSet req.headers "X-Content-Force-Replace".toList (fmtBool forceReplace))
        "Content-Type".toList "application/json".toList) }

/-- `Authenticator.Apply(req)`: the request with the authentication header, and
the error. -/
def Authenticator.Apply (basicAuth : Str → Str → Str) (a : Authenticator) (req : Request) :
    Request × Option Str :=
  if a.authType = "basic".toList then
    ({ req with headers :=
        (headerSet req.headers "Authorization".toList (basicAuth a.userToken a.passToken)) },
      none)
  else if a.authType = "bearer".toList then
    ({ req with headers :=
        (headerSet req.headers "Authorization".toList ("Bearer ".toList ++ a.accessToken)) },
      none)
  else if a.authType = "header".toList then
    ({ req with headers := headerSet req.headers a.headerName a.headerValue }, none)
  else (req, some ("unsupported authentication type: ".toList ++ a.authType))

/-- `HTTPClientAdapter.CreatePutRequest(urlStr, filePath)`: the request (the open
file is its body) or the error. -/
def CreatePutRequest {τ : Type} (env : UploadEnv τ) (_hc : HTTPClientAdapter)
    (urlStr filePath : Str) (w : UploadWorld τ) : Except Str Request × UploadWorld τ :=
  let w1 : UploadWorld τ :=
    { w with prepared := w.prepared + 1, opened := w.opened ++ [filePath] }
  match env.fileSystem filePath with
  | FileEntry.openError msg =>
    (Except.error ("Failed to open file '".toList ++ filePath ++ "': ".toList ++ msg), w1)
  | FileEntry.statError msg =>
    (Except.error ("Failed to retrieve file information for '".toList ++ filePath ++
      "': ".toList ++ msg), w1)
  | FileEntry.regular size =>
    if size = 0 then
      (Except.error ("File '".toList ++ filePath ++ "' is empty".toList), w1)
    else
      match env.newRequestError "PUT".toList urlStr with
      | some msg => (Except.error ("Failed to create PUT request: ".toList ++ msg), w1)
      | none => (Except.ok (AddCommonHeaders ⟨"PUT".toList, urlStr, filePath, []⟩ false), w1)

/-- The call of `hc.HTTPClient.Client.Do(req)` in `HTTPClientAdapter.Do`, and
what follows it. -/
def clientCall {τ : Type} (env : UploadEnv τ) (req : Request) (w : UploadWorld τ) :
    Except Str Response × UploadWorld τ :=
  match env.clientDo req w.net with
  | (Except.error msg, net1) =>
    (Except.error ("HTTP Request failed: ".toList ++ msg), { w with net := net1 })
  | (Except.ok resp, net1) => (Except.ok resp, { w with net := net1 })

/-- `HTTPClientAdapter.Do(req)`. -/
def HTTPClientAdapter.Do {τ : Type} (env : UploadEnv τ) (hc : HTTPClientAdapter)
    (req : Request) (w : UploadWorld τ) : Except Str Response × UploadWorld τ :=
  let w1 : UploadWorld τ := { w with sent := w.sent ++ [req] }
  match hc.authenticator with
  | some a =>
    match a.Apply env.basicAuth req with
    | (_, some err) =>
      (Except.error ("Failed to apply authentication: ".toList ++ err), w1)
    | (req1, none) => clientCall env req1 w1
  | none => clientCall env req w1

/-- The operation that `UploadFileWithRetry` passes to `Retry`: one upload
attempt. -/
def uploadAttempt {τ : Type} (env : UploadEnv τ) (uploader : HTTPClientAdapter)
    (fullURL filePath : Str) (w : UploadWorld τ) : Option Str × UploadWorld τ :=
  match CreatePutRequest env uploader fullURL filePath w with
  | (Except.error err, w1) =>
    (some ("failed to prepare request for file '".toList ++ filePath ++ "': ".toList ++ err),
      w1)
  | (Except.ok req, w1) =>
    match uploader.Do env req w1 with
    | (Except.error err, w2) =>
      (some ("failed to upload file '".toList ++ filePath ++ "': ".toList ++ err), w2)
    | (Except.ok resp, w2) =>
      if resp.statusCode ≠ 201 ∧ resp.statusCode ≠ 200 then
        (some ("unexpected response status ".toList ++ fmtInt resp.statusCode ++
          " for file '".toList ++ filePath ++ "'".toList), w2)
      else (none, w2)

/-- `UploadFileWithRetry(uploader, fullURL, filePath, retryAttempts, ...)`. -/
def UploadFileWithRetry {τ : Type} (env : UploadEnv τ) (fuel : Nat)
    (uploader : HTTPClientAdapter) (fullURL filePath : Str) (retryAttempts : Int)
    (w : UploadWorld τ) : Option (RetryResult (UploadWorld τ)) :=
  Retry fuel retryAttempts 2000000000 (uploadAttempt env uploader fullURL filePath) w

/-- The body of `Maven2Importer.UploadMaven2File(filePath, retryAttempts, ...)`,
with the function that builds the URL and the function that uploads as
parameters. The preview of the file (its first 100 bytes, for the log) does not
change the result. -/
def UploadMaven2FileWith {τ : Type} (build : Str → Str × Option Str)
    (upload : Str → Str → Int → UploadWorld τ → Option (RetryResult (UploadWorld τ)))
    (env : UploadEnv τ) (filePath : Str) (retryAttempts : Int) (w : UploadWorld τ) :
    Option (RetryResult (UploadWorld τ)) :=
  match build filePath with
  | (_, some err) => some ⟨some ("failed to build full URL: ".toList ++ err), w, []⟩
  | (fullURL, none) =>
    let w1 : UploadWorld τ := { w with opened := w.opened ++ [filePath] }
    match env.fileSystem filePath with
    | FileEntry.openError msg =>
      some ⟨some ("failed to open file '".toList ++ filePath ++ "': ".toList ++ msg), w1, []⟩
    | _ => upload fullURL filePath retryAttempts w1

/-- `Maven2Importer.UploadMaven2File(filePath, retryAttempts, ...)`; `uploader`
is the adapter `mi.HTTPClient`. -/
def UploadMaven2File {τ : Type} (env : UploadEnv τ) (filepathRel : Str → Str → Str × Option Str)
    (fuel : Nat) (mi : Maven2Importer) (uploader : HTTPClientAdapter) (filePath : Str)
    (retryAttempts : Int) (w : UploadWorld τ) : Option (RetryResult (UploadWorld τ)) :=
  UploadMaven2FileWith (BuildFullTargetURL filepathRel mi)
    (UploadFileWithRetry env fuel uploader) env filePath retryAttempts w

/-- `RawImporter`, without its HTTP client and configuration. -/
structure RawImporter where
  BaseURL : Str
  Repository : Str
  RootPath : Str
  ForceReplace : Bool

/-- `FormatRawErrorMessage`, which is also the message of a `RawError`. -/
def FormatRawErrorMessage (filePath relativePath errorMessage : Str) : Str :=
  "Raw Error - File: ".toList ++ filePath ++ ", Relative Path: ".toList ++ relativePath ++
    ", Error: ".toList ++ errorMessage

/-- `utils.NormalizeBaseURL`. -/
def NormalizeBaseURL (baseURL : Str) : Str :=
  if "/".toList.isSuffixOf baseURL then baseURL else baseURL ++ "/".toList

/-- `RawImporter.BuildTargetURL(filePath)`; `filepathAbs` and `filepathRel` stand
for `filepath.Abs` and `filepath.Rel`. -/
def BuildTargetURL (filepathAbs : Str → Str × Option Str)
    (filepathRel : Str → Str → Str × Option Str) (ri : RawImporter) (filePath : Str) :
    Str × Option Str :=
  if filePath = [] then
    ([], some (FormatRawErrorMessage filePath [] "file path cannot be empty".toList))
  else
    match filepathAbs filePath with
    | (_, some err) =>
      ([], some (FormatRawErrorMessage filePath []
        ("failed to normalize path: ".toList ++ err)))
    | (normalizedPath, none) =>
      match filepathRel ri.RootPath normalizedPath with
      | (_, some err) =>
        ([], some (FormatRawErrorMessage normalizedPath []
          ("failed to compute relative path: ".toList ++ err)))
      | (relativePath, none) =>
        (NormalizeBaseURL ri.BaseURL ++ "repository/".toList ++ ri.Repository ++
          "/".toList ++ relativePath, none)

/-- The body of `RawImporter.UploadRawFile(filePath, retryAttempts, ...)`, with
the function that builds the URL and the function that uploads as parameters. -/
def UploadRawFileWith {τ : Type} (build : Str → Str × Option Str)
    (upload : Str → Str → Int → UploadWorld τ → Option (RetryResult (UploadWorld τ)))
    (filePath : Str) (retryAttempts : Int) (w : UploadWorld τ) :
    Option (RetryResult (UploadWorld τ)) :=
  match build filePath with
  | (_, some err) => some ⟨some ("failed to build target URL: ".toList ++ err), w, []⟩
  | (targetURL, none) => upload targetURL filePath retryAttempts w

/-- `RawImporter.UploadRawFile(filePath, retryAttempts, ...)`; `uploader` is the
adapter `ri.HTTPClient`. -/
def UploadRawFile {τ : Type} (env : UploadEnv τ) (filepathAbs : Str → Str × Option Str)
    (filepathRel : Str → Str → Str × Option Str) (fuel : Nat) (ri : RawImporter)
    (uploader : HTTPClientAdapter) (filePath : Str) (retryAttempts : Int)
    (w : UploadWorld τ) : Option (RetryResult (UploadWorld τ)) :=
  UploadRawFileWith (BuildTargetURL filepathAbs filepathRel ri)
    (UploadFileWithRetry env fuel uploader) filePath retryAttempts w

/-- The error of an upload attempt on a zero-length file. -/
def emptyFileError (filePath : Str) : Str :=
  "failed to prepare request for file '".toList ++ filePath ++ "': ".toList ++
    ("File '".toList ++ filePath ++ "' is empty".toList)

/-- An environment in which every file is empty and the transport answers 201. -/
def emptyFilesEnv : UploadEnv Unit :=
  { fileSystem := fun _ => FileEntry.regular 0
    newRequestError := fun _ _ => none
    basicAuth := fun _ _ => []
    clientDo := fun _ net => (Except.ok ⟨201⟩, net) }

/-- An environment in which every file has 18 bytes and the transport answers
with the status code `net`, which it then sets to 201. -/
def flakyEnv : UploadEnv Int :=
  { fileSystem := fun _ => FileEntry.regular 18
    newRequestError := fun _ _ => none
    basicAuth := fun _ _ => []
    clientDo := fun _ net => (Except.ok ⟨net⟩, 201) }

/-- An adapter without authenticator. -/
def plainAdapter : HTTPClientAdapter :=
  { authenticator := none
    BaseURL := "http://nexus:8081".toList
    Repository := "releases".toList
    ForceReplace := false }

/-! ## `core/importer/batch.go`

`ProcessBatch` runs one goroutine per item next to the main goroutine. It is
modelled as a transition system: a state holds what each goroutine has still to
do, and a step is the next action of one goroutine, chosen by a scheduler. An
execution is the list of the scheduler's choices. The processing function is a
function from an item to the error it returns. The items are of a type whose
values can be keys of a Go map with `==` as equality (such as `string`). -/

/-- A goroutine started by the loop of `ProcessBatch`, by what it has still to
do: call `process`, send the error that `process` returned, run the deferred
function (`<-semaphore`, then `wg.Done()`), or only `wg.Done()`. -/
inductive Worker (T : Type) where
  | spawned (item : T) : Worker T
  | failed (item : T) (err : Str) : Worker T
  | finished (item : T) : Worker T
  | released (item : T) : Worker T
deriving DecidableEq

/-- Whether the goroutine still holds its slot of `semaphore`. -/
def Worker.holdsSlot {T : Type} (w : Worker T) : Bool :=
  match w with
  | Worker.released _ => false
  | _ => true

/-- The state of a run of `ProcessBatch`: the items the loop has not reached,
the live goroutines, the content of `errChan` in the order of the sends, the
arguments of the calls of `process` made so far, in order, and the returned
value once the main goroutine has returned (`none` for `nil`, otherwise the map
of the `BatchError`). -/
structure BatchState (T : Type) where
  pending : List T
  workers : List (Worker T)
  errChan : List (T × Str)
  calls : List T
  result : Option (Option (List (T × Str)))
deriving DecidableEq

/-- A choice of the scheduler: the main goroutine or the live goroutine number
`k`. -/
inductive Choice where
  | main : Choice
  | worker (k : Nat) : Choice
deriving DecidableEq

/-- `errors[key] = value` on a Go map, kept as the list of its entries. -/
def mapSet {T : Type} [DecidableEq T] (m : List (T × Str)) (key : T) (value : Str) :
    List (T × Str) :=
  match m with
  | [] => [(key, value)]
  | (k, v) :: rest => if k = key then (key, value) :: rest else (k, v) :: mapSet rest key value

/-- The map built by the loop `for result := range errChan`. -/
def collectErrors {T : Type} [DecidableEq T] (errChan : List (T × Str)) : List (T × Str) :=
  errChan.foldl (fun m kv => mapSet m kv.1 kv.2) []

/-- The number of slots of `semaphore` that are taken. -/
def slotsUsed {T : Type} (workers : List (Worker T)) : Nat :=
  (workers.filter Worker.holdsSlot).length

/-- The next action of the main goroutine. In the loop: `wg.Add(1)`, the send on
`semaphore`, which needs a free slot, and the `go` statement. After the loop:
`wg.Wait()`, which needs every goroutine to be done, then the collection of the
errors and the `return`. `none` when the main goroutine is blocked or has
returned. -/
def mainStep {T : Type} [DecidableEq T] (capacity : Nat) (st : BatchState T) :
    Option (BatchState T) :=
  match st.result with
  | some _ => none
  | none =>
    match st.pending with
    | item :: rest =>
      if slotsUsed st.workers < capacity then
        some { st with pending := rest, workers := st.workers ++ [Worker.spawned item] }
      else none
    | [] =>
      match st.workers with
      | [] =>
        let errors := collectErrors st.errChan
        some { st with result := some (if 0 < errors.length then some errors else none) }
      | _ :: _ => none

/-- The next action of the live goroutine number `k`. -/
def workerStep {T : Type} (process : T → Option Str) (k : Nat) (st : BatchState T) :
    Option (BatchState T) :=
  match st.workers.get? k with
  | none => none
  | some (Worker.spawned item) =>
    match process item with
    | none =>
      some { st with workers := st.workers.set k (Worker.finished item),
                     calls := st.calls ++ [item] }
    | some err =>
      some { st with workers := st.workers.set k (Worker.failed item err),
                     calls := st.calls ++ [item] }
  | some (Worker.failed item err) =>
    some { st with workers := st.workers.set k (Worker.finished item),
                   errChan := st.errChan ++ [(item, err)] }
  | some (Worker.finished item) =>
    some { st with workers := st.workers.set k (Worker.released item) }
  | some (Worker.released _) =>
    some { st with workers := st.workers.eraseIdx k }

/-- One step of the run, for a choice of the scheduler. -/
def batchStep {T : Type} [DecidableEq T] (process : T → Option Str) (capacity : Nat)
    (st : BatchState T) (c : Choice) : Option (BatchState T) :=
  match c with
  | Choice.main => mainStep capacity st
  | Choice.worker k => workerStep process k st

/-- The state reached from `st` by a list of choices; `none` when one of them is
not possible. -/
def batchRun {T : Type} [DecidableEq T] (process : T → Option Str) (capacity : Nat)
    (schedule : List Choice) (st : BatchState T) : Option (BatchState T) :=
  match schedule with
  | [] => some st
  | c :: rest =>
    match batchStep process capacity st c with
    | none => none
    | some st1 => batchRun process capacity rest st1

/-- The capacity of `semaphore`: `batchSize`, or 1 when `batchSize <= 0`. -/
def batchCapacity (batchSize : Int) : Nat :=
  if batchSize ≤ 0 then 1 else batchSize.toNat

/-- `ProcessBatch(items, batchSize, process)` under a schedule: the state that
the run reaches. -/
def ProcessBatch {T : Type} [DecidableEq T] (items : List T) (batchSize : Int)
    (process : T → Option Str) (schedule : List Choice) : Option (BatchState T) :=
  batchRun process (batchCapacity batchSize) schedule ⟨items, [], [], [], none⟩

/-- The items of the goroutines that have not called `process` yet. -/
def spawnedItems {T : Type} (workers : List (Worker T)) : List T :=
  match workers with
  | [] => []
  | Worker.spawned item :: rest => item :: spawnedItems rest
  | _ :: rest => spawnedItems rest

/-- The number of steps a goroutine has still to make, at most. -/
def Worker.stepsLeft {T : Type} (w : Worker T) : Nat :=
  match w with
  | Worker.spawned _ => 4
  | Worker.failed _ _ => 3
  | Worker.finished _ => 2
  | Worker.released _ => 1

/-- A bound on the number of steps a run has still to make. -/
def stepsLeft {T : Type} (st : BatchState T) : Nat :=
  5 * st.pending.length + (st.workers.map Worker.stepsLeft).sum +
    (if st.result.isNone then 1 else 0)

/-- What holds in every state of a run on `items`: each item is either still to
be reached by the loop, or given to a goroutine that has not called `process`
yet, or among the arguments of the calls made; and once the main goroutine has
returned, the loop is over and no goroutine is left. -/
def BatchInv {T : Type} (items : List T) (st : BatchState T) : Prop :=
  ((st.calls : Multiset T) + (spawnedItems st.workers : Multiset T) +
      (st.pending : Multiset T) = (items : Multiset T)) ∧
    (st.result ≠ none → st.pending = [] ∧ st.workers = [])

/-- `FormatBatchErrorMessage(errors)`: the message of a `BatchError`. -/
def FormatBatchErrorMessage {T : Type} (errors : List (T × Str)) : Str :=
  "Batch processing failed for ".toList ++ fmtInt (errors.length : Int) ++ " items".toList

/-- What a goroutine sends on `errChan` after its call of `process` on `item`:
the item with the error, when there is one. -/
def failureOf {T : Type} (process : T → Option Str) (item : T) : Option (T × Str) :=
  match process item with
  | none => none
  | some err => some (item, err)

/-- Whether the processing of `item` fails. -/
def fails {T : Type} (process : T → Option Str) (item : T) : Bool := (process item).isSome

/-- The errors that goroutines hold and have not sent on `errChan` yet. -/
def failedEntries {T : Type} (workers : List (Worker T)) : List (T × Str) :=
  match workers with
  | [] => []
  | Worker.failed item err :: rest => (item, err) :: failedEntries rest
  | _ :: rest => failedEntries rest

/-- What holds of the errors in every state of a run: the errors sent on
`errChan` and those still held by a goroutine are the errors of the calls of
`process` made so far; and the returned value is the map collected from
`errChan`, or `nil` when that map is empty. -/
def ErrInv {T : Type} [DecidableEq T] (process : T → Option Str) (st : BatchState T) : Prop :=
  ((st.errChan : Multiset (T × Str)) + (failedEntries st.workers : Multiset (T × Str)) =
      (st.calls.filterMap (failureOf process) : Multiset (T × Str))) ∧
    (∀ r, st.result = some r →
      r = if 0 < (collectErrors st.errChan).length then some (collectErrors st.errChan)
        else none)

/-! ## `cmd/main.go`: `processFiles`

`filepath.WalkDir` calls the function it is given once for each entry it
reaches, and once more with an error for a directory it could not read; the
function of `processFiles` always returns `nil`, so the walk is never cut short
by it. A walk is modelled by the list of these calls. The two upload methods are
parameters: functions from the path, the number of attempts and the state of the
world to the error returned and the new state. The three counters are Go `int`s,
taken to be 64 bits wide. -/

/-- One call of the function given to `filepath.WalkDir`: the path, whether the
entry is a directory, and the error of the traversal, if any. -/
structure WalkEntry where
  path : Str
  isDir : Bool
  err : Option Str
deriving DecidableEq

/-- The variables of `processFiles` that the function given to `WalkDir`
updates, with the state of the world. -/
structure WalkState (ω : Type) where
  totalFiles : Int
  successfulUploads : Int
  failedUploads : Int
  uploadErrors : List Str
  world : ω

/-- Whether the entry is counted as a file: no traversal error and not a
directory. -/
def WalkEntry.isFile (e : WalkEntry) : Bool := e.err.isNone && !e.isDir

/-- The function that `processFiles` gives to `filepath.WalkDir`. -/
def walkFn {ω : Type} (repositoryType : Str) (retryAttempts : Int)
    (uploadMaven2 uploadRaw : Str → Int → ω → Option Str × ω)
    (st : WalkState ω) (e : WalkEntry) : WalkState ω :=
  match e.err with
  | some err =>
    { st with uploadErrors := st.uploadErrors ++
        ["error accessing path ".toList ++ e.path ++ ": ".toList ++ err] }
  | none =>
    if !e.isDir then
      let totalFiles := wrapInt64 (st.totalFiles + 1)
      let outcome :=
        if repositoryType = "maven2".toList then uploadMaven2 e.path retryAttempts st.world
        else if repositoryType = "raw".toList then uploadRaw e.path retryAttempts st.world
        else (none, st.world)
      match outcome with
      | (some uploadErr, world) =>
        ⟨totalFiles, st.successfulUploads, wrapInt64 (st.failedUploads + 1),
          st.uploadErrors ++
            ["failed to upload file ".toList ++ e.path ++ ": ".toList ++ uploadErr],
          world⟩
      | (none, world) =>
        ⟨totalFiles, wrapInt64 (st.successfulUploads + 1), st.failedUploads,
          st.uploadErrors, world⟩
    else st

/-- `processFiles`, on the calls that the walk makes: the values of
`totalFiles`, `successfulUploads`, `failedUploads` and `uploadErrors` when the
summary is logged. -/
def processFiles {ω : Type} (repositoryType : Str) (retryAttempts : Int)
    (uploadMaven2 uploadRaw : Str → Int → ω → Option Str × ω)
    (entries : List WalkEntry) (world : ω) : WalkState ω :=
  entries.foldl (walkFn repositoryType retryAttempts uploadMaven2 uploadRaw)
    ⟨0, 0, 0, [], world⟩

/-- The upload of one file under a repository type: `UploadMaven2File` for
`maven2`, `UploadRawFile` for `raw`, each with the configured number of
attempts; for any other type nothing is called and the upload error stays
`nil`. -/
def uploadOf {ω : Type} (repositoryType : Str) (retryAttempts : Int)
    (uploadMaven2 uploadRaw : Str → Int → ω → Option Str × ω)
    (path : Str) (world : ω) : Option Str × ω :=
  if repositoryType = "maven2".toList then uploadMaven2 path retryAttempts world
  else if repositoryType = "raw".toList then uploadRaw path retryAttempts world
  else (none, world)

/-- What the uploads of a walk returned, told without the counters: for each
entry that is not a directory and came without a traversal error, in the order
of the walk, its path and the error that the upload returned (`none` for `nil`);
each upload starts in the world that the one before it left. -/
def uploadOutcomes {ω : Type} (upload : Str → ω → Option Str × ω) :
    List WalkEntry → ω → List (Str × Option Str)
  | [], _ => []
  | e :: rest, world =>
    if e.isFile then
      (e.path, (upload e.path world).1) :: uploadOutcomes upload rest (upload e.path world).2
    else uploadOutcomes upload rest world

/-- The number of uploads that returned an error. -/
def failedCount (uploads : List (Str × Option Str)) : Nat :=
  (uploads.filter (fun u => u.2.isSome)).length

/-- The number of uploads that returned `nil`. -/
def succeededCount (uploads : List (Str × Option Str)) : Nat :=
  (uploads.filter (fun u => u.2.isNone)).length

/-- An upload method for the examples: the world counts the uploads made so far,
and every upload fails but the second one. -/
def failsButSecond (_path : Str) (_retryAttempts : Int) (made : Nat) : Option Str × Nat :=
  (if made = 1 then none else some "boom".toList, made + 1)

/-- A walk for the examples: a directory, three files in it, and a directory
that cannot be read. -/
def sampleWalk : List WalkEntry :=
  [⟨"d".toList, true, none⟩, ⟨"d/a.jar".toList, false, none⟩,
    ⟨"locked".toList, true, none⟩, ⟨"locked".toList, true, some "denied".toList⟩,
    ⟨"d/b.jar".toList, false, none⟩, ⟨"d/c.jar".toList, false, none⟩]

/-- `NewHTTPClientAdapter(httpClient, baseURL, repository, forceReplace)`, with the
authenticator of `httpClient`. -/
def NewHTTPClientAdapter (authenticator : Option Authenticator) (baseURL repository : Str)
    (forceReplace : Bool) : HTTPClientAdapter :=
  { authenticator := authenticator
    BaseURL := baseURL
    Repository := repository
    ForceReplace := forceReplace }

/-! ## `config/config.go` -/

/-- `AuthConfig`; the field `Type` is named `authType`. -/
structure AuthConfig where
  authType : Str
  UserToken : Str
  PassToken : Str
  AccessToken : Str
  HeaderName : Str
  HeaderValue : Str
deriving DecidableEq

/-- `ProxyConfig`. -/
structure ProxyConfig where
  Enabled : Bool
  Host : Str
  Port : Int
  Username : Str
  Password : Str
deriving DecidableEq

/-- `RetryConfig`. -/
structure RetryConfig where
  RetryAttempts : Int
  Timeout : Int
deriving DecidableEq

/-- The field `General` of `Config`. -/
structure GeneralConfig where
  RootPath : Str
  LogPath : Str
  LogLevel : Str
  BatchSize : Int
deriving DecidableEq

/-- The field `Nexus` of `Config`. -/
structure NexusConfig where
  URL : Str
  Repository : Str
  RepositoryType : Str
  ForceReplace : Bool
deriving DecidableEq

/-- `Config`. -/
structure Config where
  General : GeneralConfig
  Nexus : NexusConfig
  Retry : RetryConfig
  Proxy : ProxyConfig
  Auth : AuthConfig
deriving DecidableEq

/-- `MaxBatchSize`. -/
def MaxBatchSize : Int := 100

/-- `utils.CountNonEmpty(values...)`. -/
def CountNonEmpty (values : List Str) : Int :=
  values.foldl (fun count v => if v ≠ [] then count + 1 else count) 0

/-- `validateAuthConfig(auth)`: the error, if any. -/
def validateAuthConfig (auth : AuthConfig) : Option Str :=
  let checked : Option Str :=
    if auth.authType = "basic".toList then
      if auth.UserToken = [] ∨ auth.PassToken = [] then
        some "auth.type 'basic' requires both user_token and pass_token".toList
      else none
    else if auth.authType = "bearer".toList then
      if auth.AccessToken = [] then some "auth.type 'bearer' requires access_token".toList
      else none
    else if auth.authType = "header".toList then
      if auth.HeaderName = [] ∨ auth.HeaderValue = [] then
        some "auth.type 'header' requires both header_name and header_value".toList
      else none
    else
      some ("invalid auth.type: ".toList ++ auth.authType ++
        ". Valid options are 'basic', 'bearer', 'header'".toList)
  match checked with
  | some err => some err
  | none =>
    if CountNonEmpty [auth.UserToken, auth.PassToken, auth.AccessToken, auth.HeaderName,
        auth.HeaderValue] > 2 then
      some "only one authentication method should be configured".toList
    else none

/-- `validateConfig(cfg)`: the error, if any. -/
def validateConfig (cfg : Config) : Option Str :=
  if cfg.General.RootPath = [] then some "missing required field: general.root_path".toList
  else if cfg.General.BatchSize ≤ 0 ∨ cfg.General.BatchSize > MaxBatchSize then
    some ("general.batch_size must be between 1 and ".toList ++ fmtInt MaxBatchSize)
  else if cfg.Nexus.URL = [] then some "missing required field: nexus.url".toList
  else if cfg.Nexus.Repository = [] then
    some "missing required field: nexus.repository".toList
  else if ¬ (cfg.Nexus.RepositoryType = "raw".toList ∨
      cfg.Nexus.RepositoryType = "maven2".toList) then
    some ("invalid nexus.repository_type: ".toList ++ cfg.Nexus.RepositoryType ++
      ". Valid options are 'raw' or 'maven2'".toList)
  else if cfg.Retry.RetryAttempts < 0 then
    some "retry.retry_attempts cannot be negative".toList
  else if cfg.Retry.Timeout ≤ 0 then some "retry.timeout must be greater than zero".toList
  else if cfg.Proxy.Enabled = true ∧ cfg.Proxy.Host = [] then
    some "proxy.host is required if proxy is enabled".toList
  else if cfg.Proxy.Enabled = true ∧ cfg.Proxy.Port ≤ 0 then
    some "proxy.port must be greater than zero".toList
  else validateAuthConfig cfg.Auth

/-- The same configuration with another value of `retry.retry_attempts`. -/
def Config.withRetryAttempts (cfg : Config) (n : Int) : Config :=
  { cfg with Retry := { cfg.Retry with RetryAttempts := n } }

/-- A configuration with `retry_attempts = 0`. -/
def zeroAttemptsConfig : Config :=
  { General := ⟨"/data".toList, "iscrie.log".toList, "info".toList, 1⟩
    Nexus := ⟨"http://nexus:8081".toList, "releases".toList, "maven2".toList, false⟩
    Retry := ⟨0, 10⟩
    Proxy := ⟨false, [], 0, [], []⟩
    Auth := ⟨"basic".toList, "user".toList, "secret".toList, [], [], []⟩ }

/-! ## `core/importer/errors.go` and the standard library's `encoding/json`

The log file is a sequence of characters. `json.Encoder.Encode` and
`json.Decoder.Decode` are modelled after the standard library: the encoder
writes the three fields of an `ImportError` as a JSON object on one line; the
decoder runs the scanner of `encoding/json` (its state functions and its stack
of open arrays and objects) over the input up to the end of the next value and
stores that value in an `ImportError`. An error is represented by its message.
Strings are sequences of Unicode characters: bytes that are not valid UTF-8 are
not modelled. -/

/-- `ImportError`; its JSON keys are `file_path`, `repository_type`, `error`. -/
structure ImportError where
  FilePath : Str
  RepositoryType : Str
  Error : Str
deriving DecidableEq

/-- The digit of `n < 16` in lower-case hexadecimal. -/
def hexDigit (n : Nat) : Char := "0123456789abcdef".toList.getD n '0'

/-- What the encoder writes for one character of a string, with `SetEscapeHTML`
left at its default (`<`, `>` and `&` are escaped). Backspace and form feed are
written `\b` and `\f` (Go 1.22 and later; earlier versions wrote `\u0008` and
`\u000c`, which the decoder reads alike). -/
def escapeChar (c : Char) : Str :=
  if c = '\\' ∨ c = '\"' then ['\\', c]
  else if c = Char.ofNat 8 then ['\\', 'b']
  else if c = Char.ofNat 12 then ['\\', 'f']
  else if c = '\n' then ['\\', 'n']
  else if c = '\r' then ['\\', 'r']
  else if c = '\t' then ['\\', 't']
  else if c.toNat < 32 ∨ c = '<' ∨ c = '>' ∨ c = '&' then
    ['\\', 'u', '0', '0', hexDigit (c.toNat / 16), hexDigit (c.toNat % 16)]
  else if c = Char.ofNat 8232 then ['\\', 'u', '2', '0', '2', '8']
  else if c = Char.ofNat 8233 then ['\\', 'u', '2', '0', '2', '9']
  else [c]

/-- A string as the encoder writes it: quoted, each character escaped. -/
def encodeString (s : Str) : Str := '\"' :: ((s.map escapeChar).flatten ++ ['\"'])

/-- `json.Marshal` of an `ImportError`. -/
def Marshal (e : ImportError) : Str :=
  "\x7b\"file_path\":".toList ++ encodeString e.FilePath ++
    ",\"repository_type\":".toList ++ encodeString e.RepositoryType ++
    ",\"error\":".toList ++ encodeString e.Error ++ "\x7d".toList

/-- What `encoder.Encode(importError)` writes: the object and a line feed. -/
def Encode (e : ImportError) : Str := Marshal e ++ ['\n']

/-- A JSON value as the decoder sees it. -/
inductive JValue where
  | null : JValue
  | bool (b : Bool) : JValue
  | number (text : Str) : JValue
  | string (s : Str) : JValue
  | array (elems : List JValue) : JValue
  | object (members : List (Str × JValue)) : JValue

/-- The state functions of the scanner (`scanner.step`). -/
inductive ScanState where
  | beginValue | beginValueOrEmpty | beginStringOrEmpty | beginString
  | endValue | endTop
  | inString | inStringEsc | inStringEscU | inStringEscU1 | inStringEscU12 | inStringEscU123
  | neg | s1 | s0 | dot | dot0 | e | eSign | e0
  | t | tr | tru | f | fa | fal | fals | n | nu | nul
  | error
deriving DecidableEq

/-- The entries of the scanner's stack `parseState`. -/
inductive ParseState where
  | objectKey | objectValue | arrayValue
deriving DecidableEq

/-- The codes that a state function returns. -/
inductive ScanCode where
  | continue | beginLiteral | beginObject | objectKey | objectValue | endObject
  | beginArray | arrayValue | endArray | skipSpace | scanEnd | scanError
deriving DecidableEq

/-- The scanner: its state function, its stack (innermost first) and the
message of its error. -/
structure Scanner where
  step : ScanState
  parseState : List ParseState
  err : Option Str
deriving DecidableEq

/-- `isSpace(c)`. -/
def isSpace (c : Char) : Bool := c == ' ' || c == '\t' || c == '\r' || c == '\n'

/-- The first byte of the UTF-8 encoding of a character. -/
def firstByte (c : Char) : Nat :=
  if c.toNat < 128 then c.toNat
  else if c.toNat < 2048 then 192 + c.toNat / 64
  else if c.toNat < 65536 then 224 + c.toNat / 4096
  else 240 + c.toNat / 262144

/-- `quoteChar(c)` on the byte at which the scanner stops. -/
def quoteChar (c : Char) : Str :=
  let b := firstByte c
  if b = 39 then "'\\''".toList
  else if b = 34 then "'\"'".toList
  else if b = 7 then "'\\a'".toList
  else if b = 8 then "'\\b'".toList
  else if b = 12 then "'\\f'".toList
  else if b = 10 then "'\\n'".toList
  else if b = 13 then "'\\r'".toList
  else if b = 9 then "'\\t'".toList
  else if b = 11 then "'\\v'".toList
  else if b = 92 then "'\\\\'".toList
  else if b < 32 ∨ b = 127 then
    "'\\x".toList ++ [hexDigit (b / 16), hexDigit (b % 16)] ++ "'".toList
  else "'".toList ++ [Char.ofNat b] ++ "'".toList

/-- `maxNestingDepth`. -/
def maxNestingDepth : Nat := 10000

/-- `s.error(c, context)`. -/
def Scanner.error (s : Scanner) (c : Char) (context : Str) : ScanCode × Scanner :=
  (ScanCode.scanError,
    ⟨ScanState.error, s.parseState,
      some ("invalid character ".toList ++ quoteChar c ++ " ".toList ++ context)⟩)

/-- `s.pushParseState(c, newParseState, successState)`, after `s.step` was set to
`next`. -/
def pushParseState (s : Scanner) (c : Char) (next : ScanState) (newParseState : ParseState)
    (successState : ScanCode) : ScanCode × Scanner :=
  if (newParseState :: s.parseState).length ≤ maxNestingDepth then
    (successState, ⟨next, newParseState :: s.parseState, s.err⟩)
  else Scanner.error ⟨next, newParseState :: s.parseState, s.err⟩ c "exceeded max depth".toList

/-- `stateEndTop(s, c)`. -/
def stateEndTop (s : Scanner) (c : Char) : ScanCode × Scanner :=
  if isSpace c then (ScanCode.scanEnd, ⟨ScanState.endTop, s.parseState, s.err⟩)
  else
    (ScanCode.scanEnd,
      (Scanner.error ⟨ScanState.endTop, s.parseState, s.err⟩ c
        "after top-level value".toList).2)

/-- `stateEndValue(s, c)`. -/
def stateEndValue (s : Scanner) (c : Char) : ScanCode × Scanner :=
  match s.parseState with
  | [] => stateEndTop s c
  | ps :: rest =>
    if isSpace c then (ScanCode.skipSpace, ⟨ScanState.endValue, s.parseState, s.err⟩)
    else
      match ps with
      | ParseState.objectKey =>
        if c = ':' then
          (ScanCode.objectKey, ⟨ScanState.beginValue, ParseState.objectValue :: rest, s.err⟩)
        else s.error c "after object key".toList
      | ParseState.objectValue =>
        if c = ',' then
          (ScanCode.objectValue, ⟨ScanState.beginString, ParseState.objectKey :: rest, s.err⟩)
        else if c = '\x7d' then
          (ScanCode.endObject,
            ⟨if rest = [] then ScanState.endTop else ScanState.endValue, rest, s.err⟩)
        else s.error c "after object key:value pair".toList
      | ParseState.arrayValue =>
        if c = ',' then (ScanCode.arrayValue, ⟨ScanState.beginValue, s.parseState, s.err⟩)
        else if c = ']' then
          (ScanCode.endArray,
            ⟨if rest = [] then ScanState.endTop else ScanState.endValue, rest, s.err⟩)
        else s.error c "after array element".toList

/-- `stateBeginValue(s, c)`. -/
def stateBeginValue (s : Scanner) (c : Char) : ScanCode × Scanner :=
  if isSpace c then (ScanCode.skipSpace, s)
  else if c = '\x7b' then
    pushParseState s c ScanState.beginStringOrEmpty ParseState.objectKey ScanCode.beginObject
  else if c = '[' then
    pushParseState s c ScanState.beginValueOrEmpty ParseState.arrayValue ScanCode.beginArray
  else if c = '\"' then (ScanCode.beginLiteral, ⟨ScanState.inString, s.parseState, s.err⟩)
  else if c = '-' then (ScanCode.beginLiteral, ⟨ScanState.neg, s.parseState, s.err⟩)
  else if c = '0' then (ScanCode.beginLiteral, ⟨ScanState.s0, s.parseState, s.err⟩)
  else if c = 't' then (ScanCode.beginLiteral, ⟨ScanState.t, s.parseState, s.err⟩)
  else if c = 'f' then (ScanCode.beginLiteral, ⟨ScanState.f, s.parseState, s.err⟩)
  else if c = 'n' then (ScanCode.beginLiteral, ⟨ScanState.n, s.parseState, s.err⟩)
  else if '1' ≤ c ∧ c ≤ '9' then (ScanCode.beginLiteral, ⟨ScanState.s1, s.parseState, s.err⟩)
  else s.error c "looking for beginning of value".toList

/-- `stateBeginString(s, c)`. -/
def stateBeginString (s : Scanner) (c : Char) : ScanCode × Scanner :=
  if isSpace c then (ScanCode.skipSpace, s)
  else if c = '\"' then (ScanCode.beginLiteral, ⟨ScanState.inString, s.parseState, s.err⟩)
  else s.error c "looking for beginning of object key string".toList

/-- Whether `c` is a hexadecimal digit. -/
def isHexDigit (c : Char) : Bool :=
  ('0' ≤ c && c ≤ '9') || ('a' ≤ c && c ≤ 'f') || ('A' ≤ c && c ≤ 'F')

/-- A state function that expects the one character `want` of a literal. -/
def expectChar (s : Scanner) (c want : Char) (next : ScanState) (context : Str) :
    ScanCode × Scanner :=
  if c = want then (ScanCode.continue, ⟨next, s.parseState, s.err⟩) else s.error c context

/-- `state0(s, c)`: after `0`, or after the digits of an integer. -/
def state0 (s : Scanner) (c : Char) : ScanCode × Scanner :=
  if c = '.' then (ScanCode.continue, ⟨ScanState.dot, s.parseState, s.err⟩)
  else if c = 'e' ∨ c = 'E' then (ScanCode.continue, ⟨ScanState.e, s.parseState, s.err⟩)
  else stateEndValue s c

/-- `stateESign(s, c)`. -/
def stateESign (s : Scanner) (c : Char) : ScanCode × Scanner :=
  if '0' ≤ c ∧ c ≤ '9' then (ScanCode.continue, ⟨ScanState.e0, s.parseState, s.err⟩)
  else s.error c "in exponent of numeric literal".toList

/-- One step of the scanner: `s.step(s, c)`. -/
def scanStep (s : Scanner) (c : Char) : ScanCode × Scanner :=
  match s.step with
  | ScanState.beginValue => stateBeginValue s c
  | ScanState.beginValueOrEmpty =>
    if isSpace c then (ScanCode.skipSpace, s)
    else if c = ']' then stateEndValue s c
    else stateBeginValue s c
  | ScanState.beginStringOrEmpty =>
    if isSpace c then (ScanCode.skipSpace, s)
    else if c = '\x7d' then
      stateEndValue ⟨s.step, ParseState.objectValue :: s.parseState.tail, s.err⟩ c
    else stateBeginString s c
  | ScanState.beginString => stateBeginString s c
  | ScanState.endValue => stateEndValue s c
  | ScanState.endTop => stateEndTop s c
  | ScanState.inString =>
    if c = '\"' then (ScanCode.continue, ⟨ScanState.endValue, s.parseState, s.err⟩)
    else if c = '\\' then (ScanCode.continue, ⟨ScanState.inStringEsc, s.parseState, s.err⟩)
    else if c.toNat < 32 then s.error c "in string literal".toList
    else (ScanCode.continue, s)
  | ScanState.inStringEsc =>
    if c = 'b' ∨ c = 'f' ∨ c = 'n' ∨ c = 'r' ∨ c = 't' ∨ c = '\\' ∨ c = '/' ∨ c = '\"' then
      (ScanCode.continue, ⟨ScanState.inString, s.parseState, s.err⟩)
    else if c = 'u' then (ScanCode.continue, ⟨ScanState.inStringEscU, s.parseState, s.err⟩)
    else s.error c "in string escape code".toList
  | ScanState.inStringEscU =>
    if isHexDigit c then (ScanCode.continue, ⟨ScanState.inStringEscU1, s.parseState, s.err⟩)
    else s.error c "in \\u hexadecimal character escape".toList
  | ScanState.inStringEscU1 =>
    if isHexDigit c then (ScanCode.continue, ⟨ScanState.inStringEscU12, s.parseState, s.err⟩)
    else s.error c "in \\u hexadecimal character escape".toList
  | ScanState.inStringEscU12 =>
    if isHexDigit c then (ScanCode.continue, ⟨ScanState.inStringEscU123, s.parseState, s.err⟩)
    else s.error c "in \\u hexadecimal character escape".toList
  | ScanState.inStringEscU123 =>
    if isHexDigit c then (ScanCode.continue, ⟨ScanState.inString, s.parseState, s.err⟩)
    else s.error c "in \\u hexadecimal character escape".toList
  | ScanState.neg =>
    if c = '0' then (ScanCode.continue, ⟨ScanState.s0, s.parseState, s.err⟩)
    else if '1' ≤ c ∧ c ≤ '9' then (ScanCode.continue, ⟨ScanState.s1, s.parseState, s.err⟩)
    else s.error c "in numeric literal".toList
  | ScanState.s1 =>
    if '0' ≤ c ∧ c ≤ '9' then (ScanCode.continue, ⟨ScanState.s1, s.parseState, s.err⟩)
    else state0 s c
  | ScanState.s0 => state0 s c
  | ScanState.dot =>
    if '0' ≤ c ∧ c ≤ '9' then (ScanCode.continue, ⟨ScanState.dot0, s.parseState, s.err⟩)
    else s.error c "after decimal point in numeric literal".toList
  | ScanState.dot0 =>
    if '0' ≤ c ∧ c ≤ '9' then (ScanCode.continue, s)
    else if c = 'e' ∨ c = 'E' then (ScanCode.continue, ⟨ScanState.e, s.parseState, s.err⟩)
    else stateEndValue s c
  | ScanState.e =>
    if c = '+' ∨ c = '-' then (ScanCode.continue, ⟨ScanState.eSign, s.parseState, s.err⟩)
    else stateESign s c
  | ScanState.eSign => stateESign s c
  | ScanState.e0 =>
    if '0' ≤ c ∧ c ≤ '9' then (ScanCode.continue, s)
    else stateEndValue s c
  | ScanState.t => expectChar s c 'r' ScanState.tr "in literal true (expecting 'r')".toList
  | ScanState.tr => expectChar s c 'u' ScanState.tru "in literal true (expecting 'u')".toList
  | ScanState.tru =>
    expectChar s c 'e' ScanState.endValue "in literal true (expecting 'e')".toList
  | ScanState.f => expectChar s c 'a' ScanState.fa "in literal false (expecting 'a')".toList
  | ScanState.fa => expectChar s c 'l' ScanState.fal "in literal false (expecting 'l')".toList
  | ScanState.fal => expectChar s c 's' ScanState.fals "in literal false (expecting 's')".toList
  | ScanState.fals =>
    expectChar s c 'e' ScanState.endValue "in literal false (expecting 'e')".toList
  | ScanState.n => expectChar s c 'u' ScanState.nu "in literal null (expecting 'u')".toList
  | ScanState.nu => expectChar s c 'l' ScanState.nul "in literal null (expecting 'l')".toList
  | ScanState.nul =>
    expectChar s c 'l' ScanState.endValue "in literal null (expecting 'l')".toList
  | ScanState.error => (ScanCode.scanError, s)

/-- An array or an object that is open while the decoder reads: the elements
read so far, or the members read so far and the key of the member being read. -/
inductive Frame where
  | arr (elems : List JValue) : Frame
  | obj (members : List (Str × JValue)) (key : Option Str) : Frame

/-- The decoder while it reads one value: the scanner, the open arrays and
objects (innermost first), the text of the literal being read, and the value
once it is complete. -/
structure Machine where
  scan : Scanner
  frames : List Frame
  lit : Str
  done : Option JValue

/-- The value of one hexadecimal digit. -/
def hexVal (c : Char) : Nat :=
  if '0' ≤ c ∧ c ≤ '9' then c.toNat - 48
  else if 'a' ≤ c ∧ c ≤ 'f' then c.toNat - 87
  else if 'A' ≤ c ∧ c ≤ 'F' then c.toNat - 55
  else 0

/-- `getu4` on the four hexadecimal digits after `\u`. -/
def getu4 (a b c d : Char) : Nat := hexVal a * 4096 + hexVal b * 256 + hexVal c * 16 + hexVal d

/-- The character for a one-letter escape. -/
def unescape (c : Char) : Char :=
  if c = 'b' then Char.ofNat 8
  else if c = 'f' then Char.ofNat 12
  else if c = 'n' then '\n'
  else if c = 'r' then '\r'
  else if c = 't' then '\t'
  else c

/-- `unquoteBytes` on the text between the quotes of a string literal that the
scanner has accepted, read in at most `fuel` steps (each step reads at least one
character). A `\u` escape of a surrogate that is not the first half of a valid
pair becomes U+FFFD. -/
def unquote (fuel : Nat) (s : Str) : Str :=
  match fuel with
  | 0 => []
  | fuel + 1 =>
    match s with
    | [] => []
    | c :: rest =>
      if c = '\\' then
        match rest with
        | [] => []
        | e :: rest1 =>
          if e = 'u' then
            match rest1 with
            | a :: b :: c1 :: d :: rest2 =>
              let rr := getu4 a b c1 d
              if 55296 ≤ rr ∧ rr < 57344 then
                match rest2 with
                | e1 :: e2 :: a1 :: b1 :: c2 :: d1 :: rest3 =>
                  let rr1 := getu4 a1 b1 c2 d1
                  if e1 = '\\' ∧ e2 = 'u' ∧ rr < 56320 ∧ 56320 ≤ rr1 ∧ rr1 < 57344 then
                    Char.ofNat (65536 + (rr - 55296) * 1024 + (rr1 - 56320)) ::
                      unquote fuel rest3
                  else Char.ofNat 65533 :: unquote fuel rest2
                | _ => Char.ofNat 65533 :: unquote fuel rest2
              else Char.ofNat rr :: unquote fuel rest2
            | _ => []
          else unescape e :: unquote fuel rest1
      else c :: unquote fuel rest

/-- A value is complete: it is the value read when no array or object is open
(`top`); otherwise it becomes an element of the innermost open array, or the key
or the value of a member of the innermost open object. -/
def Machine.emit (m : Machine) (top : Bool) (v : JValue) : Machine :=
  if top then ⟨m.scan, m.frames, [], some v⟩
  else
    match m.frames with
    | [] => m
    | Frame.arr elems :: fs => ⟨m.scan, Frame.arr (elems ++ [v]) :: fs, [], m.done⟩
    | Frame.obj members (some k) :: fs =>
      ⟨m.scan, Frame.obj (members ++ [(k, v)]) none :: fs, [], m.done⟩
    | Frame.obj members none :: fs =>
      match v with
      | JValue.string k => ⟨m.scan, Frame.obj members (some k) :: fs, [], m.done⟩
      | _ => m

/-- Whether the scanner is inside a number. -/
def ScanState.inNumber (st : ScanState) : Bool :=
  match st with
  | ScanState.neg | ScanState.s1 | ScanState.s0 | ScanState.dot | ScanState.dot0
  | ScanState.e | ScanState.eSign | ScanState.e0 => true
  | _ => false

/-- Whether the scanner is inside a string literal. -/
def ScanState.inStr (st : ScanState) : Bool :=
  match st with
  | ScanState.inString | ScanState.inStringEsc | ScanState.inStringEscU
  | ScanState.inStringEscU1 | ScanState.inStringEscU12 | ScanState.inStringEscU123 => true
  | _ => false

/-- What the decoder builds when the scanner, in state `old`, has read `c` and
returned `code`; `m.scan` is the scanner after that step. -/
def Machine.build (m : Machine) (old : ScanState) (code : ScanCode) (c : Char) : Machine :=
  match code with
  | ScanCode.beginObject => ⟨m.scan, Frame.obj [] none :: m.frames, [], m.done⟩
  | ScanCode.beginArray => ⟨m.scan, Frame.arr [] :: m.frames, [], m.done⟩
  | ScanCode.beginLiteral => ⟨m.scan, m.frames, if c = '\"' then [] else [c], m.done⟩
  | ScanCode.continue =>
    if old = ScanState.inString ∧ c = '\"' then
      m.emit (decide (m.scan.parseState = [])) (JValue.string (unquote m.lit.length m.lit))
    else if old.inStr ∨ old.inNumber then ⟨m.scan, m.frames, m.lit ++ [c], m.done⟩
    else if old = ScanState.tru then m.emit (decide (m.scan.parseState = [])) (JValue.bool true)
    else if old = ScanState.fals then
      m.emit (decide (m.scan.parseState = [])) (JValue.bool false)
    else if old = ScanState.nul then m.emit (decide (m.scan.parseState = [])) JValue.null
    else m
  | ScanCode.endObject =>
    match m.frames with
    | Frame.obj members _ :: fs =>
      Machine.emit ⟨m.scan, fs, [], m.done⟩ (decide (m.scan.parseState = []))
        (JValue.object members)
    | _ => m
  | ScanCode.endArray =>
    match m.frames with
    | Frame.arr elems :: fs =>
      Machine.emit ⟨m.scan, fs, [], m.done⟩ (decide (m.scan.parseState = []))
        (JValue.array elems)
    | _ => m
  | _ => m

/-- One character read by the decoder: the scanner makes its step; a number
that the character ends is complete; then the decoder builds. -/
def Machine.step (m : Machine) (c : Char) : ScanCode × Machine :=
  match scanStep m.scan c with
  | (code, scan1) =>
    let m1 : Machine :=
      if m.scan.step.inNumber ∧ code ≠ ScanCode.continue then
        m.emit (decide (m.scan.parseState = [])) (JValue.number m.lit)
      else m
    (code, Machine.build ⟨scan1, m1.frames, m1.lit, m1.done⟩ m.scan.step code c)

/-- What `Decoder.readValue` finds: the next value and the input after it, or
an error. -/
inductive ReadResult where
  | value (v : JValue) (rest : Str) : ReadResult
  | failed (err : Str) : ReadResult

/-- The value read when the scanner has reported its end. -/
def Machine.result (m : Machine) (rest : Str) : ReadResult :=
  match m.done with
  | some v => ReadResult.value v rest
  | none => ReadResult.failed "JSON decoder out of sync - data changing underfoot?".toList

/-- The loop of `Decoder.readValue`; `seen` tells whether a character other
than white space was read. At the end of the input the scanner is given a space:
a value that this completes is the value read; otherwise the error is
`unexpected EOF` when something was read and `EOF` when not. -/
def readValueLoop (m : Machine) (seen : Bool) (input : Str) : ReadResult :=
  match input with
  | [] =>
    match m.step ' ' with
    | (ScanCode.scanEnd, m1) => m1.result []
    | _ =>
      if seen then ReadResult.failed "unexpected EOF".toList
      else ReadResult.failed "EOF".toList
  | c :: rest =>
    match m.step c with
    | (ScanCode.scanEnd, m1) => m1.result (c :: rest)
    | (ScanCode.endObject, m1) =>
      if m1.scan.parseState = [] then m1.result rest else readValueLoop m1 true rest
    | (ScanCode.endArray, m1) =>
      if m1.scan.parseState = [] then m1.result rest else readValueLoop m1 true rest
    | (ScanCode.scanError, m1) =>
      match m1.scan.err with
      | some msg => ReadResult.failed msg
      | none => ReadResult.failed []
    | (_, m1) => readValueLoop m1 (seen || !isSpace c) rest

/-- The decoder before it reads a value (`scanner.reset`). -/
def Machine.init : Machine := ⟨⟨ScanState.beginValue, [], none⟩, [], [], none⟩

/-- `Decoder.readValue` on the input that is left. -/
def readValue (input : Str) : ReadResult := readValueLoop Machine.init false input

/-- The representative of a character for `equalFold` against a name in ASCII
letters: the lower-case letter, also for the Kelvin sign and the long s. -/
def foldChar (c : Char) : Char :=
  if 'A' ≤ c ∧ c ≤ 'Z' then Char.ofNat (c.toNat + 32)
  else if c = Char.ofNat 8490 then 'k'
  else if c = Char.ofNat 383 then 's'
  else c

/-- Whether a key of the input names the field with the JSON name `name`:
exactly, or up to case. -/
def keyMatches (name key : Str) : Bool := key.map foldChar == name.map foldChar

/-- The word for a value in the message of an `UnmarshalTypeError`. -/
def JValue.kind (v : JValue) : Str :=
  match v with
  | JValue.null => "null".toList
  | JValue.bool _ => "bool".toList
  | JValue.number _ => "number".toList
  | JValue.string _ => "string".toList
  | JValue.array _ => "array".toList
  | JValue.object _ => "object".toList

/-- The message of the `UnmarshalTypeError` for a value that is not a string in
the field `field`. -/
def fieldTypeError (v : JValue) (field : Str) : Str :=
  "json: cannot unmarshal ".toList ++ v.kind ++ " into Go struct field ImportError.".toList ++
    field ++ " of type string".toList

/-- The decoder stores the value of one member of the object: in the field that
its key names, if any; `null` leaves the field as it is; a value that is not a
string is an error, and the first error is the one kept. -/
def storeMember (acc : ImportError × Option Str) (member : Str × JValue) :
    ImportError × Option Str :=
  let field : Option Str :=
    if keyMatches "file_path".toList member.1 then some "file_path".toList
    else if keyMatches "repository_type".toList member.1 then some "repository_type".toList
    else if keyMatches "error".toList member.1 then some "error".toList
    else none
  match field with
  | none => acc
  | some name =>
    match member.2 with
    | JValue.null => acc
    | JValue.string s =>
      if name = "file_path".toList then (⟨s, acc.1.RepositoryType, acc.1.Error⟩, acc.2)
      else if name = "repository_type".toList then (⟨acc.1.FilePath, s, acc.1.Error⟩, acc.2)
      else (⟨acc.1.FilePath, acc.1.RepositoryType, s⟩, acc.2)
    | v =>
      match acc.2 with
      | some err => (acc.1, some err)
      | none => (acc.1, some (fieldTypeError v name))

/-- `decodeState.unmarshal` into a new `ImportError`: the struct and the error. -/
def unmarshal (v : JValue) : ImportError × Option Str :=
  match v with
  | JValue.object members => members.foldl storeMember (⟨[], [], []⟩, none)
  | JValue.null => (⟨[], [], []⟩, none)
  | v =>
    (⟨[], [], []⟩,
      some ("json: cannot unmarshal ".toList ++ v.kind ++
        " into Go value of type importer.ImportError".toList))

/-- `decoder.Decode(&importError)` on the input that is left: the record or the
error, and the input left after the value. -/
def Decode (input : Str) : Except Str ImportError × Str :=
  match readValue input with
  | ReadResult.failed err => (Except.error err, input)
  | ReadResult.value v rest =>
    match unmarshal v with
    | (_, some err) => (Except.error err, rest)
    | (importError, none) => (Except.ok importError, rest)

/-- `ErrorLogger`. -/
structure ErrorLogger where
  FilePath : Str
deriving DecidableEq

/-- The environment of the logger: the error of `os.MkdirAll` on the directory
of the log file, the error of `os.OpenFile` for appending, the failure of the
write (the number of characters written before it and the error), and the error
of `os.Open` on a log file that exists. -/
structure LogEnv where
  mkdirAllError : Option Str
  openFileError : Option Str
  writeFailure : Option (Nat × Str)
  openError : Option Str

/-- `ErrorLogger.LogError(importError)` on the log file (`none` when it does not
exist): the error and the log file afterwards. -/
def LogError (env : LogEnv) (_el : ErrorLogger) (importError : ImportError)
    (file : Option Str) : Option Str × Option Str :=
  match env.mkdirAllError with
  | some err => (some ("failed to create directory for log file: ".toList ++ err), file)
  | none =>
    match env.openFileError with
    | some err => (some ("failed to open error log file: ".toList ++ err), file)
    | none =>
      match env.writeFailure with
      | some (written, err) =>
        (some ("failed to write error to log file: ".toList ++ err),
          some (file.getD [] ++ (Encode importError).take written))
      | none => (none, some (file.getD [] ++ Encode importError))

/-- The loop of `ReadErrors`, for at most `fuel` calls of `Decode`; `none` when
the loop is still running after them. -/
def readLoop (fuel : Nat) (input : Str) (errors : List ImportError) :
    Option (List ImportError × Option Str) :=
  match fuel with
  | 0 => none
  | fuel + 1 =>
    match Decode input with
    | (Except.error err, _) =>
      if err = "EOF".toList then some (errors, none)
      else some ([], some ("failed to decode error log: ".toList ++ err))
    | (Except.ok importError, rest) => readLoop fuel rest (errors ++ [importError])

/-- `ErrorLogger.ReadErrors()` on the log file. Each successful `Decode` reads at
least one character, so one call more than the log file has characters is
enough. -/
def ReadErrors (env : LogEnv) (el : ErrorLogger) (file : Option Str) :
    Option (List ImportError × Option Str) :=
  match file with
  | none =>
    some ([], some ("failed to open error log file: open ".toList ++ el.FilePath ++
      ": no such file or directory".toList))
  | some content =>
    match env.openError with
    | some err => some ([], some ("failed to open error log file: ".toList ++ err))
    | none => readLoop (content.length + 1) content []

/-- An environment in which nothing fails. -/
def plainLogEnv : LogEnv := ⟨none, none, none, none⟩

/-- What a step of the scanner does to the error it holds: nothing, or the
step reports an error or the end of the value and the message starts with
`invalid character`. -/
def ErrStep (s : Scanner) (r : ScanCode × Scanner) : Prop :=
  r.2.err = s.err ∨
    ((r.1 = ScanCode.scanError ∨ r.1 = ScanCode.scanEnd) ∧
      ∃ msg, r.2.err = some ("invalid character ".toList ++ msg))

/-- The calls of `Decode` that read the input `input` to its end: the records
`records`, one after the other, and then the error `err`. -/
def DecodeChain (input : Str) (records : List ImportError) (err : Str) : Prop :=
  match records with
  | [] => (Decode input).1 = Except.error err
  | r :: rest => ∃ input1, Decode input = (Except.ok r, input1) ∧ DecodeChain input1 rest err

/-! ## A direct description of what the pattern matches

The functions below walk the base name once, in the order in which the
backtracking search tries the alternatives; `findFrom_maven` proves that they
compute the match of `mavenFileNameRegex`. -/

/-- The text after the first character of group 2: the rest of the version token
and the classifier token. The version token stops at the first hyphen that is
followed by a non-empty run of `[\w\.-]` reaching the end of the text. -/
def cutClassifier (s : Str) : Option (Str × Str) :=
  match s with
  | [] => some ([], [])
  | c :: t =>
    if c = '-' ∧ t ≠ [] ∧ t.all isWordDotHyphen = true then some ([], t)
    else if isWordDotHyphen c = true then
      (cutClassifier t).map (fun vc => (c :: vc.1, vc.2))
    else none

/-- The text after the hyphen that closes group 1: version token and classifier
token. -/
def cutVersion (s : Str) : Option (Str × Str) :=
  match s with
  | [] => none
  | d :: w =>
    if isDigit d = true then (cutClassifier w).map (fun vc => (d :: vc.1, vc.2)) else none

/-- The text after the first character of group 1: the rest of group 1, then
groups 2 and 3. Group 1 stops at the first hyphen after which the rest matches. -/
def cutArtifact (s : Str) : Option (Str × Str × Str) :=
  match s with
  | [] => none
  | c :: t =>
    match (if c = '-' then cutVersion t else none) with
    | some vc => some ([], vc.1, vc.2)
    | none =>
      if anyNotNL c = true then (cutArtifact t).map (fun r => (c :: r.1, r.2)) else none

/-- Groups 1, 2 and 3 of the match of the whole base name. -/
def cutFileName (s : Str) : Option (Str × Str × Str) :=
  match s with
  | [] => none
  | c :: t =>
    if anyNotNL c = true then (cutArtifact t).map (fun r => (c :: r.1, r.2)) else none

/-! ## Vocabulary of the statements -/

/-- No hyphen of the text is directly followed by a digit. -/
def noHyphenDigit (s : Str) : Bool :=
  match s with
  | [] => true
  | c :: t =>
    match t with
    | [] => true
    | d :: _ => !(c == '-' && isDigit d) && noHyphenDigit t

/-- A version of the coordinate grammar: a digit followed by characters of
`[\w\.-]`. -/
def isVersionToken (v : Str) : Bool :=
  match v with
  | [] => false
  | d :: w => isDigit d && w.all isWordDotHyphen

/-- A classifier of the coordinate grammar: absent (the empty text) or a run of
characters of `[\w\.-]`. -/
def isClassifierToken (c : Str) : Bool := c.all isWordDotHyphen

/-- An extension of the coordinate grammar: a dot followed by characters other
than a dot. -/
def isExtension (e : Str) : Bool :=
  match e with
  | [] => false
  | d :: y => d == '.' && y.all (fun ch => ch != '.')

/-- A group segment of the coordinate grammar: non-empty, without `.` and `/`. -/
def isGroupSegment (seg : Str) : Bool :=
  !seg.isEmpty && seg.all (fun ch => ch != '.' && ch != '/')

/-- A coordinate that is valid under the grammar of the specification. -/
def validCoordinate (segs : List Str) (artifactID version classifier extension : Str) :
    Bool :=
  segs.all isGroupSegment && !artifactID.isEmpty && isVersionToken version &&
    isClassifierToken classifier && isExtension extension

/-- The valid coordinates that survive the round trip: moreover the artifactId
has no `/`, no line feed and no hyphen directly followed by a digit, the version
has no hyphen and the extension has no `/`. -/
def roundTripCoordinate (segs : List Str) (artifactID version classifier extension : Str) :
    Bool :=
  validCoordinate segs artifactID version classifier extension &&
    artifactID.all (fun ch => ch != '/' && ch != '\n') && noHyphenDigit artifactID &&
    version.all (fun ch => ch != '-') && extension.all (fun ch => ch != '/')

/-- The form stated for the base name: a non-empty artifactId, a hyphen and a
version token, optionally followed by a hyphen and a non-empty classifier token
(`ct = []` stands for no classifier token). -/
def HasMavenForm (base : Str) : Prop :=
  ∃ a vt ct, a ≠ [] ∧ isVersionToken vt = true ∧ isClassifierToken ct = true ∧
    base = a ++ '-' :: vt ++ (if ct = [] then [] else '-' :: ct)

/-- The same form with an artifactId that has no line feed. -/
def HasOneLineMavenForm (base : Str) : Prop :=
  ∃ a vt ct, a ≠ [] ∧ a.all anyNotNL = true ∧ isVersionToken vt = true ∧
    isClassifierToken ct = true ∧
    base = a ++ '-' :: vt ++ (if ct = [] then [] else '-' :: ct)

/-- A text that starts with a digit. -/
def startsWithDigit (t : Str) : Bool :=
  match t with
  | [] => false
  | d :: _ => isDigit d

/-- The hyphen-delimited tokens of a base name. -/
def hyphenTokens (base : Str) : List Str := stringsSplit base '-'

/-- The index of the first hyphen-delimited token that starts with a digit (the
number of tokens when there is none). -/
def firstDigitToken (base : Str) : Nat := (hyphenTokens base).findIdx startsWithDigit

/-- Everything in the base name before its token number `i`: the tokens before
it with the hyphens between them. -/
def textBeforeToken (base : Str) (i : Nat) : Str :=
  stringsJoin ((hyphenTokens base).take i) ['-']

/-- The base name from its token number `i` on. -/
def textFromToken (base : Str) (i : Nat) : Str :=
  stringsJoin ((hyphenTokens base).drop i) ['-']

/-- The suffix of a text that starts at its last `.` (the dot included); empty
when the text has no `.`. -/
def lastDotSuffix (s : Str) : Str :=
  match s with
  | [] => []
  | c :: t => if '.' ∈ t then lastDotSuffix t else if c = '.' then c :: t else []

/-- The final element of a path: the text after its last `/`, the whole text when
it has no `/`. -/
def lastElement (s : Str) : Str :=
  match s with
  | [] => []
  | c :: t => if '/' ∈ t then lastElement t else if c = '/' then t else c :: t

/-! ## The matcher on the Maven pattern -/

/-- The part of the pattern after group 2. -/
def tail3 : Re := .seq classifierGroup .eot

/-- The part of the pattern after the hyphen. -/
def tail2 : Re := .seq versionGroup tail3

/-- The part of the pattern after group 1. -/
def tail1 : Re := .seq (.cls isHyphen) tail2

theorem mavenFileNameRegex_eq :
    mavenFileNameRegex = .seq .bot (.seq artifactGroup tail1) := rfl

theorem run_bot (st : MState) (k : MState → Option MState) :
    Re.bot.run st k = if st.pos = 0 then k st else none := rfl

theorem run_eot (st : MState) (k : MState → Option MState) :
    Re.eot.run st k = if st.rest = [] then k st else none := rfl

theorem run_cls_nil (p : Char → Bool) (pos : Nat) (caps : List Str)
    (k : MState → Option MState) : (Re.cls p).run ⟨pos, [], caps⟩ k = none := rfl

theorem run_cls_cons (p : Char → Bool) (pos : Nat) (c : Char) (t : Str) (caps : List Str)
    (k : MState → Option MState) :
    (Re.cls p).run ⟨pos, c :: t, caps⟩ k = if p c = true then k ⟨pos + 1, t, caps⟩ else none :=
  rfl

theorem run_star (p : Char → Bool) (g : Bool) (st : MState) (k : MState → Option MState) :
    (Re.star p g).run st k = starRun p g st.caps k st.pos st.rest := rfl

theorem run_seq (a b : Re) (st : MState) (k : MState → Option MState) :
    (Re.seq a b).run st k = a.run st (fun st1 => b.run st1 k) := rfl

theorem run_cap (n : Nat) (a : Re) (st : MState) (k : MState → Option MState) :
    (Re.cap n a).run st k = a.run st (fun st1 =>
      k ⟨st1.pos, st1.rest, st1.caps.set n (st.rest.take (st1.pos - st.pos))⟩) := rfl

theorem starRun_greedy_all (p : Char → Bool) (caps : List Str)
    (k : MState → Option MState) (hk : ∀ st, st.rest ≠ [] → k st = none) :
    ∀ (s : Str) (pos : Nat), starRun p true caps k pos s =
      if s.all p = true then k ⟨pos + s.length, [], caps⟩ else none := by
  intro s
  induction s with
  | nil => intro pos; simp [starRun]
  | cons c t ih =>
    intro pos
    by_cases hc : p c = true
    · simp only [starRun, hc, if_true, ih, List.all_cons, Bool.true_and, List.length_cons]
      by_cases ht : t.all p = true
      · simp only [ht, if_true]
        have : pos + 1 + t.length = pos + (t.length + 1) := by omega
        rw [this]
        cases k ⟨pos + (t.length + 1), [], caps⟩ with
        | some r => rfl
        | none => simp [hk]
      · simp [ht, hk]
    · simp [starRun, hc, hk]

theorem tail3_run (pos : Nat) (s : Str) (c0 c1 c2 : Str) :
    tail3.run ⟨pos, s, [c0, c1, c2, []]⟩ some =
      match s with
      | [] => some ⟨pos, [], [c0, c1, c2, []]⟩
      | c :: t =>
        if c = '-' ∧ t ≠ [] ∧ t.all isWordDotHyphen = true then
          some ⟨pos + 1 + t.length, [], [c0, c1, c2, t]⟩
        else none := by
  cases s with
  | nil => simp [tail3, classifierGroup, Re.run, Re.plus]
  | cons c t =>
    by_cases hc : c = '-'
    · subst hc
      cases t with
      | nil => simp [tail3, classifierGroup, Re.run, Re.plus, isHyphen]
      | cons d u =>
        by_cases hd : isWordDotHyphen d = true
        · simp only [tail3, classifierGroup, Re.run, Re.plus, isHyphen, beq_self_eq_true,
            if_true, hd]
          rw [starRun_greedy_all]
          · by_cases hu : u.all isWordDotHyphen = true
            · simp [hu, hd]
              omega
            · simp [hu, hd]
          · intro st hst
            simp [hst]
        · simp [tail3, classifierGroup, Re.run, Re.plus, isHyphen, hd]
    · simp [tail3, classifierGroup, Re.run, Re.plus, isHyphen, hc]

/-- The non-greedy repetition inside group 2, started at `pos0` on `acc ++ s`
with `acc` already taken. -/
theorem version_star_run (pos0 : Nat) (c0 c1 c2 : Str) :
    ∀ (s acc : Str),
      starRun isWordDotHyphen false [c0, c1, c2, []]
        (fun st1 => tail3.run ⟨st1.pos, st1.rest,
          st1.caps.set 2 ((acc ++ s).take (st1.pos - pos0))⟩ some)
        (pos0 + acc.length) s =
      (cutClassifier s).map
        (fun vc => ⟨pos0 + acc.length + s.length, [], [c0, c1, acc ++ vc.1, vc.2]⟩) := by
  intro s
  induction s with
  | nil =>
    intro acc
    simp [starRun, tail3_run, cutClassifier]
  | cons c t ih =>
    intro acc
    have hstep := ih (acc ++ [c])
    simp only [List.append_assoc, List.singleton_append, List.length_append,
      List.length_singleton] at hstep
    have hpos : pos0 + (acc.length + 1) = pos0 + acc.length + 1 := by omega
    rw [hpos] at hstep
    have htake : (acc ++ c :: t).take (pos0 + acc.length - pos0) = acc := by simp
    have hk := tail3_run (pos0 + acc.length) (c :: t) c0 c1 acc
    simp only [] at hk
    have hlen : pos0 + acc.length + (c :: t).length = pos0 + acc.length + 1 + t.length := by
      simp only [List.length_cons]; omega
    rw [hlen]
    unfold starRun
    simp only [htake, hk, hstep, Bool.false_eq_true, if_false, List.set_cons_succ,
      List.set_cons_zero, cutClassifier]
    by_cases hcut : c = '-' ∧ t ≠ [] ∧ t.all isWordDotHyphen = true
    · have hw : isWordDotHyphen c = true := by rw [hcut.1]; decide
      rw [if_pos hcut, if_pos hcut]
      simp [hw]
    · rw [if_neg hcut, if_neg hcut]
      by_cases hw : isWordDotHyphen c = true
      · simp [hw, Option.map_map, Function.comp_def]
      · simp [hw]

theorem tail2_run (pos : Nat) (s : Str) (c0 c1 : Str) :
    tail2.run ⟨pos, s, [c0, c1, [], []]⟩ some =
      (cutVersion s).map (fun vc => ⟨pos + s.length, [], [c0, c1, vc.1, vc.2]⟩) := by
  cases s with
  | nil => simp [tail2, versionGroup, run_seq, run_cap, run_cls_nil, cutVersion]
  | cons d w =>
    by_cases hd : isDigit d = true
    · have h := version_star_run pos c0 c1 [] w [d]
      simp only [List.singleton_append, List.length_singleton] at h
      simp only [tail2, versionGroup, run_seq, run_cap, run_cls_cons, run_star, hd, if_true,
        cutVersion, Option.map_map]
      rw [h]
      congr 1
      funext vc
      simp
      omega
    · simp [tail2, versionGroup, run_seq, run_cap, run_cls_cons, cutVersion, hd]

theorem tail1_run (pos : Nat) (s : Str) (c0 c1 : Str) :
    tail1.run ⟨pos, s, [c0, c1, [], []]⟩ some =
      match s with
      | [] => none
      | c :: t =>
        if c = '-' then
          (cutVersion t).map (fun vc => ⟨pos + 1 + t.length, [], [c0, c1, vc.1, vc.2]⟩)
        else none := by
  cases s with
  | nil => simp [tail1, run_seq, run_cls_nil]
  | cons c t =>
    by_cases hc : c = '-'
    · have h := tail2_run (pos + 1) t c0 c1
      simp only [tail1, run_seq, run_cls_cons, isHyphen, hc, beq_self_eq_true, if_true]
      exact h
    · simp [tail1, run_seq, run_cls_cons, isHyphen, hc]

/-- The non-greedy repetition inside group 1, started at `pos0` on `acc ++ s`
with `acc` already taken. -/
theorem artifact_star_run (pos0 : Nat) (c0 c1 : Str) :
    ∀ (s acc : Str),
      starRun anyNotNL false [c0, c1, [], []]
        (fun st1 => tail1.run ⟨st1.pos, st1.rest,
          st1.caps.set 1 ((acc ++ s).take (st1.pos - pos0))⟩ some)
        (pos0 + acc.length) s =
      (cutArtifact s).map
        (fun r => ⟨pos0 + acc.length + s.length, [], [c0, acc ++ r.1, r.2.1, r.2.2]⟩) := by
  intro s
  induction s with
  | nil =>
    intro acc
    simp [starRun, tail1_run, cutArtifact]
  | cons c t ih =>
    intro acc
    have hstep := ih (acc ++ [c])
    simp only [List.append_assoc, List.singleton_append, List.length_append,
      List.length_singleton] at hstep
    have hpos : pos0 + (acc.length + 1) = pos0 + acc.length + 1 := by omega
    rw [hpos] at hstep
    have htake : (acc ++ c :: t).take (pos0 + acc.length - pos0) = acc := by simp
    have hk := tail1_run (pos0 + acc.length) (c :: t) c0 acc
    simp only [] at hk
    have hlen : pos0 + acc.length + (c :: t).length = pos0 + acc.length + 1 + t.length := by
      simp only [List.length_cons]; omega
    rw [hlen]
    unfold starRun
    simp only [htake, hk, hstep, Bool.false_eq_true, if_false, List.set_cons_succ,
      List.set_cons_zero, cutArtifact]
    by_cases hc : c = '-'
    · have hn : anyNotNL c = true := by rw [hc]; decide
      rw [if_pos hc, if_pos hc]
      cases hv : cutVersion t with
      | none => simp [hn, Option.map_map, Function.comp_def]
      | some vc => simp [hn]
    · rw [if_neg hc, if_neg hc]
      by_cases hn : anyNotNL c = true
      · simp [hn, Option.map_map, Function.comp_def]
      · simp [hn]

theorem artifact_tail1_run (s : Str) :
    (Re.seq artifactGroup tail1).run ⟨0, s, [[], [], [], []]⟩ some =
      (cutFileName s).map (fun r => ⟨s.length, [], [[], r.1, r.2.1, r.2.2]⟩) := by
  cases s with
  | nil => simp [artifactGroup, Re.plus, run_seq, run_cap, run_cls_nil, cutFileName]
  | cons c t =>
    by_cases hn : anyNotNL c = true
    · have h := artifact_star_run 0 [] [] t [c]
      simp only [List.singleton_append, List.length_singleton, Nat.zero_add] at h
      simp only [artifactGroup, Re.plus, run_seq, run_cap, run_cls_cons, run_star, hn, if_true,
        cutFileName, Option.map_map, Nat.zero_add]
      rw [h]
      congr 1
      funext r
      simp
      omega
    · simp [artifactGroup, Re.plus, run_seq, run_cap, run_cls_cons, cutFileName, hn]

/-- The pattern starts with `^`: it matches from position 0 only. -/
theorem maven_run_pos (pos : Nat) (hpos : pos ≠ 0) (s : Str) (caps : List Str) :
    mavenFileNameRegex.run ⟨pos, s, caps⟩ some = none := by
  rw [mavenFileNameRegex_eq, run_seq, run_bot]
  simp [hpos]

theorem findFrom_maven_pos (s : Str) :
    ∀ pos : Nat, 0 < pos → findFrom mavenFileNameRegex 3 pos s = none := by
  induction s with
  | nil =>
    intro pos hpos
    simp only [findFrom, matchAt]
    rw [maven_run_pos pos (by omega)]
  | cons c t ih =>
    intro pos hpos
    simp only [findFrom, matchAt]
    rw [maven_run_pos pos (by omega)]
    exact ih (pos + 1) (by omega)

/-- What `FindStringSubmatch` returns for the Maven pattern: the whole text and
the three groups computed by `cutFileName`. -/
theorem findFrom_maven (s : Str) :
    FindStringSubmatch mavenFileNameRegex 3 s =
      (cutFileName s).map (fun r => [s, r.1, r.2.1, r.2.2]) := by
  have hrun : mavenFileNameRegex.run ⟨0, s, List.replicate (3 + 1) []⟩ some =
      (cutFileName s).map (fun r => ⟨s.length, [], [[], r.1, r.2.1, r.2.2]⟩) := by
    rw [mavenFileNameRegex_eq, run_seq, run_bot]
    simp only [if_true]
    exact artifact_tail1_run s
  have hat : matchAt mavenFileNameRegex 3 0 s =
      (cutFileName s).map (fun r => [s, r.1, r.2.1, r.2.2]) := by
    unfold matchAt
    rw [hrun]
    cases cutFileName s with
    | none => rfl
    | some r => simp
  unfold FindStringSubmatch
  cases s with
  | nil => simp only [findFrom, hat]
  | cons c t =>
    simp only [findFrom, hat]
    cases hcut : cutFileName (c :: t) with
    | none => simpa using findFrom_maven_pos t 1 (by omega)
    | some r => rfl

/-! ## Properties of the direct description -/

theorem isWordDotHyphen_hyphen : isWordDotHyphen '-' = true := by decide

theorem isDigit_ne_hyphen {d : Char} (h : isDigit d = true) : d ≠ '-' := by
  intro hd
  rw [hd] at h
  exact absurd h (by decide)

theorem cutClassifier_some : ∀ (w v c : Str), cutClassifier w = some (v, c) →
    w = v ++ (if c = [] then [] else '-' :: c) ∧ v.all isWordDotHyphen = true ∧
      c.all isWordDotHyphen = true := by
  intro w
  induction w with
  | nil =>
    intro v c h
    simp only [cutClassifier, Option.some.injEq, Prod.mk.injEq] at h
    obtain ⟨rfl, rfl⟩ := h
    simp
  | cons x t ih =>
    intro v c h
    unfold cutClassifier at h
    by_cases hcut : x = '-' ∧ t ≠ [] ∧ t.all isWordDotHyphen = true
    · rw [if_pos hcut] at h
      simp only [Option.some.injEq, Prod.mk.injEq] at h
      obtain ⟨rfl, rfl⟩ := h
      obtain ⟨hx, hne, hall⟩ := hcut
      simp [hx, hne, hall]
    · rw [if_neg hcut] at h
      by_cases hw : isWordDotHyphen x = true
      · rw [if_pos hw] at h
        cases hrec : cutClassifier t with
        | none => rw [hrec] at h; simp at h
        | some vc =>
          rw [hrec] at h
          simp only [Option.map_some', Option.some.injEq, Prod.mk.injEq] at h
          obtain ⟨rfl, rfl⟩ := h
          obtain ⟨h1, h2, h3⟩ := ih vc.1 vc.2 (by rw [hrec])
          refine ⟨?_, ?_, h3⟩
          · rw [List.cons_append, ← h1]
          · simp only [List.all_cons, hw, h2, Bool.and_self]
      · rw [if_neg hw] at h
        simp at h

theorem cutClassifier_isSome : ∀ (w : Str), w.all isWordDotHyphen = true →
    ∃ vc, cutClassifier w = some vc := by
  intro w
  induction w with
  | nil => intro _; exact ⟨([], []), rfl⟩
  | cons x t ih =>
    intro h
    simp only [List.all_cons, Bool.and_eq_true] at h
    unfold cutClassifier
    by_cases hcut : x = '-' ∧ t ≠ [] ∧ t.all isWordDotHyphen = true
    · rw [if_pos hcut]; exact ⟨_, rfl⟩
    · rw [if_neg hcut, if_pos h.1]
      obtain ⟨vc, hvc⟩ := ih h.2
      rw [hvc]
      exact ⟨_, rfl⟩

/-- The version token of a text without hyphens is the whole text; before a
hyphen and a non-empty classifier it is the text before the hyphen. -/
theorem cutClassifier_hyphenFree : ∀ (w x : Str), w.all isWordDotHyphen = true →
    (∀ ch ∈ w, ch ≠ '-') → x.all isWordDotHyphen = true →
    cutClassifier (w ++ (if x = [] then [] else '-' :: x)) = some (w, x) := by
  intro w
  induction w with
  | nil =>
    intro x _ _ hx
    by_cases hxe : x = []
    · subst hxe; rfl
    · simp only [hxe, if_false, List.nil_append]
      unfold cutClassifier
      rw [if_pos ⟨rfl, hxe, hx⟩]
  | cons c t ih =>
    intro x hw hfree hx
    simp only [List.all_cons, Bool.and_eq_true] at hw
    have hc : c ≠ '-' := hfree c (List.mem_cons_self _ _)
    rw [List.cons_append]
    unfold cutClassifier
    rw [if_neg (fun h => hc h.1), if_pos hw.1,
      ih x hw.2 (fun ch hch => hfree ch (List.mem_cons_of_mem _ hch)) hx]
    rfl

theorem cutVersion_cons (d : Char) (w : Str) :
    cutVersion (d :: w) =
      if isDigit d = true then (cutClassifier w).map (fun vc => (d :: vc.1, vc.2)) else none :=
  rfl

theorem cutVersion_some (r vt ct : Str) (h : cutVersion r = some (vt, ct)) :
    (∃ d w, vt = d :: w ∧ isDigit d = true ∧ w.all isWordDotHyphen = true) ∧
      ct.all isWordDotHyphen = true ∧ r = vt ++ (if ct = [] then [] else '-' :: ct) := by
  cases r with
  | nil => simp [cutVersion] at h
  | cons d w =>
    rw [cutVersion_cons] at h
    by_cases hd : isDigit d = true
    · rw [if_pos hd] at h
      cases hrec : cutClassifier w with
      | none => rw [hrec] at h; simp at h
      | some vc =>
        rw [hrec] at h
        simp only [Option.map_some', Option.some.injEq, Prod.mk.injEq] at h
        obtain ⟨rfl, rfl⟩ := h
        obtain ⟨h1, h2, h3⟩ := cutClassifier_some w vc.1 vc.2 (by rw [hrec])
        refine ⟨⟨d, vc.1, rfl, hd, h2⟩, h3, ?_⟩
        rw [List.cons_append, ← h1]
    · rw [if_neg hd] at h
      simp at h

theorem cutVersion_isSome (d : Char) (w : Str) (hd : isDigit d = true)
    (hw : w.all isWordDotHyphen = true) : ∃ vc, cutVersion (d :: w) = some vc := by
  obtain ⟨vc, hvc⟩ := cutClassifier_isSome w hw
  rw [cutVersion_cons, if_pos hd, hvc]
  exact ⟨_, rfl⟩

theorem cutVersion_not_digit (r : Str) (h : ∀ d w, r = d :: w → isDigit d ≠ true) :
    cutVersion r = none := by
  cases r with
  | nil => rfl
  | cons d w =>
    rw [cutVersion_cons, if_neg (h d w rfl)]

theorem cutArtifact_cons (c : Char) (t : Str) :
    cutArtifact (c :: t) =
      match (if c = '-' then cutVersion t else none) with
      | some vc => some ([], vc.1, vc.2)
      | none =>
        if anyNotNL c = true then (cutArtifact t).map (fun r => (c :: r.1, r.2)) else none := by
  rw [cutArtifact]

theorem cutFileName_cons (c : Char) (t : Str) :
    cutFileName (c :: t) =
      if anyNotNL c = true then (cutArtifact t).map (fun r => (c :: r.1, r.2)) else none :=
  rfl

theorem cutArtifact_some : ∀ (s a vt ct : Str), cutArtifact s = some (a, vt, ct) →
    a.all anyNotNL = true ∧ ∃ r, s = a ++ '-' :: r ∧ cutVersion r = some (vt, ct) := by
  intro s
  induction s with
  | nil => intro a vt ct h; simp [cutArtifact] at h
  | cons c t ih =>
    intro a vt ct h
    rw [cutArtifact_cons] at h
    cases hv : (if c = '-' then cutVersion t else none) with
    | some vc =>
      rw [hv] at h
      simp only [Option.some.injEq, Prod.mk.injEq] at h
      obtain ⟨rfl, rfl, rfl⟩ := h
      by_cases hc : c = '-'
      · rw [if_pos hc] at hv
        exact ⟨rfl, t, by simp [hc], hv⟩
      · rw [if_neg hc] at hv
        simp at hv
    | none =>
      rw [hv] at h
      simp only [] at h
      by_cases hn : anyNotNL c = true
      · rw [if_pos hn] at h
        cases hrec : cutArtifact t with
        | none => rw [hrec] at h; simp at h
        | some r =>
          rw [hrec] at h
          simp only [Option.map_some', Option.some.injEq, Prod.mk.injEq] at h
          obtain ⟨rfl, hr⟩ := h
          obtain ⟨h1, r', h2, h3⟩ := ih r.1 vt ct (by rw [hrec, ← hr])
          refine ⟨?_, r', ?_, h3⟩
          · simp only [List.all_cons, hn, h1, Bool.and_self]
          · rw [List.cons_append, ← h2]
      · rw [if_neg hn] at h
        simp at h

theorem cutFileName_some (s a vt ct : Str) (h : cutFileName s = some (a, vt, ct)) :
    a ≠ [] ∧ a.all anyNotNL = true ∧ ∃ r, s = a ++ '-' :: r ∧ cutVersion r = some (vt, ct) := by
  cases s with
  | nil => simp [cutFileName] at h
  | cons c t =>
    rw [cutFileName_cons] at h
    by_cases hn : anyNotNL c = true
    · rw [if_pos hn] at h
      cases hrec : cutArtifact t with
      | none => rw [hrec] at h; simp at h
      | some r =>
        rw [hrec] at h
        simp only [Option.map_some', Option.some.injEq, Prod.mk.injEq] at h
        obtain ⟨rfl, hr⟩ := h
        obtain ⟨h1, r', h2, h3⟩ := cutArtifact_some t r.1 vt ct (by rw [hrec, ← hr])
        refine ⟨by simp, ?_, r', ?_, h3⟩
        · simp only [List.all_cons, hn, h1, Bool.and_self]
        · rw [List.cons_append, ← h2]
    · rw [if_neg hn] at h
      simp at h

theorem cutArtifact_isSome : ∀ (a r : Str), a.all anyNotNL = true →
    (∃ vc, cutVersion r = some vc) → ∃ res, cutArtifact (a ++ '-' :: r) = some res := by
  intro a
  induction a with
  | nil =>
    intro r _ hr
    obtain ⟨vc, hvc⟩ := hr
    rw [List.nil_append, cutArtifact_cons, if_pos rfl, hvc]
    exact ⟨_, rfl⟩
  | cons c t ih =>
    intro r ha hr
    simp only [List.all_cons, Bool.and_eq_true] at ha
    rw [List.cons_append, cutArtifact_cons]
    cases hv : (if c = '-' then cutVersion (t ++ '-' :: r) else none) with
    | some vc => exact ⟨_, rfl⟩
    | none =>
      obtain ⟨res, hres⟩ := ih r ha.2 hr
      simp only [if_pos ha.1, hres]
      exact ⟨_, rfl⟩

theorem cutFileName_isSome (a r : Str) (hne : a ≠ []) (ha : a.all anyNotNL = true)
    (hr : ∃ vc, cutVersion r = some vc) : ∃ res, cutFileName (a ++ '-' :: r) = some res := by
  cases a with
  | nil => exact absurd rfl hne
  | cons c t =>
    simp only [List.all_cons, Bool.and_eq_true] at ha
    obtain ⟨res, hres⟩ := cutArtifact_isSome t r ha.2 hr
    rw [List.cons_append, cutFileName_cons, if_pos ha.1, hres]
    exact ⟨_, rfl⟩

theorem noHyphenDigit_tail (c : Char) (t : Str) (h : noHyphenDigit (c :: t) = true) :
    noHyphenDigit t = true := by
  cases t with
  | nil => rfl
  | cons d u =>
    rw [noHyphenDigit] at h
    simp only [Bool.and_eq_true] at h
    exact h.2

/-- Group 1 is the given prefix when no hyphen inside it is followed by a digit. -/
theorem cutArtifact_first : ∀ (a r vt ct : Str), a.all anyNotNL = true →
    noHyphenDigit a = true → cutVersion r = some (vt, ct) →
    cutArtifact (a ++ '-' :: r) = some (a, vt, ct) := by
  intro a
  induction a with
  | nil =>
    intro r vt ct _ _ hr
    rw [List.nil_append, cutArtifact_cons, if_pos rfl, hr]
  | cons c t ih =>
    intro r vt ct ha hnd hr
    simp only [List.all_cons, Bool.and_eq_true] at ha
    have hnone : (if c = '-' then cutVersion (t ++ '-' :: r) else none) = none := by
      by_cases hc : c = '-'
      · rw [if_pos hc]
        apply cutVersion_not_digit
        intro d w hdw
        cases t with
        | nil =>
          simp only [List.nil_append, List.cons.injEq] at hdw
          rw [← hdw.1]
          decide
        | cons d' u =>
          simp only [List.cons_append, List.cons.injEq] at hdw
          rw [noHyphenDigit] at hnd
          simp only [Bool.and_eq_true, Bool.not_eq_true', Bool.and_eq_false_iff, hc,
            beq_self_eq_true, Bool.true_eq_false, false_or] at hnd
          rw [← hdw.1, hnd.1]
          decide
      · rw [if_neg hc]
    rw [List.cons_append, cutArtifact_cons, hnone]
    simp only [if_pos ha.1, ih r vt ct ha.2 (noHyphenDigit_tail c t hnd) hr, Option.map_some']

theorem cutFileName_first (a r vt ct : Str) (hne : a ≠ []) (ha : a.all anyNotNL = true)
    (hnd : noHyphenDigit a = true) (hr : cutVersion r = some (vt, ct)) :
    cutFileName (a ++ '-' :: r) = some (a, vt, ct) := by
  cases a with
  | nil => exact absurd rfl hne
  | cons c t =>
    simp only [List.all_cons, Bool.and_eq_true] at ha
    rw [List.cons_append, cutFileName_cons, if_pos ha.1,
      cutArtifact_first t r vt ct ha.2 (noHyphenDigit_tail c t hnd) hr]
    rfl

/-! ## `ParseMavenFileName` through the direct description -/

theorem fileNameMatches_eq (fileName : Str) :
    fileNameMatches fileName =
      (cutFileName (baseName fileName)).map
        (fun r => [baseName fileName, r.1, r.2.1, r.2.2]) := by
  unfold fileNameMatches
  exact findFrom_maven _

theorem ParseMavenFileName_eq (fileName versionFromPath : Str) :
    ParseMavenFileName fileName versionFromPath =
      match cutFileName (baseName fileName) with
      | none =>
        ([], [], [], [], some ("failed to parse file name '".toList ++ fileName ++
          "'. Regex did not match".toList))
      | some r =>
        if r.2.1 = versionFromPath then (r.1, r.2.1, r.2.2, filepathExt fileName, none)
        else (r.1, versionFromPath, r.2.1, filepathExt fileName, none) := by
  unfold ParseMavenFileName
  rw [fileNameMatches_eq]
  cases cutFileName (baseName fileName) with
  | none => rfl
  | some r => simp

theorem extScan_dot : ∀ (yr more seen : Str), (∀ ch ∈ yr, ch ≠ '.' ∧ ch ≠ '/') →
    extScan (yr ++ '.' :: more) seen = '.' :: (yr.reverse ++ seen) := by
  intro yr
  induction yr with
  | nil =>
    intro more seen _
    simp [extScan]
  | cons c t ih =>
    intro more seen h
    have hc := h c (List.mem_cons_self _ _)
    rw [List.cons_append, extScan, if_neg hc.2, if_neg hc.1,
      ih more (c :: seen) (fun ch hch => h ch (List.mem_cons_of_mem _ hch))]
    simp

theorem filepathExt_append (x y : Str) (hy : ∀ ch ∈ y, ch ≠ '.' ∧ ch ≠ '/') :
    filepathExt (x ++ '.' :: y) = '.' :: y := by
  unfold filepathExt
  rw [List.reverse_append, List.reverse_cons, List.append_assoc, List.singleton_append,
    extScan_dot y.reverse x.reverse [] (by simpa using hy)]
  simp

theorem stringsTrimSuffix_append (x e : Str) : stringsTrimSuffix (x ++ e) e = x := by
  unfold stringsTrimSuffix
  have h : e.isSuffixOf (x ++ e) = true := by
    rw [List.isSuffixOf_iff_suffix]
    exact List.suffix_append x e
  rw [if_pos h]
  simp

theorem baseName_append (x y : Str) (hy : ∀ ch ∈ y, ch ≠ '.' ∧ ch ≠ '/') :
    baseName (x ++ '.' :: y) = x := by
  unfold baseName
  rw [filepathExt_append x y hy, stringsTrimSuffix_append]

/-! ## `strings.Split` and `strings.Join` -/

theorem stringsSplit_ne_nil (s : Str) (sep : Char) : stringsSplit s sep ≠ [] := by
  cases s with
  | nil => simp [stringsSplit]
  | cons c t =>
    rw [stringsSplit]
    by_cases hc : c = sep
    · simp [hc]
    · rw [if_neg hc]
      cases stringsSplit t sep <;> simp

theorem stringsSplit_cons_sep (t : Str) (sep : Char) :
    stringsSplit (sep :: t) sep = [] :: stringsSplit t sep := by
  rw [stringsSplit, if_pos rfl]

theorem stringsSplit_cons_ne (c : Char) (t : Str) (sep : Char) (hc : c ≠ sep) :
    ∃ seg more, stringsSplit t sep = seg :: more ∧
      stringsSplit (c :: t) sep = (c :: seg) :: more := by
  rw [stringsSplit, if_neg hc]
  cases h : stringsSplit t sep with
  | nil => exact absurd h (stringsSplit_ne_nil t sep)
  | cons seg more => exact ⟨seg, more, rfl, rfl⟩

theorem stringsSplit_noSep : ∀ (s : Str) (sep : Char), (∀ ch ∈ s, ch ≠ sep) →
    stringsSplit s sep = [s] := by
  intro s
  induction s with
  | nil => intro sep _; rfl
  | cons c t ih =>
    intro sep h
    have hc := h c (List.mem_cons_self _ _)
    rw [stringsSplit, if_neg hc, ih sep (fun ch hch => h ch (List.mem_cons_of_mem _ hch))]

theorem stringsSplit_append : ∀ (x y : Str) (sep : Char),
    stringsSplit (x ++ sep :: y) sep = stringsSplit x sep ++ stringsSplit y sep := by
  intro x
  induction x with
  | nil =>
    intro y sep
    rw [List.nil_append, stringsSplit_cons_sep]
    rfl
  | cons c t ih =>
    intro y sep
    by_cases hc : c = sep
    · subst hc
      rw [List.cons_append, stringsSplit_cons_sep, stringsSplit_cons_sep, ih]
      rfl
    · obtain ⟨seg, more, h1, h2⟩ := stringsSplit_cons_ne c t sep hc
      obtain ⟨seg2, more2, h3, h4⟩ := stringsSplit_cons_ne c (t ++ sep :: y) sep hc
      rw [List.cons_append, h4, h2]
      rw [ih, h1] at h3
      simp only [List.cons_append, List.cons.injEq] at h3
      rw [← h3.1, ← h3.2]
      rfl

theorem stringsSplit_sepFree : ∀ (s : Str) (sep : Char), ∀ seg ∈ stringsSplit s sep,
    ∀ ch ∈ seg, ch ≠ sep := by
  intro s
  induction s with
  | nil =>
    intro sep seg hseg
    simp only [stringsSplit, List.mem_singleton] at hseg
    subst hseg
    simp
  | cons c t ih =>
    intro sep seg hseg
    by_cases hc : c = sep
    · subst hc
      rw [stringsSplit_cons_sep] at hseg
      rcases List.mem_cons.mp hseg with h | h
      · subst h; simp
      · exact ih c seg h
    · obtain ⟨seg1, more, h1, h2⟩ := stringsSplit_cons_ne c t sep hc
      rw [h2] at hseg
      have ih1 := ih sep
      rw [h1] at ih1
      rcases List.mem_cons.mp hseg with h | h
      · subst h
        intro ch hch
        rcases List.mem_cons.mp hch with h' | h'
        · rw [h']; exact hc
        · exact ih1 seg1 (List.mem_cons_self _ _) ch h'
      · exact ih1 seg (List.mem_cons_of_mem _ h)

theorem stringsJoin_cons_cons (c : Char) (seg : Str) (more : List Str) (sep : Str) :
    stringsJoin ((c :: seg) :: more) sep = c :: stringsJoin (seg :: more) sep := by
  cases more with
  | nil => rfl
  | cons b rest => simp [stringsJoin]

theorem stringsJoin_nil_cons (more : List Str) (sep : Str) (hne : more ≠ []) :
    stringsJoin ([] :: more) sep = sep ++ stringsJoin more sep := by
  cases more with
  | nil => exact absurd rfl hne
  | cons b rest => simp [stringsJoin]

theorem stringsJoin_cons (a : Str) (more : List Str) (sep : Str) (hne : more ≠ []) :
    stringsJoin (a :: more) sep = a ++ sep ++ stringsJoin more sep := by
  cases more with
  | nil => exact absurd rfl hne
  | cons b rest => simp [stringsJoin]

theorem stringsJoin_append : ∀ (l1 l2 : List Str) (sep : Str), l1 ≠ [] → l2 ≠ [] →
    stringsJoin (l1 ++ l2) sep = stringsJoin l1 sep ++ sep ++ stringsJoin l2 sep := by
  intro l1
  induction l1 with
  | nil => intro l2 sep h; exact absurd rfl h
  | cons a t ih =>
    intro l2 sep _ h2
    cases t with
    | nil =>
      rw [List.singleton_append, stringsJoin_cons a l2 sep h2]
      rfl
    | cons b rest =>
      rw [List.cons_append, stringsJoin_cons a _ sep (by simp),
        stringsJoin_cons a (b :: rest) sep (by simp), ih l2 sep (by simp) h2]
      simp

/-- Joining the pieces of a split with the separator gives the text back. -/
theorem stringsJoin_stringsSplit : ∀ (s : Str) (sep : Char),
    stringsJoin (stringsSplit s sep) [sep] = s := by
  intro s
  induction s with
  | nil => intro sep; rfl
  | cons c t ih =>
    intro sep
    by_cases hc : c = sep
    · subst hc
      rw [stringsSplit_cons_sep, stringsJoin_nil_cons _ _ (stringsSplit_ne_nil t c), ih]
      rfl
    · obtain ⟨seg, more, h1, h2⟩ := stringsSplit_cons_ne c t sep hc
      rw [h2, stringsJoin_cons_cons, ← h1, ih]

/-- A group id without `/` is recovered from its directory form. -/
theorem stringsJoin_split_replace : ∀ (g : Str), (∀ ch ∈ g, ch ≠ '/') →
    stringsJoin (stringsSplit (stringsReplaceAll g '.' '/') '/') ['.'] = g := by
  intro g
  induction g with
  | nil => intro _; rfl
  | cons c t ih =>
    intro h
    have hc := h c (List.mem_cons_self _ _)
    have iht := ih (fun ch hch => h ch (List.mem_cons_of_mem _ hch))
    by_cases hd : c = '.'
    · subst hd
      have hstep : stringsReplaceAll ('.' :: t) '.' '/' = '/' :: stringsReplaceAll t '.' '/' := by
        simp [stringsReplaceAll]
      rw [hstep, stringsSplit_cons_sep, stringsJoin_nil_cons _ _ (stringsSplit_ne_nil _ _), iht]
      rfl
    · have hstep : stringsReplaceAll (c :: t) '.' '/' = c :: stringsReplaceAll t '.' '/' := by
        simp [stringsReplaceAll, hd]
      obtain ⟨seg, more, h1, h2⟩ :=
        stringsSplit_cons_ne c (stringsReplaceAll t '.' '/') '/' hc
      rw [hstep, h2, stringsJoin_cons_cons, ← h1, iht]

/-! ## `GenerateMavenPath` and the round trip -/

theorem GenerateMavenPath_eq (groupID artifactID version classifier extension : Str) :
    GenerateMavenPath groupID artifactID version classifier extension =
      stringsReplaceAll groupID '.' '/' ++ '/' :: (artifactID ++ '/' :: (version ++ '/' ::
        (artifactID ++ '-' :: (version ++ (if classifier = [] then [] else '-' :: classifier))
          ++ extension))) := by
  unfold GenerateMavenPath
  have h1 : "/".toList = ['/'] := rfl
  have h2 : "-".toList = ['-'] := rfl
  by_cases hc : classifier = []
  · simp [hc, h1, h2]
  · simp [hc, h1, h2]

theorem stringsJoin_free (x : Char) (sep : Str) (hsep : ∀ ch ∈ sep, ch ≠ x) :
    ∀ (l : List Str), (∀ seg ∈ l, ∀ ch ∈ seg, ch ≠ x) → ∀ ch ∈ stringsJoin l sep, ch ≠ x := by
  intro l
  induction l with
  | nil => intro _ ch hch; simp [stringsJoin] at hch
  | cons a t ih =>
    intro h ch hch
    cases t with
    | nil => exact h a (List.mem_cons_self _ _) ch hch
    | cons b rest =>
      rw [stringsJoin_cons a (b :: rest) sep (by simp)] at hch
      simp only [List.mem_append] at hch
      rcases hch with (h1 | h1) | h1
      · exact h a (List.mem_cons_self _ _) ch h1
      · exact hsep ch h1
      · exact ih (fun seg hseg => h seg (List.mem_cons_of_mem _ hseg)) ch h1

theorem isWordDotHyphen_ne_slash {ch : Char} (h : isWordDotHyphen ch = true) : ch ≠ '/' := by
  intro hc
  rw [hc] at h
  exact absurd h (by decide)

theorem isWordDotHyphen_anyNotNL {ch : Char} (h : isWordDotHyphen ch = true) :
    anyNotNL ch = true := by
  by_cases hc : ch = '\n'
  · rw [hc] at h
    exact absurd h (by decide)
  · simp [anyNotNL, hc]

/-- The segments of a generated path: those of the group directory, then the
artifact folder, the version folder and the file name. -/
theorem split_generated (r a v f : Str) (ha : ∀ ch ∈ a, ch ≠ '/') (hv : ∀ ch ∈ v, ch ≠ '/')
    (hf : ∀ ch ∈ f, ch ≠ '/') :
    stringsSplit (r ++ '/' :: (a ++ '/' :: (v ++ '/' :: f))) '/' =
      stringsSplit r '/' ++ [a, v, f] := by
  rw [stringsSplit_append, stringsSplit_append, stringsSplit_append,
    stringsSplit_noSep a '/' ha, stringsSplit_noSep v '/' hv, stringsSplit_noSep f '/' hf]
  rfl

theorem segments_shape (l : List Str) (a v f : Str) :
    3 ≤ (l ++ [a, v, f]).length ∧
      (l ++ [a, v, f]).take ((l ++ [a, v, f]).length - 3) = l ∧
      (l ++ [a, v, f]).getD ((l ++ [a, v, f]).length - 1) [] = f ∧
      (l ++ [a, v, f]).getD ((l ++ [a, v, f]).length - 2) [] = v := by
  have hlen : (l ++ [a, v, f]).length = l.length + 3 := by simp
  rw [hlen]
  refine ⟨by omega, ?_, ?_, ?_⟩
  · simp
  · have h : l.length + 3 - 1 = l.length + 2 := by omega
    rw [h, List.getD_eq_getElem?_getD, List.getElem?_append_right (by omega)]
    simp
  · have h : l.length + 3 - 2 = l.length + 1 := by omega
    rw [h, List.getD_eq_getElem?_getD, List.getElem?_append_right (by omega)]
    simp

/-- The file name of a round-trip coordinate parses back to the coordinate. -/
theorem parse_generated (a d : Char) (a1 w c y : Str) (ha : (a :: a1).all anyNotNL = true)
    (hnd : noHyphenDigit (a :: a1) = true) (hd : isDigit d = true)
    (hw : w.all isWordDotHyphen = true) (hfree : ∀ ch ∈ w, ch ≠ '-')
    (hc : c.all isWordDotHyphen = true) (hy : ∀ ch ∈ y, ch ≠ '.' ∧ ch ≠ '/') :
    ParseMavenFileName
        ((a :: a1) ++ '-' :: ((d :: w) ++ (if c = [] then [] else '-' :: c)) ++ '.' :: y)
        (d :: w) =
      (a :: a1, d :: w, c, '.' :: y, none) := by
  have hver : cutVersion ((d :: w) ++ (if c = [] then [] else '-' :: c)) = some (d :: w, c) := by
    rw [List.cons_append, cutVersion_cons, if_pos hd, cutClassifier_hyphenFree w c hw hfree hc]
    rfl
  have hcut := cutFileName_first (a :: a1) _ (d :: w) c (by simp) ha hnd hver
  rw [ParseMavenFileName_eq, baseName_append _ y hy, filepathExt_append _ y hy, hcut]
  simp

/-! ## The segments of a relative path -/

theorem last_three (l : List Str) (h : 3 ≤ l.length) :
    ∃ gs x v f, l = gs ++ [x, v, f] := by
  have hsplit := (List.take_append_drop (l.length - 3) l).symm
  have hlen : (l.drop (l.length - 3)).length = 3 := by
    rw [List.length_drop]; omega
  match hd : l.drop (l.length - 3), hlen with
  | [x, v, f], _ =>
    rw [hd] at hsplit
    exact ⟨_, x, v, f, hsplit⟩

/-- `BuildFullTargetURLWith` on a relative path whose segments end with an
artifact folder, a version folder and a file name. -/
theorem BuildFullTargetURLWith_segments (filepathRel : Str → Str → Str × Option Str)
    (parse : Str → Str → Str × Str × Str × Str × Option Str)
    (generate : Str → Str → Str → Str → Str → Str)
    (mi : Maven2Importer) (filePath relativePath : Str) (gs : List Str) (x v f : Str)
    (hrel : filepathRel mi.RootPath filePath = (relativePath, none))
    (hsegs : stringsSplit relativePath '/' = gs ++ [x, v, f]) :
    BuildFullTargetURLWith filepathRel parse generate mi filePath =
      match parse f v with
      | (_, _, _, _, some err) =>
        ([], some ("failed to parse Maven file name '".toList ++ f ++ "': ".toList ++ err))
      | (artifactID, parsedVersion, classifier, extension, none) =>
        (mi.BaseURL ++ "/repository/".toList ++ mi.Repository ++ "/".toList ++
          generate (stringsJoin gs ".".toList) artifactID parsedVersion classifier extension,
          none) := by
  obtain ⟨s1, s2, s3, s4⟩ := segments_shape gs x v f
  unfold BuildFullTargetURLWith
  rw [hrel]
  simp only [hsegs]
  rw [if_neg (by omega), s2, s3, s4]

/-! ## Hyphen-delimited tokens -/

theorem findIdx_split (p : Str → Bool) : ∀ (l : List Str), (∃ x ∈ l, p x = true) →
    ∃ pre tok post, l = pre ++ tok :: post ∧ p tok = true ∧ (∀ x ∈ pre, p x = false) ∧
      l.findIdx p = pre.length := by
  intro l
  induction l with
  | nil => intro h; obtain ⟨x, hx, _⟩ := h; simp at hx
  | cons b t ih =>
    intro h
    by_cases hb : p b = true
    · exact ⟨[], b, t, rfl, hb, by simp, by simp [List.findIdx_cons, hb]⟩
    · have ht : ∃ x ∈ t, p x = true := by
        obtain ⟨x, hx, hpx⟩ := h
        rcases List.mem_cons.mp hx with h1 | h1
        · rw [h1] at hpx; exact absurd hpx hb
        · exact ⟨x, h1, hpx⟩
      obtain ⟨pre, tok, post, h1, h2, h3, h4⟩ := ih ht
      refine ⟨b :: pre, tok, post, by rw [h1]; rfl, h2, ?_, ?_⟩
      · intro x hx
        rcases List.mem_cons.mp hx with h5 | h5
        · rw [h5]; simpa using hb
        · exact h3 x h5
      · simp [List.findIdx_cons, hb, h4]

theorem noHyphenDigit_cons_cons (c d : Char) (u : Str) :
    noHyphenDigit (c :: d :: u) = (!(c == '-' && isDigit d) && noHyphenDigit (d :: u)) := by
  rw [noHyphenDigit]

theorem noHyphenDigit_hyphenFree : ∀ (t : Str), (∀ ch ∈ t, ch ≠ '-') →
    noHyphenDigit t = true := by
  intro t
  induction t with
  | nil => intro _; rfl
  | cons c u ih =>
    intro h
    cases u with
    | nil => rfl
    | cons d v =>
      have hc := h c (List.mem_cons_self _ _)
      rw [noHyphenDigit_cons_cons, ih (fun ch hch => h ch (List.mem_cons_of_mem _ hch))]
      simp [hc]

theorem noHyphenDigit_append_hyphen : ∀ (t y : Str), (∀ ch ∈ t, ch ≠ '-') →
    noHyphenDigit y = true → startsWithDigit y = false →
    noHyphenDigit (t ++ '-' :: y) = true := by
  intro t
  induction t with
  | nil =>
    intro y _ hy hsd
    cases y with
    | nil => rfl
    | cons d v =>
      simp only [startsWithDigit] at hsd
      rw [List.nil_append, noHyphenDigit_cons_cons, hy, hsd]
      rfl
  | cons c u ih =>
    intro y h hy hsd
    have hc := h c (List.mem_cons_self _ _)
    have hrec := ih y (fun ch hch => h ch (List.mem_cons_of_mem _ hch)) hy hsd
    cases u with
    | nil =>
      rw [List.singleton_append, noHyphenDigit_cons_cons]
      rw [List.nil_append] at hrec
      rw [hrec]
      simp [hc]
    | cons d v =>
      rw [List.cons_append, List.cons_append, noHyphenDigit_cons_cons]
      rw [List.cons_append] at hrec
      rw [hrec]
      simp [hc]

theorem startsWithDigit_append_hyphen (t y : Str) (h : startsWithDigit t = false) :
    startsWithDigit (t ++ '-' :: y) = false := by
  cases t with
  | nil =>
    have hh : isDigit '-' = false := by decide
    simp only [List.nil_append, startsWithDigit, hh]
  | cons c u => exact h

/-- The text made of tokens none of which starts with a digit has no hyphen
directly followed by a digit. -/
theorem noHyphenDigit_join : ∀ (pre : List Str),
    (∀ t ∈ pre, (∀ ch ∈ t, ch ≠ '-') ∧ startsWithDigit t = false) →
    noHyphenDigit (stringsJoin pre ['-']) = true ∧
      startsWithDigit (stringsJoin pre ['-']) = false := by
  intro pre
  induction pre with
  | nil => intro _; exact ⟨rfl, rfl⟩
  | cons t more ih =>
    intro h
    have ht := h t (List.mem_cons_self _ _)
    cases more with
    | nil => exact ⟨noHyphenDigit_hyphenFree t ht.1, ht.2⟩
    | cons b rest =>
      obtain ⟨h1, h2⟩ := ih (fun x hx => h x (List.mem_cons_of_mem _ hx))
      rw [stringsJoin_cons t (b :: rest) ['-'] (by simp), List.append_assoc,
        List.singleton_append]
      exact ⟨noHyphenDigit_append_hyphen t _ ht.1 h1 h2, startsWithDigit_append_hyphen t _ ht.2⟩

theorem stringsJoin_ne_nil (l : List Str) (sep : Str) (hsep : sep ≠ []) (h1 : l ≠ [])
    (h2 : l ≠ [[]]) : stringsJoin l sep ≠ [] := by
  cases l with
  | nil => exact absurd rfl h1
  | cons a more =>
    cases more with
    | nil =>
      intro h
      apply h2
      simp only [stringsJoin] at h
      rw [h]
    | cons b rest =>
      rw [stringsJoin_cons a (b :: rest) sep (by simp)]
      intro h
      simp only [List.append_eq_nil] at h
      exact hsep h.1.2

theorem tokens_at (pre post : List Str) (tok : Str) :
    (pre ++ tok :: post).take pre.length = pre ∧
      (pre ++ tok :: post).drop pre.length = tok :: post ∧
      (pre ++ tok :: post).drop (pre.length + 1) = post ∧
      (pre ++ tok :: post).getD pre.length [] = tok := by
  refine ⟨by simp, by simp, ?_, ?_⟩
  · rw [← List.drop_drop]
    simp
  · rw [List.getD_eq_getElem?_getD, List.getElem?_append_right (Nat.le_refl _)]
    simp

/-- Groups 1 and 2 of the match in terms of the hyphen-delimited tokens. -/
theorem cutFileName_tokens (base a vt ct : Str) (hcut : cutFileName base = some (a, vt, ct))
    (hbefore : textBeforeToken base (firstDigitToken base) ≠ [])
    (hword : (textFromToken base (firstDigitToken base)).all isWordDotHyphen = true)
    (htail : (hyphenTokens base).drop (firstDigitToken base + 1) ≠ [[]]) :
    a = textBeforeToken base (firstDigitToken base) ∧
      vt = (hyphenTokens base).getD (firstDigitToken base) [] := by
  obtain ⟨hne, hnl, r, hbase, hver⟩ := cutFileName_some base a vt ct hcut
  obtain ⟨⟨d, w, hvt, hd, hw⟩, hct, hr⟩ := cutVersion_some r vt ct hver
  have hex : ∃ x ∈ stringsSplit base '-', startsWithDigit x = true := by
    obtain ⟨seg, more, _, h2⟩ := stringsSplit_cons_ne d
      (w ++ (if ct = [] then [] else '-' :: ct)) '-' (isDigit_ne_hyphen hd)
    refine ⟨d :: seg, ?_, hd⟩
    rw [hbase, stringsSplit_append, hr, hvt, List.cons_append, h2]
    exact List.mem_append_right _ (List.mem_cons_self _ _)
  obtain ⟨pre, tok, post, hts, htok, hpre, hidx⟩ := findIdx_split startsWithDigit _ hex
  obtain ⟨t1, t2, t3, t4⟩ := tokens_at pre post tok
  have hfree := stringsSplit_sepFree base '-'
  rw [hts] at hfree
  unfold textBeforeToken textFromToken firstDigitToken hyphenTokens at *
  rw [hidx, hts] at hbefore hword htail
  rw [hidx, hts, t1, t4]
  rw [t1] at hbefore
  rw [t2] at hword
  rw [t3] at htail
  have hprene : pre ≠ [] := by
    intro h
    rw [h] at hbefore
    exact hbefore rfl
  -- the base name is the text before the token, a hyphen and the text from the token on
  have hjoin : base = stringsJoin pre ['-'] ++ '-' :: stringsJoin (tok :: post) ['-'] := by
    have h := stringsJoin_stringsSplit base '-'
    rw [hts, stringsJoin_append pre (tok :: post) ['-'] hprene (by simp)] at h
    rw [← h]
    simp
  -- the token and what follows it
  cases tok with
  | nil => simp [startsWithDigit] at htok
  | cons d1 w1 =>
    have htokfree : ∀ ch ∈ d1 :: w1, ch ≠ '-' :=
      hfree (d1 :: w1) (List.mem_append_right _ (List.mem_cons_self _ _))
    have hrest : ∃ x, x.all isWordDotHyphen = true ∧ w1.all isWordDotHyphen = true ∧
        stringsJoin ((d1 :: w1) :: post) ['-'] =
          d1 :: (w1 ++ (if x = [] then [] else '-' :: x)) := by
      cases post with
      | nil =>
        refine ⟨[], rfl, ?_, by simp [stringsJoin]⟩
        simp only [stringsJoin, List.all_cons, Bool.and_eq_true] at hword
        exact hword.2
      | cons b rest =>
        have hx := stringsJoin_ne_nil (b :: rest) ['-'] (by simp) (by simp) htail
        rw [stringsJoin_cons (d1 :: w1) (b :: rest) ['-'] (by simp)] at hword ⊢
        simp only [List.all_append, List.all_cons, Bool.and_eq_true] at hword
        refine ⟨stringsJoin (b :: rest) ['-'], hword.2, hword.1.1.2, ?_⟩
        simp [hx]
    obtain ⟨x, hxw, hw1, hrest⟩ := hrest
    have hv2 : cutVersion (stringsJoin ((d1 :: w1) :: post) ['-']) = some (d1 :: w1, x) := by
      have hd1 : isDigit d1 = true := htok
      rw [hrest, cutVersion_cons, if_pos hd1, cutClassifier_hyphenFree w1 x hw1
        (fun ch hch => htokfree ch (List.mem_cons_of_mem _ hch)) hxw]
      rfl
    -- the text before the token
    have hndj := noHyphenDigit_join pre (fun t ht =>
      ⟨hfree t (List.mem_append_left _ ht), hpre t ht⟩)
    have hbasenl : ∀ ch ∈ base, anyNotNL ch = true := by
      intro ch hch
      rw [hbase, hr, hvt] at hch
      simp only [List.mem_append, List.mem_cons] at hch
      rcases hch with h1 | h1 | (h1 | h1) | h1
      · exact (List.all_eq_true.mp hnl) ch h1
      · rw [h1]; decide
      · rw [h1]
        apply isWordDotHyphen_anyNotNL
        simp only [isDigit] at hd
        simp [isWordDotHyphen, Char.isAlphanum, hd]
      · exact isWordDotHyphen_anyNotNL ((List.all_eq_true.mp hw) ch h1)
      · by_cases hce : ct = []
        · simp [hce] at h1
        · simp only [hce, if_false, List.mem_cons] at h1
          rcases h1 with h1 | h1
          · rw [h1]; decide
          · exact isWordDotHyphen_anyNotNL ((List.all_eq_true.mp hct) ch h1)
    have hprenl : (stringsJoin pre ['-']).all anyNotNL = true := by
      rw [List.all_eq_true]
      intro ch hch
      apply hbasenl
      rw [hjoin]
      exact List.mem_append_left _ hch
    have hfirst := cutFileName_first (stringsJoin pre ['-']) _ (d1 :: w1) x hbefore hprenl
      hndj.1 hv2
    rw [← hjoin, hcut] at hfirst
    simp only [Option.some.injEq, Prod.mk.injEq] at hfirst
    exact ⟨hfirst.1, hfirst.2.1⟩

/-! ## The claims -/

/-- C1 (as stated, refuted): the coordinate `org.apache.logging.log4j :
log4j-1.2-api : 2.17.1` with extension `.jar` and no classifier is valid under
the grammar of the specification, and the file name of its generated path
`org/apache/logging/log4j/log4j-1.2-api/2.17.1/log4j-1.2-api-2.17.1.jar` is
resolved to artifactId `log4j` and classifier `1.2`. -/
theorem C1_round_trip_counterexample :
    validCoordinate ["org".toList, "apache".toList, "logging".toList, "log4j".toList]
        "log4j-1.2-api".toList "2.17.1".toList [] ".jar".toList = true ∧
      stringsSplit (GenerateMavenPath "org.apache.logging.log4j".toList "log4j-1.2-api".toList
          "2.17.1".toList [] ".jar".toList) '/' =
        ["org".toList, "apache".toList, "logging".toList, "log4j".toList,
          "log4j-1.2-api".toList, "2.17.1".toList, "log4j-1.2-api-2.17.1.jar".toList] ∧
      ParseMavenFileName "log4j-1.2-api-2.17.1.jar".toList "2.17.1".toList =
        ("log4j".toList, "2.17.1".toList, "1.2".toList, ".jar".toList, none) ∧
      ParseMavenFileName "log4j-1.2-api-2.17.1.jar".toList "2.17.1".toList ≠
        ("log4j-1.2-api".toList, "2.17.1".toList, [], ".jar".toList, none) :=
  ⟨by decide, by decide, by decide, by decide⟩

/-- C1 (amended): for every coordinate that is valid under the grammar and whose
artifactId has no `/`, no line feed and no hyphen directly followed by a digit,
whose version has no hyphen and whose extension has no `/`, the segments of
`GenerateMavenPath(groupId, artifactId, version, classifier, extension)` are at
least three, the segments before the last three joined with `.` are the groupId,
and `ParseMavenFileName` on the last segment with the second-to-last segment as
path version returns the same artifactId, version, classifier and extension
without error, with the classifier absent (empty) or present. -/
theorem C1_round_trip (segs : List Str) (artifactID version classifier extension : Str)
    (h : roundTripCoordinate segs artifactID version classifier extension = true)
    (segments : List Str)
    (hsegments : segments = stringsSplit
      (GenerateMavenPath (stringsJoin segs ['.']) artifactID version classifier extension) '/') :
    3 ≤ segments.length ∧
      stringsJoin (segments.take (segments.length - 3)) ['.'] = stringsJoin segs ['.'] ∧
      ParseMavenFileName (segments.getD (segments.length - 1) [])
          (segments.getD (segments.length - 2) []) =
        (artifactID, version, classifier, extension, none) := by
  simp only [roundTripCoordinate, validCoordinate, Bool.and_eq_true, List.all_eq_true,
    isClassifierToken, bne_iff_ne, ne_eq, Bool.not_eq_true', List.isEmpty_eq_false] at h
  obtain ⟨⟨⟨⟨⟨⟨⟨⟨hsegs, hane⟩, hv⟩, hc⟩, he⟩, ha⟩, hnd⟩, hvfree⟩, hefree⟩ := h
  cases version with
  | nil => simp [isVersionToken] at hv
  | cons d w =>
    cases extension with
    | nil => simp [isExtension] at he
    | cons e0 y =>
      cases artifactID with
      | nil => exact absurd rfl hane
      | cons a0 a1 =>
        simp only [isVersionToken, Bool.and_eq_true, List.all_eq_true] at hv
        simp only [isExtension, Bool.and_eq_true, beq_iff_eq, List.all_eq_true, bne_iff_ne,
          ne_eq] at he
        obtain ⟨he0, hy⟩ := he
        subst he0
        have hg : ∀ ch ∈ stringsJoin segs ['.'], ch ≠ '/' := by
          apply stringsJoin_free '/' ['.'] (by decide)
          intro seg hseg ch hch
          have h1 := hsegs seg hseg
          simp only [isGroupSegment, Bool.and_eq_true, List.all_eq_true, bne_iff_ne,
            ne_eq] at h1
          exact (h1.2 ch hch).2
        have hwfree : ∀ ch ∈ w, ch ≠ '-' :=
          fun ch hch => hvfree ch (List.mem_cons_of_mem _ hch)
        have hyfree : ∀ ch ∈ y, ch ≠ '.' ∧ ch ≠ '/' :=
          fun ch hch => ⟨hy ch hch, hefree ch (List.mem_cons_of_mem _ hch)⟩
        have hdw : ∀ ch ∈ d :: w, isWordDotHyphen ch = true := by
          intro ch hch
          rcases List.mem_cons.mp hch with h1 | h1
          · rw [h1]
            have hd := hv.1
            simp only [isDigit] at hd
            simp [isWordDotHyphen, Char.isAlphanum, hd]
          · exact hv.2 ch h1
        have hfile : ∀ ch ∈ (a0 :: a1) ++ '-' :: ((d :: w) ++
            (if classifier = [] then [] else '-' :: classifier)) ++ '.' :: y, ch ≠ '/' := by
          intro ch hch
          simp only [List.mem_append, List.mem_cons] at hch
          rcases hch with (h1 | h1 | h1) | h1 | h1
          · exact (ha ch (List.mem_cons.mpr h1)).1
          · rw [h1]; decide
          · rcases h1 with h1 | h1
            · exact isWordDotHyphen_ne_slash (hdw ch (List.mem_cons.mpr h1))
            · by_cases hce : classifier = []
              · simp [hce] at h1
              · simp only [hce, if_false, List.mem_cons] at h1
                rcases h1 with h1 | h1
                · rw [h1]; decide
                · exact isWordDotHyphen_ne_slash (hc ch h1)
          · rw [h1]; decide
          · exact (hyfree ch h1).2
        have hsplit := split_generated (stringsReplaceAll (stringsJoin segs ['.']) '.' '/')
          (a0 :: a1) (d :: w) _ (fun ch hch => (ha ch hch).1)
          (fun ch hch => isWordDotHyphen_ne_slash (hdw ch hch)) hfile
        rw [GenerateMavenPath_eq, hsplit] at hsegments
        obtain ⟨s1, s2, s3, s4⟩ := segments_shape
          (stringsSplit (stringsReplaceAll (stringsJoin segs ['.']) '.' '/') '/')
          (a0 :: a1) (d :: w) ((a0 :: a1) ++ '-' :: ((d :: w) ++
            (if classifier = [] then [] else '-' :: classifier)) ++ '.' :: y)
        rw [← hsegments] at s1 s2 s3 s4
        refine ⟨s1, ?_, ?_⟩
        · rw [s2]
          exact stringsJoin_split_replace _ hg
        · rw [s3, s4]
          apply parse_generated a0 d a1 w classifier y _ hnd hv.1
            (List.all_eq_true.mpr hv.2) hwfree _ hyfree
          · simp only [List.all_eq_true]
            intro ch hch
            have h1 := (ha ch hch).2
            simp [anyNotNL, h1]
          · simp only [List.all_eq_true]
            exact hc

/-- C1, witness: the coordinate `com.example : artifact : 1.0.0 : sources`
with extension `.jar`. -/
theorem C1_round_trip_witness :
    roundTripCoordinate ["com".toList, "example".toList] "artifact".toList "1.0.0".toList
        "sources".toList ".jar".toList = true ∧
      ParseMavenFileName "artifact-1.0.0-sources.jar".toList "1.0.0".toList =
        ("artifact".toList, "1.0.0".toList, "sources".toList, ".jar".toList, none) :=
  ⟨by decide,
    (C1_round_trip ["com".toList, "example".toList] "artifact".toList "1.0.0".toList
      "sources".toList ".jar".toList (by decide)
      ["com".toList, "example".toList, "artifact".toList, "1.0.0".toList,
        "artifact-1.0.0-sources.jar".toList] (by decide)).2.2⟩

/-- C2: whenever `ParseMavenFileName(fileName, versionFromPath)` succeeds, the
returned version is `versionFromPath`; the base name is the returned artifactId,
a hyphen, the version token (group 2 of the match) and, when there is a trailing
token (group 3, empty when there is none), a hyphen and that token; the returned
classifier is the trailing token when the version token equals `versionFromPath`
and the version token otherwise. -/
theorem C2_disambiguation (fileName versionFromPath artifactID version classifier
    extension : Str)
    (h : ParseMavenFileName fileName versionFromPath =
      (artifactID, version, classifier, extension, none)) :
    version = versionFromPath ∧
      ∃ versionToken trailingToken,
        fileNameMatches fileName =
          some [baseName fileName, artifactID, versionToken, trailingToken] ∧
        baseName fileName = artifactID ++ '-' :: versionToken ++
          (if trailingToken = [] then [] else '-' :: trailingToken) ∧
        (versionToken = versionFromPath → classifier = trailingToken) ∧
        (versionToken ≠ versionFromPath → classifier = versionToken) := by
  rw [ParseMavenFileName_eq] at h
  cases hcut : cutFileName (baseName fileName) with
  | none => rw [hcut] at h; simp at h
  | some r =>
    obtain ⟨a, vt, ct⟩ := r
    rw [hcut] at h
    obtain ⟨_, _, r, hbase, hver⟩ := cutFileName_some _ a vt ct hcut
    obtain ⟨_, _, hr⟩ := cutVersion_some r vt ct hver
    have hform : baseName fileName = a ++ '-' :: vt ++ (if ct = [] then [] else '-' :: ct) := by
      rw [hbase, hr]; simp
    by_cases hv : vt = versionFromPath
    · simp only [hv, if_true, Prod.mk.injEq, and_true] at h
      obtain ⟨rfl, rfl, rfl, _⟩ := h
      refine ⟨rfl, vt, ct, ?_, hform, fun _ => rfl, fun hne => absurd hv hne⟩
      rw [fileNameMatches_eq, hcut]
      rfl
    · simp only [hv, if_false, Prod.mk.injEq, and_true] at h
      obtain ⟨rfl, rfl, rfl, _⟩ := h
      refine ⟨rfl, vt, ct, ?_, hform, fun heq => absurd heq hv, fun _ => rfl⟩
      rw [fileNameMatches_eq, hcut]
      rfl

/-- C2, witness: `artifact-1.0.1-TEST.war` under path version `1.0.1`. -/
theorem C2_disambiguation_witness :
    ParseMavenFileName "artifact-1.0.1-TEST.war".toList "1.0.1".toList =
        ("artifact".toList, "1.0.1".toList, "TEST".toList, ".war".toList, none) ∧
      "1.0.1".toList = "1.0.1".toList ∧
      ∃ versionToken trailingToken,
        fileNameMatches "artifact-1.0.1-TEST.war".toList =
          some [baseName "artifact-1.0.1-TEST.war".toList, "artifact".toList, versionToken,
            trailingToken] ∧
        baseName "artifact-1.0.1-TEST.war".toList = "artifact".toList ++ '-' :: versionToken ++
          (if trailingToken = [] then [] else '-' :: trailingToken) ∧
        (versionToken = "1.0.1".toList → "TEST".toList = trailingToken) ∧
        (versionToken ≠ "1.0.1".toList → "TEST".toList = versionToken) :=
  ⟨by decide, C2_disambiguation "artifact-1.0.1-TEST.war".toList "1.0.1".toList
    "artifact".toList "1.0.1".toList "TEST".toList ".war".toList (by decide)⟩

/-- C3: for every relative path with fewer than 3 segments, `BuildFullTargetURL`
returns the empty URL and the error `invalid Maven2 path: <path>`, whatever the
file-name parser and the path generator are: neither is reached. -/
theorem C3_too_few_segments (filepathRel : Str → Str → Str × Option Str)
    (parse : Str → Str → Str × Str × Str × Str × Option Str)
    (generate : Str → Str → Str → Str → Str → Str)
    (mi : Maven2Importer) (filePath relativePath : Str)
    (hrel : filepathRel mi.RootPath filePath = (relativePath, none))
    (hlen : (stringsSplit relativePath '/').length < 3) :
    BuildFullTargetURLWith filepathRel parse generate mi filePath =
        ([], some ("invalid Maven2 path: ".toList ++ relativePath)) ∧
      BuildFullTargetURL filepathRel mi filePath =
        ([], some ("invalid Maven2 path: ".toList ++ relativePath)) := by
  have hgen : ∀ p g, BuildFullTargetURLWith filepathRel p g mi filePath =
      ([], some ("invalid Maven2 path: ".toList ++ relativePath)) := by
    intro p g
    unfold BuildFullTargetURLWith
    rw [hrel]
    simp only [if_pos hlen]
  exact ⟨hgen parse generate, hgen _ _⟩

/-- C3, witness: the two-segment path `artifact/artifact-1.0.0.jar`. -/
theorem C3_too_few_segments_witness :
    (stringsSplit "artifact/artifact-1.0.0.jar".toList '/').length < 3 ∧
      BuildFullTargetURL (fun _ filePath => (filePath, none))
          ⟨"http://nexus".toList, "releases".toList, ".".toList, false⟩
          "artifact/artifact-1.0.0.jar".toList =
        ([], some "invalid Maven2 path: artifact/artifact-1.0.0.jar".toList) :=
  ⟨by decide,
    (C3_too_few_segments (fun _ filePath => (filePath, none)) ParseMavenFileName
      GenerateMavenPath ⟨"http://nexus".toList, "releases".toList, ".".toList, false⟩
      "artifact/artifact-1.0.0.jar".toList "artifact/artifact-1.0.0.jar".toList rfl
      (by decide)).2⟩

/-- C4: `GenerateMavenPath` returns the groupId with every `.` replaced by `/`
(same length, each `.` turned into `/`, every other character kept), then
`/` artifactId `/` version `/` artifactId `-` version, then `-` classifier
exactly when the classifier is non-empty, then the extension. -/
theorem C4_generate_path (groupID artifactID version classifier extension : Str) :
    GenerateMavenPath groupID artifactID version classifier extension =
        stringsReplaceAll groupID '.' '/' ++ "/".toList ++ artifactID ++ "/".toList ++
          version ++ "/".toList ++ artifactID ++ "-".toList ++ version ++
          (if classifier = [] then [] else "-".toList ++ classifier) ++ extension ∧
      (stringsReplaceAll groupID '.' '/').length = groupID.length ∧
      ∀ i : Nat, ∀ ch : Char, groupID.get? i = some ch →
        (stringsReplaceAll groupID '.' '/').get? i = some (if ch = '.' then '/' else ch) := by
  refine ⟨?_, ?_, ?_⟩
  · rw [GenerateMavenPath_eq]
    have h1 : "/".toList = ['/'] := rfl
    have h2 : "-".toList = ['-'] := rfl
    by_cases hc : classifier = []
    · simp [hc, h1, h2]
    · simp [hc, h1, h2]
  · simp [stringsReplaceAll]
  · intro i ch hi
    simp only [stringsReplaceAll, List.get?_eq_getElem?, List.getElem?_map] at hi ⊢
    rw [hi]
    rfl

/-- C5: when `BuildFullTargetURL` succeeds, the relative path was computed, its
segments end with an artifact folder, a version folder and a file name,
`ParseMavenFileName` succeeded on the file name with the version folder as path
version, and the URL is baseURL `/repository/` repository `/` followed by
`GenerateMavenPath` of the group segments joined with `.` and of the parsed
artifactId, version, classifier and extension. -/
theorem C5_upload_url (filepathRel : Str → Str → Str × Option Str) (mi : Maven2Importer)
    (filePath url : Str) (h : BuildFullTargetURL filepathRel mi filePath = (url, none)) :
    ∃ relativePath groupSegments artifactFolder pathVersion fileName artifactID version
        classifier extension,
      filepathRel mi.RootPath filePath = (relativePath, none) ∧
      stringsSplit relativePath '/' = groupSegments ++ [artifactFolder, pathVersion, fileName] ∧
      ParseMavenFileName fileName pathVersion =
        (artifactID, version, classifier, extension, none) ∧
      url = mi.BaseURL ++ "/repository/".toList ++ mi.Repository ++ "/".toList ++
        GenerateMavenPath (stringsJoin groupSegments ".".toList) artifactID version classifier
          extension := by
  cases hrel : filepathRel mi.RootPath filePath with
  | mk relativePath err =>
    cases err with
    | some msg =>
      unfold BuildFullTargetURL BuildFullTargetURLWith at h
      rw [hrel] at h
      simp at h
    | none =>
      by_cases hlen : (stringsSplit relativePath '/').length < 3
      · unfold BuildFullTargetURL BuildFullTargetURLWith at h
        rw [hrel] at h
        simp [hlen] at h
      · obtain ⟨gs, x, v, f, hsegs⟩ := last_three (stringsSplit relativePath '/') (by omega)
        unfold BuildFullTargetURL at h
        rw [BuildFullTargetURLWith_segments filepathRel _ _ mi filePath relativePath gs x v f
          hrel hsegs] at h
        cases hparse : ParseMavenFileName f v with
        | mk a rest =>
          obtain ⟨ver, c, e, perr⟩ := rest
          rw [hparse] at h
          cases perr with
          | some msg => simp at h
          | none =>
            simp only [Prod.mk.injEq, and_true] at h
            exact ⟨relativePath, gs, x, v, f, a, ver, c, e, rfl, hsegs, hparse, h.symm⟩

/-- C5, witness: `com/example/artifact/1.0.0/artifact-1.0.0-sources.jar`. -/
theorem C5_upload_url_witness :
    BuildFullTargetURL (fun _ filePath => (filePath, none))
        ⟨"http://nexus:8081".toList, "releases".toList, ".".toList, false⟩
        "com/example/artifact/1.0.0/artifact-1.0.0-sources.jar".toList =
      ("http://nexus:8081/repository/releases/com/example/artifact/1.0.0/artifact-1.0.0-sources.jar".toList,
        none) ∧
    ∃ relativePath groupSegments artifactFolder pathVersion fileName artifactID version
        classifier extension,
      (relativePath, (none : Option Str)) =
        ("com/example/artifact/1.0.0/artifact-1.0.0-sources.jar".toList, none) ∧
      stringsSplit relativePath '/' = groupSegments ++ [artifactFolder, pathVersion, fileName] ∧
      ParseMavenFileName fileName pathVersion =
        (artifactID, version, classifier, extension, none) ∧
      "http://nexus:8081/repository/releases/com/example/artifact/1.0.0/artifact-1.0.0-sources.jar".toList =
        "http://nexus:8081".toList ++ "/repository/".toList ++ "releases".toList ++ "/".toList ++
          GenerateMavenPath (stringsJoin groupSegments ".".toList) artifactID version classifier
            extension := by
  refine ⟨by decide, ?_⟩
  obtain ⟨rp, gs, x, v, f, a, ver, c, e, h1, h2, h3, h4⟩ :=
    C5_upload_url (fun _ filePath => (filePath, none))
      ⟨"http://nexus:8081".toList, "releases".toList, ".".toList, false⟩
      "com/example/artifact/1.0.0/artifact-1.0.0-sources.jar".toList
      "http://nexus:8081/repository/releases/com/example/artifact/1.0.0/artifact-1.0.0-sources.jar".toList
      (by decide)
  exact ⟨rp, gs, x, v, f, a, ver, c, e, h1.symm, h2, h3, h4⟩

/-- C6 (as stated, refuted): the base name of `a⏎b-1.0.jar` (with a line feed
inside the artifactId) has the stated form, and `ParseMavenFileName` fails on
that file name. -/
theorem C6_parse_succeeds_counterexample :
    HasMavenForm (baseName "a\nb-1.0.jar".toList) ∧
      ParseMavenFileName "a\nb-1.0.jar".toList "1.0".toList =
        ([], [], [], [],
          some "failed to parse file name 'a\nb-1.0.jar'. Regex did not match".toList) :=
  ⟨⟨"a\nb".toList, "1.0".toList, [], by decide, by decide, by decide, by decide⟩, by decide⟩

/-- C6 (amended): `ParseMavenFileName` succeeds exactly when the base name is a
non-empty artifactId without line feed, a hyphen and a version token (a digit
followed by word characters, dots and hyphens), optionally followed by a hyphen
and a non-empty classifier token of word characters, dots and hyphens; for every
other file name it returns the error `failed to parse file name ...` together
with four empty strings, as it does for `somefile.txt`. -/
theorem C6_parse_succeeds :
    (∀ fileName versionFromPath : Str,
      (HasOneLineMavenForm (baseName fileName) ∧
        (ParseMavenFileName fileName versionFromPath).2.2.2.2 = none) ∨
      (¬ HasOneLineMavenForm (baseName fileName) ∧
        ParseMavenFileName fileName versionFromPath =
          ([], [], [], [], some ("failed to parse file name '".toList ++ fileName ++
            "'. Regex did not match".toList)))) ∧
    (∀ versionFromPath : Str, ParseMavenFileName "somefile.txt".toList versionFromPath =
      ([], [], [], [],
        some "failed to parse file name 'somefile.txt'. Regex did not match".toList)) := by
  constructor
  · intro fileName versionFromPath
    cases hcut : cutFileName (baseName fileName) with
    | some r =>
      obtain ⟨a, vt, ct⟩ := r
      left
      obtain ⟨hne, hnl, r, hbase, hver⟩ := cutFileName_some _ a vt ct hcut
      obtain ⟨⟨d, w, hvt, hd, hw⟩, hct, hr⟩ := cutVersion_some r vt ct hver
      refine ⟨⟨a, vt, ct, hne, hnl, ?_, hct, ?_⟩, ?_⟩
      · rw [hvt]
        simp only [isVersionToken, Bool.and_eq_true]
        exact ⟨hd, hw⟩
      · rw [hbase, hr]; simp
      · rw [ParseMavenFileName_eq, hcut]
        by_cases hv : vt = versionFromPath
        · simp [hv]
        · simp [hv]
    | none =>
      right
      constructor
      · rintro ⟨a, vt, ct, hne, hnl, hvt, hct, hbase⟩
        cases vt with
        | nil => simp [isVersionToken] at hvt
        | cons d w =>
          simp only [isVersionToken, Bool.and_eq_true] at hvt
          have hall : (w ++ (if ct = [] then [] else '-' :: ct)).all isWordDotHyphen = true := by
            by_cases hce : ct = []
            · simpa [hce] using hvt.2
            · simp only [hce, if_false, List.all_append, List.all_cons, Bool.and_eq_true]
              exact ⟨hvt.2, isWordDotHyphen_hyphen, hct⟩
          obtain ⟨res, hres⟩ := cutFileName_isSome a _ hne hnl
            (cutVersion_isSome d _ hvt.1 hall)
          have hsame : baseName fileName =
              a ++ '-' :: d :: (w ++ (if ct = [] then [] else '-' :: ct)) := by
            rw [hbase]; simp
          rw [hsame, hres] at hcut
          simp at hcut
      · rw [ParseMavenFileName_eq, hcut]
  · intro versionFromPath
    rw [ParseMavenFileName_eq]
    have hcut : cutFileName (baseName "somefile.txt".toList) = none := by decide
    rw [hcut]
    rfl

/-- C7 (as stated, refuted): three file names on which `ParseMavenFileName`
succeeds. For `3d-tools-1.0.jar` the first digit-started token is `3d` with
nothing before it, while the artifactId is `3d-tools` and the version token
`1.0`. For `a-1+b-2.0.jar` the first digit-started token is `1+b` with `a` before
it, while the artifactId is `a-1+b` and the version token `2.0`. For `a-1.0-.jar`
the first digit-started token is `1.0`, while the version token is `1.0-`. -/
theorem C7_artifact_prefix_counterexample :
    (fileNameMatches "3d-tools-1.0.jar".toList =
        some ["3d-tools-1.0".toList, "3d-tools".toList, "1.0".toList, []] ∧
      ParseMavenFileName "3d-tools-1.0.jar".toList "1.0".toList =
        ("3d-tools".toList, "1.0".toList, [], ".jar".toList, none) ∧
      textBeforeToken (baseName "3d-tools-1.0.jar".toList)
        (firstDigitToken (baseName "3d-tools-1.0.jar".toList)) = [] ∧
      (hyphenTokens (baseName "3d-tools-1.0.jar".toList)).getD
        (firstDigitToken (baseName "3d-tools-1.0.jar".toList)) [] = "3d".toList) ∧
    (fileNameMatches "a-1+b-2.0.jar".toList =
        some ["a-1+b-2.0".toList, "a-1+b".toList, "2.0".toList, []] ∧
      textBeforeToken (baseName "a-1+b-2.0.jar".toList)
        (firstDigitToken (baseName "a-1+b-2.0.jar".toList)) = "a".toList ∧
      (hyphenTokens (baseName "a-1+b-2.0.jar".toList)).getD
        (firstDigitToken (baseName "a-1+b-2.0.jar".toList)) [] = "1+b".toList) ∧
    (fileNameMatches "a-1.0-.jar".toList =
        some ["a-1.0-".toList, "a".toList, "1.0-".toList, []] ∧
      (hyphenTokens (baseName "a-1.0-.jar".toList)).getD
        (firstDigitToken (baseName "a-1.0-.jar".toList)) [] = "1.0".toList) :=
  ⟨⟨by decide, by decide, by decide, by decide⟩, ⟨by decide, by decide, by decide⟩,
    ⟨by decide, by decide⟩⟩

/-- C7 (amended): for every file name on which `ParseMavenFileName` succeeds and
whose base name has a non-empty text before its first hyphen-delimited token
that starts with a digit, consists from that token on of word characters, dots
and hyphens only, and does not end with a single hyphen placed right after that
token, the returned artifactId is everything in the base name before that token
and the version token of the file name (group 2 of the match) is that token. -/
theorem C7_artifact_prefix (fileName versionFromPath artifactID version classifier
    extension : Str)
    (h : ParseMavenFileName fileName versionFromPath =
      (artifactID, version, classifier, extension, none))
    (hbefore : textBeforeToken (baseName fileName) (firstDigitToken (baseName fileName)) ≠ [])
    (hword : (textFromToken (baseName fileName)
      (firstDigitToken (baseName fileName))).all isWordDotHyphen = true)
    (htail : (hyphenTokens (baseName fileName)).drop
      (firstDigitToken (baseName fileName) + 1) ≠ [[]]) :
    artifactID = textBeforeToken (baseName fileName) (firstDigitToken (baseName fileName)) ∧
      ∃ trailingToken, fileNameMatches fileName =
        some [baseName fileName, artifactID,
          (hyphenTokens (baseName fileName)).getD (firstDigitToken (baseName fileName)) [],
          trailingToken] := by
  rw [ParseMavenFileName_eq] at h
  cases hcut : cutFileName (baseName fileName) with
  | none => rw [hcut] at h; simp at h
  | some r =>
    obtain ⟨a, vt, ct⟩ := r
    rw [hcut] at h
    obtain ⟨ha, hvt⟩ := cutFileName_tokens (baseName fileName) a vt ct hcut hbefore hword htail
    have hart : a = artifactID := by
      by_cases hv : vt = versionFromPath
      · simp only [hv, if_true, Prod.mk.injEq] at h
        exact h.1
      · simp only [hv, if_false, Prod.mk.injEq] at h
        exact h.1
    refine ⟨by rw [← hart, ha], ct, ?_⟩
    rw [fileNameMatches_eq, hcut, ← hart, ← hvt]
    rfl

/-- C7, witness: `complex-name-2.0.0-SNAPSHOT.zip` under path version `2.0.0`. -/
theorem C7_artifact_prefix_witness :
    ParseMavenFileName "complex-name-2.0.0-SNAPSHOT.zip".toList "2.0.0".toList =
        ("complex-name".toList, "2.0.0".toList, "SNAPSHOT".toList, ".zip".toList, none) ∧
      "complex-name".toList = textBeforeToken (baseName "complex-name-2.0.0-SNAPSHOT.zip".toList)
        (firstDigitToken (baseName "complex-name-2.0.0-SNAPSHOT.zip".toList)) ∧
      ∃ trailingToken, fileNameMatches "complex-name-2.0.0-SNAPSHOT.zip".toList =
        some [baseName "complex-name-2.0.0-SNAPSHOT.zip".toList, "complex-name".toList,
          (hyphenTokens (baseName "complex-name-2.0.0-SNAPSHOT.zip".toList)).getD
            (firstDigitToken (baseName "complex-name-2.0.0-SNAPSHOT.zip".toList)) [],
          trailingToken] :=
  ⟨by decide,
    C7_artifact_prefix "complex-name-2.0.0-SNAPSHOT.zip".toList "2.0.0".toList
      "complex-name".toList "2.0.0".toList "SNAPSHOT".toList ".zip".toList (by decide)
      (by decide) (by decide) (by decide)⟩

/-- C8: `artifact-1.0.1-PRE-RC1-SNAPSHOT.jar` under path version `1.0.1` gives
artifactId `artifact`, version `1.0.1`, classifier `PRE-RC1-SNAPSHOT` and
extension `.jar`, without error. -/
theorem C8_snapshot_example :
    ParseMavenFileName "artifact-1.0.1-PRE-RC1-SNAPSHOT.jar".toList "1.0.1".toList =
      ("artifact".toList, "1.0.1".toList, "PRE-RC1-SNAPSHOT".toList, ".jar".toList, none) := by
  decide

/-- C9: `artifact-1.0.0.jar` under path version `1.0.0` gives artifactId
`artifact`, version `1.0.0`, an empty classifier and extension `.jar`, without
error. -/
theorem C9_plain_example :
    ParseMavenFileName "artifact-1.0.0.jar".toList "1.0.0".toList =
      ("artifact".toList, "1.0.0".toList, [], ".jar".toList, none) := by
  decide

/-- C10: for every relative path with n ≥ 3 segments, the segments are the
first n−3 segments followed by an artifact folder, the segment n−2 and the last
segment, and `BuildFullTargetURL` passes the last segment as file name and the
segment n−2 as path version to the parser, and the first n−3 segments joined
with `.` as groupId to the path generator, whatever these two functions are. -/
theorem C10_path_segments (filepathRel : Str → Str → Str × Option Str) (mi : Maven2Importer)
    (filePath relativePath : Str)
    (hrel : filepathRel mi.RootPath filePath = (relativePath, none))
    (hlen : 3 ≤ (stringsSplit relativePath '/').length) :
    ∃ groupSegments artifactFolder pathVersion fileName,
      stringsSplit relativePath '/' = groupSegments ++ [artifactFolder, pathVersion, fileName] ∧
      groupSegments = (stringsSplit relativePath '/').take
        ((stringsSplit relativePath '/').length - 3) ∧
      pathVersion = (stringsSplit relativePath '/').getD
        ((stringsSplit relativePath '/').length - 2) [] ∧
      fileName = (stringsSplit relativePath '/').getD
        ((stringsSplit relativePath '/').length - 1) [] ∧
      ∀ (parse : Str → Str → Str × Str × Str × Str × Option Str)
        (generate : Str → Str → Str → Str → Str → Str),
        BuildFullTargetURLWith filepathRel parse generate mi filePath =
          match parse fileName pathVersion with
          | (_, _, _, _, some err) =>
            ([], some ("failed to parse Maven file name '".toList ++ fileName ++
              "': ".toList ++ err))
          | (artifactID, parsedVersion, classifier, extension, none) =>
            (mi.BaseURL ++ "/repository/".toList ++ mi.Repository ++ "/".toList ++
              generate (stringsJoin groupSegments ".".toList) artifactID parsedVersion
                classifier extension, none) := by
  obtain ⟨gs, x, v, f, hsegs⟩ := last_three (stringsSplit relativePath '/') hlen
  obtain ⟨_, s2, s3, s4⟩ := segments_shape gs x v f
  refine ⟨gs, x, v, f, hsegs, ?_, ?_, ?_, ?_⟩
  · rw [hsegs, s2]
  · rw [hsegs, s4]
  · rw [hsegs, s3]
  · intro parse generate
    exact BuildFullTargetURLWith_segments filepathRel parse generate mi filePath relativePath
      gs x v f hrel hsegs

/-- C10, witness: `com/example/artifact/1.0.0/artifact-1.0.0.jar`. -/
theorem C10_path_segments_witness :
    3 ≤ (stringsSplit "com/example/artifact/1.0.0/artifact-1.0.0.jar".toList '/').length ∧
    ∃ groupSegments artifactFolder pathVersion fileName,
      stringsSplit "com/example/artifact/1.0.0/artifact-1.0.0.jar".toList '/' =
        groupSegments ++ [artifactFolder, pathVersion, fileName] ∧
      groupSegments = (stringsSplit "com/example/artifact/1.0.0/artifact-1.0.0.jar".toList '/').take
        ((stringsSplit "com/example/artifact/1.0.0/artifact-1.0.0.jar".toList '/').length - 3) ∧
      pathVersion = (stringsSplit "com/example/artifact/1.0.0/artifact-1.0.0.jar".toList '/').getD
        ((stringsSplit "com/example/artifact/1.0.0/artifact-1.0.0.jar".toList '/').length - 2) [] ∧
      fileName = (stringsSplit "com/example/artifact/1.0.0/artifact-1.0.0.jar".toList '/').getD
        ((stringsSplit "com/example/artifact/1.0.0/artifact-1.0.0.jar".toList '/').length - 1) [] ∧
      ∀ (parse : Str → Str → Str × Str × Str × Str × Option Str)
        (generate : Str → Str → Str → Str → Str → Str),
        BuildFullTargetURLWith (fun _ filePath => (filePath, none)) parse generate
            ⟨"http://nexus:8081".toList, "releases".toList, ".".toList, false⟩
            "com/example/artifact/1.0.0/artifact-1.0.0.jar".toList =
          match parse fileName pathVersion with
          | (_, _, _, _, some err) =>
            ([], some ("failed to parse Maven file name '".toList ++ fileName ++
              "': ".toList ++ err))
          | (artifactID, parsedVersion, classifier, extension, none) =>
            ("http://nexus:8081".toList ++ "/repository/".toList ++ "releases".toList ++
              "/".toList ++ generate (stringsJoin groupSegments ".".toList) artifactID
                parsedVersion classifier extension, none) :=
  ⟨by decide,
    C10_path_segments (fun _ filePath => (filePath, none))
      ⟨"http://nexus:8081".toList, "releases".toList, ".".toList, false⟩
      "com/example/artifact/1.0.0/artifact-1.0.0.jar".toList
      "com/example/artifact/1.0.0/artifact-1.0.0.jar".toList rfl (by decide)⟩

/-! ## `filepath.Ext` and the base name -/

theorem extScan_free : ∀ (r more seen : Str), (∀ ch ∈ r, ch ≠ '.' ∧ ch ≠ '/') →
    extScan (r ++ more) seen = extScan more (r.reverse ++ seen) := by
  intro r
  induction r with
  | nil => intro more seen _; rfl
  | cons c t ih =>
    intro more seen h
    have hc := h c (List.mem_cons_self _ _)
    rw [List.cons_append, extScan, if_neg hc.2, if_neg hc.1,
      ih more (c :: seen) (fun ch hch => h ch (List.mem_cons_of_mem _ hch))]
    simp

theorem extScan_stop : ∀ (r more seen : Str), (∃ ch ∈ r, ch = '.' ∨ ch = '/') →
    extScan (r ++ more) seen = extScan r seen := by
  intro r
  induction r with
  | nil => intro more seen h; obtain ⟨ch, hch, _⟩ := h; simp at hch
  | cons c t ih =>
    intro more seen h
    rw [List.cons_append, extScan, extScan]
    by_cases h1 : c = '/'
    · rw [if_pos h1, if_pos h1]
    · rw [if_neg h1, if_neg h1]
      by_cases h2 : c = '.'
      · rw [if_pos h2, if_pos h2]
      · rw [if_neg h2, if_neg h2]
        apply ih
        obtain ⟨ch, hch, hor⟩ := h
        rcases List.mem_cons.mp hch with h3 | h3
        · rw [h3] at hor
          rcases hor with h4 | h4
          · exact absurd h4 h2
          · exact absurd h4 h1
        · exact ⟨ch, h3, hor⟩

theorem lastElement_noSlash : ∀ (s : Str), '/' ∉ s → lastElement s = s := by
  intro s
  induction s with
  | nil => intro _; rfl
  | cons c t _ =>
    intro h
    simp only [List.mem_cons, not_or] at h
    rw [lastElement, if_neg h.2, if_neg (fun hc => h.1 hc.symm)]

theorem lastDotSuffix_noDot : ∀ (s : Str), '.' ∉ s → lastDotSuffix s = [] := by
  intro s
  induction s with
  | nil => intro _; rfl
  | cons c t _ =>
    intro h
    simp only [List.mem_cons, not_or] at h
    rw [lastDotSuffix, if_neg h.2, if_neg (fun hc => h.1 hc.symm)]

/-- `filepath.Ext` returns the suffix that starts at the last dot of the final
path element. -/
theorem filepathExt_eq : ∀ (s : Str), filepathExt s = lastDotSuffix (lastElement s) := by
  intro s
  induction s with
  | nil => rfl
  | cons c t ih =>
    have hrev : filepathExt (c :: t) = extScan (t.reverse ++ [c]) [] := by
      unfold filepathExt
      rw [List.reverse_cons]
    rw [hrev]
    by_cases hs : '/' ∈ t
    · rw [extScan_stop t.reverse [c] [] ⟨'/', by simpa using hs, Or.inr rfl⟩]
      rw [lastElement, if_pos hs]
      exact ih
    · by_cases hd : '.' ∈ t
      · rw [extScan_stop t.reverse [c] [] ⟨'.', by simpa using hd, Or.inl rfl⟩]
        have h1 : extScan t.reverse [] = lastDotSuffix t := by
          have h0 := ih
          rw [lastElement_noSlash t hs] at h0
          exact h0
        rw [h1, lastElement, if_neg hs]
        by_cases hc : c = '/'
        · rw [if_pos hc]
        · rw [if_neg hc, lastDotSuffix, if_pos hd]
      · rw [extScan_free t.reverse [c] [] (by
          intro ch hch
          rw [List.mem_reverse] at hch
          exact ⟨fun h => hd (h ▸ hch), fun h => hs (h ▸ hch)⟩)]
        rw [List.reverse_reverse, List.append_nil, lastElement, if_neg hs]
        by_cases hc : c = '/'
        · rw [if_pos hc, lastDotSuffix_noDot t hd, extScan, if_pos hc]
        · rw [if_neg hc, lastDotSuffix, if_neg hd, extScan, if_neg hc]
          by_cases hc2 : c = '.'
          · rw [if_pos hc2, if_pos hc2]
          · rw [if_neg hc2, if_neg hc2]
            rfl

theorem lastDotSuffix_suffix : ∀ (s : Str), lastDotSuffix s <:+ s := by
  intro s
  induction s with
  | nil => exact List.suffix_refl _
  | cons c t ih =>
    rw [lastDotSuffix]
    by_cases hd : '.' ∈ t
    · rw [if_pos hd]
      exact List.suffix_cons_iff.mpr (Or.inr ih)
    · rw [if_neg hd]
      by_cases hc : c = '.'
      · rw [if_pos hc]
      · rw [if_neg hc]
        exact List.nil_suffix

theorem lastElement_suffix : ∀ (s : Str), lastElement s <:+ s := by
  intro s
  induction s with
  | nil => exact List.suffix_refl _
  | cons c t ih =>
    rw [lastElement]
    by_cases hs : '/' ∈ t
    · rw [if_pos hs]
      exact List.suffix_cons_iff.mpr (Or.inr ih)
    · rw [if_neg hs]
      by_cases hc : c = '/'
      · rw [if_pos hc]
        exact List.suffix_cons _ _
      · rw [if_neg hc]

/-- The file name is its base name followed by its extension. -/
theorem baseName_append_ext (fileName : Str) :
    fileName = baseName fileName ++ filepathExt fileName := by
  have hsuf : filepathExt fileName <:+ fileName := by
    rw [filepathExt_eq]
    exact (lastDotSuffix_suffix _).trans (lastElement_suffix _)
  obtain ⟨x, hx⟩ := hsuf
  have key : stringsTrimSuffix fileName (filepathExt fileName) = x := by
    have h0 := stringsTrimSuffix_append x (filepathExt fileName)
    rw [hx] at h0
    exact h0
  unfold baseName
  rw [key]
  exact hx.symm

/-- The suffix that starts at the last dot is empty when the text has no dot,
and otherwise a dot followed by a text without dot. -/
theorem lastDotSuffix_shape : ∀ (s : Str),
    ('.' ∉ s ∧ lastDotSuffix s = []) ∨
      ('.' ∈ s ∧ ∃ rest, lastDotSuffix s = '.' :: rest ∧ '.' ∉ rest) := by
  intro s
  induction s with
  | nil => exact Or.inl ⟨by simp, rfl⟩
  | cons c t ih =>
    rw [lastDotSuffix]
    by_cases hd : '.' ∈ t
    · rw [if_pos hd]
      rcases ih with ⟨h1, _⟩ | ⟨_, h⟩
      · exact absurd hd h1
      · exact Or.inr ⟨List.mem_cons_of_mem _ hd, h⟩
    · rw [if_neg hd]
      by_cases hc : c = '.'
      · rw [if_pos hc, hc]
        exact Or.inr ⟨List.mem_cons_self _ _, t, rfl, hd⟩
      · rw [if_neg hc]
        refine Or.inl ⟨?_, rfl⟩
        intro hmem
        rcases List.mem_cons.mp hmem with h1 | h1
        · exact hc h1.symm
        · exact hd h1

/-- Every piece of `strings.Split(path, "/")` is free of `/`: the file name that
`BuildFullTargetURL` takes from the split path and gives to `ParseMavenFileName`
holds no path separator. -/
theorem segment_noSlash (path : Str) : ∀ seg ∈ stringsSplit path '/', '/' ∉ seg := by
  intro seg hseg hmem
  exact stringsSplit_sepFree path '/' seg hseg '/' hmem rfl

/-- When `ParseMavenFileName` succeeds, the extension it returns is
`filepath.Ext(fileName)` and the pattern has matched the whole base name. -/
theorem ParseMavenFileName_ext (fileName versionFromPath artifactID version classifier
    extension : Str)
    (h : ParseMavenFileName fileName versionFromPath =
      (artifactID, version, classifier, extension, none)) :
    filepathExt fileName = extension ∧
      ∃ found, fileNameMatches fileName = some found ∧
        found.getD 0 [] = baseName fileName := by
  rw [ParseMavenFileName_eq] at h
  cases hcut : cutFileName (baseName fileName) with
  | none => rw [hcut] at h; simp at h
  | some r =>
    rw [hcut] at h
    have hext : filepathExt fileName = extension := by
      by_cases hv : r.2.1 = versionFromPath
      · simp only [hv, if_true, Prod.mk.injEq] at h
        exact h.2.2.2.1
      · simp only [hv, if_false, Prod.mk.injEq] at h
        exact h.2.2.2.1
    refine ⟨hext, [baseName fileName, r.1, r.2.1, r.2.2], ?_, rfl⟩
    rw [fileNameMatches_eq, hcut]
    rfl

/-- C11: for every file name (a name that holds no path separator `/`, as does
every piece of `strings.Split(_, "/")`, which is what `BuildFullTargetURL`
passes) on which `ParseMavenFileName` succeeds, the returned extension is the
suffix of the file name that starts at its last `.`, the dot included: it is the
empty string when the file name contains no `.`, and otherwise a `.` followed by
a text without `.`; the base name that is matched is the file name with exactly
that suffix removed. -/
theorem C11_extension (fileName versionFromPath artifactID version classifier
    extension : Str)
    (hname : '/' ∉ fileName)
    (h : ParseMavenFileName fileName versionFromPath =
      (artifactID, version, classifier, extension, none)) :
    extension = lastDotSuffix fileName ∧
      ('.' ∉ fileName → extension = []) ∧
      ('.' ∈ fileName → ∃ rest, extension = '.' :: rest ∧ '.' ∉ rest) ∧
      fileName = baseName fileName ++ extension ∧
      ∃ found, fileNameMatches fileName = some found ∧
        found.getD 0 [] = baseName fileName := by
  obtain ⟨hext, hfound⟩ := ParseMavenFileName_ext fileName versionFromPath artifactID version
    classifier extension h
  have hsuf : extension = lastDotSuffix fileName := by
    rw [← hext, filepathExt_eq, lastElement_noSlash _ hname]
  refine ⟨hsuf, ?_, ?_, ?_, hfound⟩
  · intro hd
    rw [hsuf, lastDotSuffix_noDot _ hd]
  · intro hd
    rcases lastDotSuffix_shape fileName with ⟨h1, _⟩ | ⟨_, rest, h1, h2⟩
    · exact absurd hd h1
    · exact ⟨rest, by rw [hsuf, h1], h2⟩
  · rw [← hext]
    exact baseName_append_ext fileName

/-- C11, witness: `artifact-1.0.0-sources.tar.gz` under path version `1.0.0`:
the extension is `.gz` and the base name `artifact-1.0.0-sources.tar`. -/
theorem C11_extension_witness :
    '/' ∉ "artifact-1.0.0-sources.tar.gz".toList ∧
    ParseMavenFileName "artifact-1.0.0-sources.tar.gz".toList "1.0.0".toList =
        ("artifact".toList, "1.0.0".toList, "sources.tar".toList, ".gz".toList, none) ∧
    baseName "artifact-1.0.0-sources.tar.gz".toList = "artifact-1.0.0-sources.tar".toList ∧
    (".gz".toList = lastDotSuffix "artifact-1.0.0-sources.tar.gz".toList ∧
      ('.' ∉ "artifact-1.0.0-sources.tar.gz".toList → ".gz".toList = []) ∧
      ('.' ∈ "artifact-1.0.0-sources.tar.gz".toList →
        ∃ rest, ".gz".toList = '.' :: rest ∧ '.' ∉ rest) ∧
      "artifact-1.0.0-sources.tar.gz".toList =
        baseName "artifact-1.0.0-sources.tar.gz".toList ++ ".gz".toList ∧
      ∃ found, fileNameMatches "artifact-1.0.0-sources.tar.gz".toList = some found ∧
        found.getD 0 [] = baseName "artifact-1.0.0-sources.tar.gz".toList) :=
  ⟨by decide, by decide, by decide,
    C11_extension "artifact-1.0.0-sources.tar.gz".toList "1.0.0".toList "artifact".toList
      "1.0.0".toList "sources.tar".toList ".gz".toList (by decide) (by decide)⟩

/-! ## `Retry` -/

theorem wrapInt64_of_range (x : Int) (h1 : minInt64 ≤ x) (h2 : x ≤ maxInt64) :
    wrapInt64 x = x := by
  simp only [minInt64, maxInt64] at h1 h2
  unfold wrapInt64
  omega

theorem wrapInt64_le (x : Int) : wrapInt64 x ≤ maxInt64 := by
  unfold wrapInt64 maxInt64
  omega

theorem wrapInt64_ge (x : Int) : minInt64 ≤ wrapInt64 x := by
  unfold wrapInt64 minInt64
  omega

theorem retryLoop_exit {σ : Type} (operation : σ → Option Str × σ) (attempts : Int)
    (fuel : Nat) (attempt delay : Int) (lastErr : Option Str) (s : σ)
    (h : ¬ attempt ≤ attempts) :
    retryLoop operation attempts fuel attempt delay lastErr s =
      some ⟨some (retryExhausted attempts lastErr), s, []⟩ := by
  cases fuel with
  | zero => rw [retryLoop, if_neg h]
  | succ f => rw [retryLoop, if_neg h]

theorem retryLoop_succ {σ : Type} (operation : σ → Option Str × σ) (attempts : Int)
    (fuel : Nat) (attempt delay : Int) (lastErr : Option Str) (s : σ)
    (h : attempt ≤ attempts) :
    retryLoop operation attempts (fuel + 1) attempt delay lastErr s =
      match operation s with
      | (none, s1) => some ⟨none, s1, [RetryEvent.call none]⟩
      | (some e, s1) =>
        if attempt < attempts then
          (retryLoop operation attempts fuel (wrapInt64 (attempt + 1)) (wrapInt64 (delay * 2))
            (some e) s1).map
            (fun r => ⟨r.err, r.state,
              RetryEvent.call (some e) :: RetryEvent.sleep delay :: r.events⟩)
        else
          (retryLoop operation attempts fuel (wrapInt64 (attempt + 1)) delay (some e) s1).map
            (fun r => ⟨r.err, r.state, RetryEvent.call (some e) :: r.events⟩) := by
  rw [retryLoop, if_pos h]

theorem retryTotal_succ {σ : Type} (operation : σ → Option Str × σ) (attempts : Int)
    (n : Nat) (delay : Int) (lastErr : Option Str) (s : σ) :
    retryTotal operation attempts (n + 1) delay lastErr s =
      match operation s with
      | (none, s1) => ⟨none, s1, [RetryEvent.call none]⟩
      | (some e, s1) =>
        if n = 0 then
          ⟨some (retryExhausted attempts (some e)), s1, [RetryEvent.call (some e)]⟩
        else
          ⟨(retryTotal operation attempts n (wrapInt64 (delay * 2)) (some e) s1).err,
            (retryTotal operation attempts n (wrapInt64 (delay * 2)) (some e) s1).state,
            RetryEvent.call (some e) :: RetryEvent.sleep delay ::
              (retryTotal operation attempts n (wrapInt64 (delay * 2)) (some e) s1).events⟩ := by
  rw [retryTotal]

/-- With enough fuel the loop returns what `retryTotal` computes, as long as its
counter does not pass `math.MaxInt64`. -/
theorem retryLoop_eq_total {σ : Type} (operation : σ → Option Str × σ) (attempts : Int)
    (hmax : attempts ≤ maxInt64) :
    ∀ (n fuel : Nat) (attempt delay : Int) (lastErr : Option Str) (s : σ),
      minInt64 ≤ attempt → attempt + n = attempts + 1 → n ≤ fuel →
      (attempts < maxInt64 ∨ (retryTotal operation attempts n delay lastErr s).err = none) →
      retryLoop operation attempts fuel attempt delay lastErr s =
        some (retryTotal operation attempts n delay lastErr s) := by
  intro n
  induction n with
  | zero =>
    intro fuel attempt delay lastErr s _ hn _ _
    rw [retryLoop_exit operation attempts fuel attempt delay lastErr s (by omega)]
    rfl
  | succ n ih =>
    intro fuel attempt delay lastErr s hmin hn hfuel hor
    obtain ⟨f, rfl⟩ : ∃ f, fuel = f + 1 := ⟨fuel - 1, by omega⟩
    rw [retryLoop_succ operation attempts f attempt delay lastErr s (by omega), retryTotal_succ]
    rw [retryTotal_succ] at hor
    cases hop : operation s with
    | mk res s1 =>
      rw [hop] at hor
      cases res with
      | none => rfl
      | some e =>
        simp only [] at hor ⊢
        have hwrap : wrapInt64 (attempt + 1) = attempt + 1 := by
          apply wrapInt64_of_range
          · simp only [minInt64] at hmin ⊢; omega
          · by_cases h0 : n = 0
            · rw [if_pos h0] at hor
              rcases hor with h1 | h1
              · simp only [maxInt64] at h1 ⊢; omega
              · simp at h1
            · simp only [maxInt64] at hmax ⊢; omega
        by_cases h0 : n = 0
        · subst h0
          rw [if_pos rfl] at hor
          have hlt : attempts < maxInt64 := by
            rcases hor with h1 | h1
            · exact h1
            · simp at h1
          rw [if_neg (by omega), if_pos rfl, hwrap,
            retryLoop_exit operation attempts f (attempt + 1) delay (some e) s1 (by omega)]
          rfl
        · rw [if_neg h0] at hor
          rw [if_pos (by omega), if_neg h0, hwrap,
            ih f (attempt + 1) (wrapInt64 (delay * 2)) (some e) s1
              (by simp only [minInt64] at hmin ⊢; omega) (by omega) (by omega) hor]
          rfl

/-- Whatever the fuel, a loop that returns returns what `retryTotal` computes, as
long as `attempts` is below `math.MaxInt64`. -/
theorem retryLoop_some_total {σ : Type} (operation : σ → Option Str × σ) (attempts : Int)
    (hmax : attempts < maxInt64) :
    ∀ (fuel n : Nat) (attempt delay : Int) (lastErr : Option Str) (s : σ) (r : RetryResult σ),
      minInt64 ≤ attempt → attempt + n = attempts + 1 →
      retryLoop operation attempts fuel attempt delay lastErr s = some r →
      r = retryTotal operation attempts n delay lastErr s := by
  intro fuel
  induction fuel with
  | zero =>
    intro n attempt delay lastErr s r hmin hn hrun
    by_cases hle : attempt ≤ attempts
    · rw [retryLoop, if_pos hle] at hrun
      simp at hrun
    · have h0 : n = 0 := by omega
      subst h0
      rw [retryLoop_exit operation attempts 0 attempt delay lastErr s hle] at hrun
      simp only [Option.some.injEq] at hrun
      rw [← hrun]
      rfl
  | succ f ih =>
    intro n attempt delay lastErr s r hmin hn hrun
    by_cases hle : attempt ≤ attempts
    · obtain ⟨m, rfl⟩ : ∃ m, n = m + 1 := ⟨n - 1, by omega⟩
      rw [retryLoop_succ operation attempts f attempt delay lastErr s hle] at hrun
      rw [retryTotal_succ]
      cases hop : operation s with
      | mk res s1 =>
        rw [hop] at hrun
        cases res with
        | none =>
          simp only [Option.some.injEq] at hrun
          rw [← hrun]
        | some e =>
          simp only [] at hrun ⊢
          have hwrap : wrapInt64 (attempt + 1) = attempt + 1 := by
            apply wrapInt64_of_range
            · simp only [minInt64] at hmin ⊢; omega
            · simp only [maxInt64] at hmax ⊢; omega
          by_cases h0 : m = 0
          · subst h0
            rw [if_neg (by omega), hwrap,
              retryLoop_exit operation attempts f (attempt + 1) delay (some e) s1 (by omega)]
              at hrun
            simp only [Option.map_some', Option.some.injEq] at hrun
            rw [if_pos rfl, ← hrun]
          · rw [if_pos (by omega), hwrap] at hrun
            cases hsub : retryLoop operation attempts f (attempt + 1) (wrapInt64 (delay * 2))
                (some e) s1 with
            | none => rw [hsub] at hrun; simp at hrun
            | some r1 =>
              rw [hsub] at hrun
              simp only [Option.map_some', Option.some.injEq] at hrun
              have h1 := ih m (attempt + 1) (wrapInt64 (delay * 2)) (some e) s1 r1
                (by simp only [minInt64] at hmin ⊢; omega) (by omega) hsub
              rw [if_neg h0, ← h1, ← hrun]
    · have h0 : n = 0 := by omega
      subst h0
      rw [retryLoop_exit operation attempts (f + 1) attempt delay lastErr s hle] at hrun
      simp only [Option.some.injEq] at hrun
      rw [← hrun]
      rfl


theorem stateAfter_succ {σ : Type} (operation : σ → Option Str × σ) (s : σ) (k : Nat) :
    stateAfter operation s (k + 1) = stateAfter operation (operation s).2 k := rfl

theorem firstResults_succ {σ : Type} (operation : σ → Option Str × σ) (s : σ) (k : Nat) :
    firstResults operation s (k + 1) =
      (operation s).1 :: firstResults operation (operation s).2 k := rfl

theorem resultOf_zero {σ : Type} (operation : σ → Option Str × σ) (s : σ) :
    resultOf operation s 0 = (operation s).1 := rfl

theorem resultOf_succ {σ : Type} (operation : σ → Option Str × σ) (s : σ) (k : Nat) :
    resultOf operation s (k + 1) = resultOf operation (operation s).2 k := rfl

theorem firstResults_length {σ : Type} (operation : σ → Option Str × σ) :
    ∀ (k : Nat) (s : σ), (firstResults operation s k).length = k := by
  intro k
  induction k with
  | zero => intro s; rfl
  | succ k ih => intro s; rw [firstResults_succ, List.length_cons, ih]

theorem mem_firstResults {σ : Type} (operation : σ → Option Str × σ) :
    ∀ (k : Nat) (s : σ) (r : Option Str), r ∈ firstResults operation s k →
      ∃ i, i < k ∧ resultOf operation s i = r := by
  intro k
  induction k with
  | zero => intro s r h; simp [firstResults] at h
  | succ k ih =>
    intro s r h
    rw [firstResults_succ] at h
    rcases List.mem_cons.mp h with h1 | h1
    · exact ⟨0, by omega, by rw [resultOf_zero, h1]⟩
    · obtain ⟨i, hi, hr⟩ := ih _ r h1
      exact ⟨i + 1, by omega, by rw [resultOf_succ, hr]⟩

theorem callCount_call (r : Option Str) (rest : List RetryEvent) :
    callCount (RetryEvent.call r :: rest) = callCount rest + 1 := rfl

theorem callCount_sleep (d : Int) (rest : List RetryEvent) :
    callCount (RetryEvent.sleep d :: rest) = callCount rest := rfl

theorem sleepsOf_call (r : Option Str) (rest : List RetryEvent) :
    sleepsOf (RetryEvent.call r :: rest) = sleepsOf rest := rfl

theorem sleepsOf_sleep (d : Int) (rest : List RetryEvent) :
    sleepsOf (RetryEvent.sleep d :: rest) = d :: sleepsOf rest := rfl

theorem callCount_backoff (x : Option Str) :
    ∀ (results : List (Option Str)) (delay : Int),
      callCount (backoffEvents delay results ++ [RetryEvent.call x]) = results.length + 1 := by
  intro results
  induction results with
  | nil => intro delay; rfl
  | cons r rest ih =>
    intro delay
    rw [backoffEvents, List.cons_append, List.cons_append, callCount_call, callCount_sleep, ih,
      List.length_cons]

theorem sleepsOf_backoff (x : Option Str) :
    ∀ (results : List (Option Str)) (delay : Int),
      sleepsOf (backoffEvents delay results ++ [RetryEvent.call x]) =
        sleepsOf (backoffEvents delay results) := by
  intro results
  induction results with
  | nil => intro delay; rfl
  | cons r rest ih =>
    intro delay
    rw [backoffEvents, List.cons_append, List.cons_append, sleepsOf_call, sleepsOf_sleep, ih,
      sleepsOf_call, sleepsOf_sleep]

theorem sleepsOf_backoff_length :
    ∀ (results : List (Option Str)) (delay : Int),
      (sleepsOf (backoffEvents delay results)).length = results.length := by
  intro results
  induction results with
  | nil => intro delay; rfl
  | cons r rest ih =>
    intro delay
    rw [backoffEvents, sleepsOf_call, sleepsOf_sleep, List.length_cons, List.length_cons, ih]

theorem wrapInt64_modEq (x : Int) : wrapInt64 x ≡ x [ZMOD 18446744073709551616] := by
  unfold wrapInt64 Int.ModEq
  omega

theorem wrapInt64_congr (x y : Int) (h : x ≡ y [ZMOD 18446744073709551616]) :
    wrapInt64 x = wrapInt64 y := by
  unfold Int.ModEq at h
  unfold wrapInt64
  omega

/-- The sleep number `j + 1` of a backoff lasts `delay * 2 ^ j`, in 64-bit
arithmetic. -/
theorem sleepsOf_backoff_get :
    ∀ (results : List (Option Str)) (delay : Int) (j : Nat), j < results.length →
      (sleepsOf (backoffEvents (wrapInt64 delay) results)).get? j =
        some (wrapInt64 (delay * 2 ^ j)) := by
  intro results
  induction results with
  | nil => intro delay j hj; simp at hj
  | cons r rest ih =>
    intro delay j hj
    cases j with
    | zero => simp [backoffEvents, sleepsOf_call, sleepsOf_sleep]
    | succ j =>
      have hstep : wrapInt64 (wrapInt64 delay * 2) = wrapInt64 (delay * 2) :=
        wrapInt64_congr _ _ ((wrapInt64_modEq delay).mul_right 2)
      simp only [backoffEvents, sleepsOf_call, sleepsOf_sleep, List.get?_cons_succ, hstep]
      rw [ih (delay * 2) j (by simpa using hj)]
      congr 1
      ring_nf

/-- The run of the loop when the operation first succeeds at its invocation
number `k + 1`, within the permitted attempts. -/
theorem retryLoop_success {σ : Type} (operation : σ → Option Str × σ) (attempts : Int)
    (hmax : attempts ≤ maxInt64) :
    ∀ (k fuel : Nat) (attempt delay : Int) (lastErr : Option Str) (s : σ),
      minInt64 ≤ attempt → attempt + k ≤ attempts → k + 1 ≤ fuel →
      (∀ i, i < k → resultOf operation s i ≠ none) → resultOf operation s k = none →
      retryLoop operation attempts fuel attempt delay lastErr s =
        some ⟨none, stateAfter operation s (k + 1),
          backoffEvents delay (firstResults operation s k) ++ [RetryEvent.call none]⟩ := by
  intro k
  induction k with
  | zero =>
    intro fuel attempt delay lastErr s hmin hle hfuel _ hsucc
    obtain ⟨f, rfl⟩ : ∃ f, fuel = f + 1 := ⟨fuel - 1, by omega⟩
    rw [retryLoop_succ operation attempts f attempt delay lastErr s (by omega)]
    rw [resultOf_zero] at hsucc
    cases hop : operation s with
    | mk res s1 =>
      rw [hop] at hsucc
      simp only [] at hsucc
      subst hsucc
      simp [stateAfter, firstResults, backoffEvents, hop]
  | succ k ih =>
    intro fuel attempt delay lastErr s hmin hle hfuel hfail hsucc
    obtain ⟨f, rfl⟩ : ∃ f, fuel = f + 1 := ⟨fuel - 1, by omega⟩
    rw [retryLoop_succ operation attempts f attempt delay lastErr s (by omega)]
    have h0 := hfail 0 (by omega)
    rw [resultOf_zero] at h0
    have hwrap : wrapInt64 (attempt + 1) = attempt + 1 := by
      apply wrapInt64_of_range
      · simp only [minInt64] at hmin ⊢; omega
      · simp only [maxInt64] at hmax ⊢; omega
    cases hop : operation s with
    | mk res s1 =>
      rw [hop] at h0
      cases res with
      | none => exact absurd rfl h0
      | some e =>
        have hs1 : (operation s).2 = s1 := by rw [hop]
        have hr1 : (operation s).1 = some e := by rw [hop]
        simp only []
        rw [if_pos (by omega), hwrap,
          ih f (attempt + 1) (wrapInt64 (delay * 2)) (some e) s1
            (by simp only [minInt64] at hmin ⊢; omega) (by omega) (by omega)
            (fun i hi => by
              have h1 := hfail (i + 1) (by omega)
              rw [resultOf_succ, hs1] at h1
              exact h1)
            (by rw [resultOf_succ, hs1] at hsucc; exact hsucc)]
        simp only [Option.map_some', stateAfter_succ, firstResults_succ, hs1, hr1,
          backoffEvents, List.cons_append]

/-- What `retryTotal` computes when every permitted attempt fails. -/
theorem retryTotal_all_fail {σ : Type} (operation : σ → Option Str × σ) (attempts : Int) :
    ∀ (n : Nat) (delay : Int) (lastErr : Option Str) (s : σ),
      (∀ i, i < n + 1 → resultOf operation s i ≠ none) →
      retryTotal operation attempts (n + 1) delay lastErr s =
        ⟨some (retryExhausted attempts (resultOf operation s n)),
          stateAfter operation s (n + 1),
          backoffEvents delay (firstResults operation s n) ++
            [RetryEvent.call (resultOf operation s n)]⟩ := by
  intro n
  induction n with
  | zero =>
    intro delay lastErr s hfail
    have h0 := hfail 0 (by omega)
    rw [resultOf_zero] at h0
    rw [retryTotal_succ, resultOf_zero]
    cases hop : operation s with
    | mk res s1 =>
      rw [hop] at h0
      cases res with
      | none => exact absurd rfl h0
      | some e => simp [stateAfter, firstResults, backoffEvents, hop]
  | succ n ih =>
    intro delay lastErr s hfail
    have h0 := hfail 0 (by omega)
    rw [resultOf_zero] at h0
    rw [retryTotal_succ]
    cases hop : operation s with
    | mk res s1 =>
      rw [hop] at h0
      cases res with
      | none => exact absurd rfl h0
      | some e =>
        have hs1 : (operation s).2 = s1 := by rw [hop]
        have hr1 : (operation s).1 = some e := by rw [hop]
        simp only []
        rw [if_neg (by omega), ih (wrapInt64 (delay * 2)) (some e) s1 (fun i hi => by
          have h1 := hfail (i + 1) (by omega)
          rw [resultOf_succ, hs1] at h1
          exact h1)]
        simp only [stateAfter_succ, firstResults_succ, resultOf_succ, hs1, hr1,
          backoffEvents, List.cons_append]

/-- The shape of every run of `retryTotal` with at least one attempt left: some
failed attempts, each followed by a sleep, then a last attempt that either
succeeds or is the last permitted one. -/
theorem retryTotal_shape {σ : Type} (operation : σ → Option Str × σ) (attempts : Int) :
    ∀ (n : Nat) (delay : Int) (lastErr : Option Str) (s : σ),
      ∃ m, m < n + 1 ∧
        (∀ r ∈ firstResults operation s m, r ≠ none) ∧
        (retryTotal operation attempts (n + 1) delay lastErr s).events =
          backoffEvents delay (firstResults operation s m) ++
            [RetryEvent.call (resultOf operation s m)] ∧
        (retryTotal operation attempts (n + 1) delay lastErr s).state =
          stateAfter operation s (m + 1) ∧
        ((resultOf operation s m = none ∧
            (retryTotal operation attempts (n + 1) delay lastErr s).err = none) ∨
          (resultOf operation s m ≠ none ∧ m = n ∧
            (retryTotal operation attempts (n + 1) delay lastErr s).err =
              some (retryExhausted attempts (resultOf operation s m)))) := by
  intro n
  induction n with
  | zero =>
    intro delay lastErr s
    refine ⟨0, by omega, by simp [firstResults], ?_, ?_, ?_⟩
    all_goals simp only [retryTotal_succ, resultOf_zero]
    all_goals cases hop : operation s with
      | mk res s1 => cases res <;> simp [stateAfter, firstResults, backoffEvents, hop]
  | succ n ih =>
    intro delay lastErr s
    cases hop : operation s with
    | mk res s1 =>
      have hs1 : (operation s).2 = s1 := by rw [hop]
      have hr1 : (operation s).1 = res := by rw [hop]
      cases res with
      | none =>
        refine ⟨0, by omega, by simp [firstResults], ?_, ?_, ?_⟩
        all_goals simp only [retryTotal_succ, resultOf_zero, hop]
        all_goals simp [stateAfter, firstResults, backoffEvents, hop]
      | some e =>
        obtain ⟨m, hm, hall, hev, hst, hlast⟩ := ih (wrapInt64 (delay * 2)) (some e) s1
        refine ⟨m + 1, by omega, ?_, ?_, ?_, ?_⟩
        · intro r hr
          rw [firstResults_succ, hs1, hr1] at hr
          rcases List.mem_cons.mp hr with h1 | h1
          · rw [h1]; simp
          · exact hall r h1
        · rw [retryTotal_succ, hop]
          simp only []
          rw [if_neg (by omega), hev, firstResults_succ, resultOf_succ, hs1, hr1]
          rfl
        · rw [retryTotal_succ, hop]
          simp only []
          rw [if_neg (by omega), hst, stateAfter_succ operation s (m + 1), hs1]
        · rw [retryTotal_succ, hop]
          simp only []
          rw [if_neg (by omega), resultOf_succ, hs1]
          rcases hlast with ⟨h1, h2⟩ | ⟨h1, h2, h3⟩
          · exact Or.inl ⟨h1, h2⟩
          · exact Or.inr ⟨h1, by omega, h3⟩


/-- `Retry` when every one of the `n` permitted attempts fails, for `n` below
`math.MaxInt64`. -/
theorem Retry_all_fail {σ : Type} (operation : σ → Option Str × σ) (n fuel : Nat)
    (delay : Int) (s : σ) (hmax : (n : Int) + 1 < maxInt64) (hfuel : n + 1 ≤ fuel)
    (hfail : ∀ i, i < n + 1 → resultOf operation s i ≠ none) :
    Retry fuel ((n : Int) + 1) delay operation s =
      some ⟨some (retryExhausted ((n : Int) + 1) (resultOf operation s n)),
        stateAfter operation s (n + 1),
        backoffEvents delay (firstResults operation s n) ++
          [RetryEvent.call (resultOf operation s n)]⟩ := by
  unfold Retry
  rw [if_neg (by omega),
    retryLoop_eq_total operation ((n : Int) + 1) (by omega) (n + 1) fuel 1 delay none s
      (by simp only [minInt64]; omega) (by push_cast; omega) hfuel (Or.inl hmax),
    retryTotal_all_fail operation ((n : Int) + 1) n delay none s hfail]

/-- A run of `Retry` with `attempts` below `math.MaxInt64` that returns, returns
what `retryTotal` computes with `attempts` attempts left. -/
theorem Retry_some_total {σ : Type} (operation : σ → Option Str × σ) (n fuel : Nat)
    (delay : Int) (s : σ) (r : RetryResult σ) (hmax : (n : Int) + 1 < maxInt64)
    (hrun : Retry fuel ((n : Int) + 1) delay operation s = some r) :
    r = retryTotal operation ((n : Int) + 1) (n + 1) delay none s := by
  unfold Retry at hrun
  rw [if_neg (by omega)] at hrun
  exact retryLoop_some_total operation ((n : Int) + 1) hmax fuel (n + 1) 1 delay none s r
    (by simp only [minInt64]; omega) (by push_cast; omega) hrun

/-- With `attempts = math.MaxInt64` and an operation that always fails, the loop
never leaves: its counter wraps around to `math.MinInt64`. -/
theorem retryLoop_maxInt_none {σ : Type} (operation : σ → Option Str × σ)
    (hfail : ∀ s, (operation s).1 ≠ none) :
    ∀ (fuel : Nat) (attempt delay : Int) (lastErr : Option Str) (s : σ),
      attempt ≤ maxInt64 →
      retryLoop operation maxInt64 fuel attempt delay lastErr s = none := by
  intro fuel
  induction fuel with
  | zero =>
    intro attempt delay lastErr s h
    rw [retryLoop, if_pos h]
  | succ f ih =>
    intro attempt delay lastErr s h
    rw [retryLoop_succ operation maxInt64 f attempt delay lastErr s h]
    have h0 := hfail s
    cases hop : operation s with
    | mk res s1 =>
      rw [hop] at h0
      cases res with
      | none => exact absurd rfl h0
      | some e =>
        simp only []
        rw [ih _ _ _ _ (wrapInt64_le _), ih _ _ _ _ (wrapInt64_le _)]
        simp

/-- C12: for every `attempts ≤ 0`, every delay and every operation, `Retry`
returns the error `Attempts must be greater than 0` with the world unchanged and
no event: the operation is not invoked and `time.Sleep` is not called. -/
theorem C12_retry_no_attempts {σ : Type} (fuel : Nat) (attempts delay : Int)
    (operation : σ → Option Str × σ) (s : σ) (h : attempts ≤ 0) :
    Retry fuel attempts delay operation s =
      some ⟨some "Attempts must be greater than 0".toList, s, []⟩ := by
  unfold Retry
  rw [if_pos h]

/-- C12, witness: `Retry(-1, 1s, op)`. -/
theorem C12_retry_no_attempts_witness :
    (-1 : Int) ≤ 0 ∧
      Retry 5 (-1) 1000000000 (fun n : Nat => ((none : Option Str), n + 1)) 7 =
        some ⟨some "Attempts must be greater than 0".toList, 7, []⟩ :=
  ⟨by decide, C12_retry_no_attempts 5 (-1) 1000000000 _ 7 (by decide)⟩

/-- C13: for every `attempts ≥ 1` and every operation whose first successful
invocation is the `k`-th with `k ≤ attempts`, `Retry` returns `nil` after
exactly `k` invocations, the last of which is the success: the world is in the
state reached after `k` invocations, each failed attempt is followed by a sleep
and nothing follows the success; the number of invocations is at most
`attempts`. -/
theorem C13_retry_first_success {σ : Type} (fuel k : Nat) (attempts delay : Int)
    (operation : σ → Option Str × σ) (s : σ)
    (hmax : attempts ≤ maxInt64) (hk1 : 1 ≤ k) (hk : (k : Int) ≤ attempts)
    (hfail : ∀ i, i + 1 < k → resultOf operation s i ≠ none)
    (hsucc : resultOf operation s (k - 1) = none) (hfuel : k ≤ fuel) :
    ∃ r, Retry fuel attempts delay operation s = some r ∧
      r.err = none ∧
      r.state = stateAfter operation s k ∧
      r.events = backoffEvents delay (firstResults operation s (k - 1)) ++
        [RetryEvent.call none] ∧
      callCount r.events = k ∧
      (callCount r.events : Int) ≤ attempts := by
  obtain ⟨k0, rfl⟩ : ∃ k0, k = k0 + 1 := ⟨k - 1, by omega⟩
  simp only [Nat.add_sub_cancel] at hsucc ⊢
  have hrun := retryLoop_success operation attempts hmax k0 fuel 1 delay none s
    (by simp only [minInt64]; omega) (by omega) hfuel (fun i hi => hfail i (by omega)) hsucc
  refine ⟨⟨none, stateAfter operation s (k0 + 1),
    backoffEvents delay (firstResults operation s k0) ++ [RetryEvent.call none]⟩,
    ?_, rfl, rfl, rfl, ?_, ?_⟩
  · unfold Retry
    rw [if_neg (by omega)]
    exact hrun
  · simp only [callCount_backoff, firstResults_length]
  · simp only [callCount_backoff, firstResults_length]
    exact hk

/-- C13, witness: `Retry(3, 2s, op)` where `op` fails twice and then succeeds. -/
theorem C13_retry_first_success_witness :
    ∃ r, Retry 3 3 2000000000
        (fun n : Nat => (if n < 2 then some "down".toList else none, n + 1)) 0 = some r ∧
      r.err = none ∧
      r.state = stateAfter
        (fun n : Nat => (if n < 2 then some "down".toList else none, n + 1)) 0 3 ∧
      r.events = backoffEvents 2000000000 (firstResults
        (fun n : Nat => (if n < 2 then some "down".toList else none, n + 1)) 0 (3 - 1)) ++
        [RetryEvent.call none] ∧
      callCount r.events = 3 ∧
      (callCount r.events : Int) ≤ 3 :=
  C13_retry_first_success 3 3 3 2000000000
    (fun n : Nat => (if n < 2 then some "down".toList else none, n + 1)) 0
    (by decide) (by decide) (by decide)
    (fun i hi => by
      have h : i = 0 ∨ i = 1 := by omega
      rcases h with h | h <;> subst h <;> decide)
    (by decide) (by decide)


set_option maxRecDepth 100000 in
/-- C14 (as stated, refuted): `Retry(35, 2s, op)` with `op` always failing
returns after 34 sleeps; the sleep that follows the 34th failed attempt is
called with -1266874889709551616 ns, not with 2s·2^33 = 17179869184000000000 ns,
which is above the largest `time.Duration`. -/
theorem C14_backoff_schedule_counterexample :
    (Retry 35 35 2000000000 (fun n : Nat => (some "down".toList, n + 1)) 0).map
        (fun r => (r.err.isSome, callCount r.events, (sleepsOf r.events).length,
          (sleepsOf r.events).get? 33)) =
      some (true, 35, 34, some (-1266874889709551616)) ∧
    (2000000000 : Int) * 2 ^ 33 = 17179869184000000000 ∧
    maxInt64 < 17179869184000000000 :=
  ⟨by decide, by decide, by decide⟩

/-- `Retry(3, 2s, op)` when `op` fails twice and then succeeds. -/
theorem Retry_three_attempts {σ : Type} (operation : σ → Option Str × σ) (s : σ)
    (e1 e2 : Str) (fuel : Nat) (hfuel : 3 ≤ fuel)
    (h0 : resultOf operation s 0 = some e1) (h1 : resultOf operation s 1 = some e2)
    (h2 : resultOf operation s 2 = none) :
    Retry fuel 3 2000000000 operation s =
      some ⟨none, stateAfter operation s 3,
        [RetryEvent.call (some e1), RetryEvent.sleep 2000000000, RetryEvent.call (some e2),
          RetryEvent.sleep 4000000000, RetryEvent.call none]⟩ := by
  have hrun := retryLoop_success operation 3 (by decide) 2 fuel 1 2000000000 none s
    (by decide) (by decide) hfuel
    (fun i hi => by
      have h : i = 0 ∨ i = 1 := by omega
      rcases h with h | h <;> subst h
      · rw [h0]; simp
      · rw [h1]; simp)
    h2
  have hres : firstResults operation s 2 = [some e1, some e2] := by
    rw [firstResults_succ, firstResults_succ]
    rw [resultOf_zero] at h0
    rw [resultOf_succ, resultOf_zero] at h1
    rw [h0, h1]
    rfl
  have hw : wrapInt64 (2000000000 * 2) = 4000000000 := by decide
  unfold Retry
  rw [if_neg (by decide), hrun, hres]
  simp only [backoffEvents, hw, List.cons_append, List.nil_append]

/-- C14 (amended): for every `attempts` with `1 ≤ attempts < math.MaxInt64`
and every initial delay `d`, a run of `Retry` that returns consists of `m`
failed attempts, each followed by a sleep, and of one last attempt followed by
nothing, with `m + 1 ≤ attempts`; the last attempt either succeeds or is the
attempt number `attempts`, so that no sleep follows a success or the last
permitted attempt; the sleep that follows the failed attempt number `j + 1`
is called with `d·2^j` computed in 64-bit arithmetic, which is `d·2^j` as long as
that is a `time.Duration`. In particular `Retry(3, 2s, op)` with `op` failing
twice and then succeeding returns `nil` having slept exactly twice, 2s then 4s. -/
theorem C14_backoff_schedule {σ : Type} (fuel : Nat) (attempts d : Int)
    (operation : σ → Option Str × σ) (s : σ) (r : RetryResult σ)
    (h1 : 1 ≤ attempts) (hmax : attempts < maxInt64)
    (hd : minInt64 ≤ d ∧ d ≤ maxInt64)
    (hrun : Retry fuel attempts d operation s = some r) :
    (∃ m : Nat, (m : Int) + 1 ≤ attempts ∧
      r.events = backoffEvents d (firstResults operation s m) ++
        [RetryEvent.call (resultOf operation s m)] ∧
      (∀ res ∈ firstResults operation s m, res ≠ none) ∧
      (resultOf operation s m ≠ none → (m : Int) + 1 = attempts) ∧
      (sleepsOf r.events).length = m ∧
      (∀ j, j < m → (sleepsOf r.events).get? j = some (wrapInt64 (d * 2 ^ j))) ∧
      (∀ j, j < m → minInt64 ≤ d * 2 ^ j → d * 2 ^ j ≤ maxInt64 →
        (sleepsOf r.events).get? j = some (d * 2 ^ j))) ∧
    (∀ (op : σ → Option Str × σ) (s0 : σ) (e1 e2 : Str) (fuel0 : Nat), 3 ≤ fuel0 →
      resultOf op s0 0 = some e1 → resultOf op s0 1 = some e2 → resultOf op s0 2 = none →
      ∃ r0, Retry fuel0 3 2000000000 op s0 = some r0 ∧ r0.err = none ∧
        sleepsOf r0.events = [2000000000, 4000000000]) := by
  constructor
  · obtain ⟨n, rfl⟩ : ∃ n : Nat, attempts = (n : Int) + 1 :=
      ⟨(attempts - 1).toNat, by omega⟩
    have hr := Retry_some_total operation n fuel d s r hmax hrun
    obtain ⟨m, hm, hall, hev, _, hlast⟩ := retryTotal_shape operation ((n : Int) + 1) n d none s
    rw [← hr] at hev hlast
    have hsl : sleepsOf r.events = sleepsOf (backoffEvents d (firstResults operation s m)) := by
      rw [hev, sleepsOf_backoff]
    have hget : ∀ j, j < m → (sleepsOf r.events).get? j = some (wrapInt64 (d * 2 ^ j)) := by
      intro j hj
      have h := sleepsOf_backoff_get (firstResults operation s m) d j
        (by rw [firstResults_length]; exact hj)
      rw [wrapInt64_of_range d hd.1 hd.2] at h
      rw [hsl, h]
    refine ⟨m, by omega, hev, hall, ?_, ?_, hget, ?_⟩
    · intro hne
      rcases hlast with ⟨h2, _⟩ | ⟨_, h2, _⟩
      · exact absurd h2 hne
      · omega
    · rw [hsl, sleepsOf_backoff_length, firstResults_length]
    · intro j hj hlo hhi
      rw [hget j hj, wrapInt64_of_range _ hlo hhi]
  · intro op s0 e1 e2 fuel0 hfuel h0 h1' h2
    refine ⟨_, Retry_three_attempts op s0 e1 e2 fuel0 hfuel h0 h1' h2, rfl, ?_⟩
    rfl

/-- C14, witness: `Retry(3, 2s, op)` where `op` fails twice and then succeeds. -/
theorem C14_backoff_schedule_witness :
    Retry 3 3 2000000000
        (fun n : Nat => (if n < 2 then some "down".toList else none, n + 1)) 0 =
      some ⟨none, 3, [RetryEvent.call (some "down".toList), RetryEvent.sleep 2000000000,
        RetryEvent.call (some "down".toList), RetryEvent.sleep 4000000000,
        RetryEvent.call none]⟩ ∧
    ∃ m : Nat, (m : Int) + 1 ≤ 3 ∧
      (sleepsOf [RetryEvent.call (some "down".toList), RetryEvent.sleep 2000000000,
        RetryEvent.call (some "down".toList), RetryEvent.sleep 4000000000,
        RetryEvent.call none]).length = m :=
  ⟨by decide,
    by
      obtain ⟨⟨m, hm, _, _, _, hlen, _, _⟩, _⟩ := C14_backoff_schedule 3 3 2000000000
        (fun n : Nat => (if n < 2 then some "down".toList else none, n + 1)) 0
        ⟨none, 3, [RetryEvent.call (some "down".toList), RetryEvent.sleep 2000000000,
          RetryEvent.call (some "down".toList), RetryEvent.sleep 4000000000,
          RetryEvent.call none]⟩
        (by decide) (by decide) ⟨by decide, by decide⟩ (by decide)
      exact ⟨m, hm, hlen⟩⟩


/-- C15 (the code at the failing input): `Retry(math.MaxInt64, delay, op)` with
an operation that fails on each invocation has not returned after any number
of iterations of its loop: after the attempt number `math.MaxInt64` the counter
wraps around to `math.MinInt64` and the test `attempt <= attempts` holds again. -/
theorem C15_retry_max_attempts_never_returns (fuel : Nat) (delay : Int) :
    Retry fuel maxInt64 delay (fun s : Unit => (some "down".toList, s)) () = none := by
  unfold Retry
  rw [if_neg (by decide)]
  exact retryLoop_maxInt_none _ (fun s => by simp) fuel 1 delay none () (by decide)


/-! ## One upload attempt and its retries -/

theorem retryLoop_first_event {σ : Type} (operation : σ → Option Str × σ) (attempts : Int)
    (fuel : Nat) (attempt delay : Int) (lastErr : Option Str) (s : σ) (r : RetryResult σ)
    (hle : attempt ≤ attempts)
    (hrun : retryLoop operation attempts fuel attempt delay lastErr s = some r) :
    ∃ res rest, r.events = RetryEvent.call res :: rest := by
  cases fuel with
  | zero => rw [retryLoop, if_pos hle] at hrun; simp at hrun
  | succ f =>
    rw [retryLoop_succ operation attempts f attempt delay lastErr s hle] at hrun
    cases hop : operation s with
    | mk res s1 =>
      rw [hop] at hrun
      cases res with
      | none =>
        simp only [Option.some.injEq] at hrun
        exact ⟨none, [], by rw [← hrun]⟩
      | some e =>
        simp only [] at hrun
        by_cases hlt : attempt < attempts
        · rw [if_pos hlt] at hrun
          cases hsub : retryLoop operation attempts f (wrapInt64 (attempt + 1))
              (wrapInt64 (delay * 2)) (some e) s1 with
          | none => rw [hsub] at hrun; simp at hrun
          | some r1 =>
            rw [hsub] at hrun
            simp only [Option.map_some', Option.some.injEq] at hrun
            exact ⟨some e, _, by rw [← hrun]⟩
        · rw [if_neg hlt] at hrun
          cases hsub : retryLoop operation attempts f (wrapInt64 (attempt + 1)) delay
              (some e) s1 with
          | none => rw [hsub] at hrun; simp at hrun
          | some r1 =>
            rw [hsub] at hrun
            simp only [Option.map_some', Option.some.injEq] at hrun
            exact ⟨some e, _, by rw [← hrun]⟩

/-- After a failed first attempt with at least two attempts permitted, `Retry`
sleeps and invokes the operation again. -/
theorem Retry_retries {σ : Type} (operation : σ → Option Str × σ) (attempts delay : Int)
    (s : σ) (e : Str) (h2 : 2 ≤ attempts) (hfail : (operation s).1 = some e) :
    Retry 1 attempts delay operation s = none ∧
      ∀ fuel r, Retry fuel attempts delay operation s = some r →
        ∃ res rest, r.events =
          RetryEvent.call (some e) :: RetryEvent.sleep delay :: RetryEvent.call res :: rest := by
  have hw : wrapInt64 (1 + 1) = 2 := by decide
  constructor
  · unfold Retry
    rw [if_neg (by omega), retryLoop_succ operation attempts 0 1 delay none s (by omega)]
    cases hop : operation s with
    | mk res s1 =>
      rw [hop] at hfail
      simp only [] at hfail
      subst hfail
      simp only []
      rw [if_pos (by omega), hw, retryLoop, if_pos h2]
      rfl
  · intro fuel r hrun
    unfold Retry at hrun
    rw [if_neg (by omega)] at hrun
    cases fuel with
    | zero => rw [retryLoop, if_pos (by omega)] at hrun; simp at hrun
    | succ f =>
      rw [retryLoop_succ operation attempts f 1 delay none s (by omega)] at hrun
      cases hop : operation s with
      | mk res s1 =>
        rw [hop] at hfail hrun
        simp only [] at hfail
        subst hfail
        simp only [] at hrun
        rw [if_pos (by omega), hw] at hrun
        cases hsub : retryLoop operation attempts f 2 (wrapInt64 (delay * 2)) (some e) s1 with
        | none => rw [hsub] at hrun; simp at hrun
        | some r1 =>
          rw [hsub] at hrun
          simp only [Option.map_some', Option.some.injEq] at hrun
          obtain ⟨res, rest, hev⟩ := retryLoop_first_event operation attempts f 2 _ _ s1 r1 h2 hsub
          exact ⟨res, rest, by rw [← hrun, hev]⟩

/-- An upload attempt on a zero-length file: `CreatePutRequest` is called, the
file is opened, and nothing else happens. -/
theorem uploadAttempt_empty {τ : Type} (env : UploadEnv τ) (uploader : HTTPClientAdapter)
    (fullURL filePath : Str) (w : UploadWorld τ)
    (hempty : env.fileSystem filePath = FileEntry.regular 0) :
    uploadAttempt env uploader fullURL filePath w =
      (some (emptyFileError filePath),
        ⟨w.net, w.opened ++ [filePath], w.prepared + 1, w.sent⟩) := by
  unfold uploadAttempt CreatePutRequest
  simp only [hempty, if_true]
  rfl

theorem resultOf_empty {τ : Type} (env : UploadEnv τ) (uploader : HTTPClientAdapter)
    (fullURL filePath : Str) (hempty : env.fileSystem filePath = FileEntry.regular 0) :
    ∀ (k : Nat) (w : UploadWorld τ),
      resultOf (uploadAttempt env uploader fullURL filePath) w k =
        some (emptyFileError filePath) := by
  intro k
  induction k with
  | zero =>
    intro w
    rw [resultOf_zero, uploadAttempt_empty env uploader fullURL filePath w hempty]
  | succ k ih =>
    intro w
    rw [resultOf_succ, ih]

theorem stateAfter_empty {τ : Type} (env : UploadEnv τ) (uploader : HTTPClientAdapter)
    (fullURL filePath : Str) (hempty : env.fileSystem filePath = FileEntry.regular 0) :
    ∀ (k : Nat) (w : UploadWorld τ),
      (stateAfter (uploadAttempt env uploader fullURL filePath) w k).prepared =
          w.prepared + k ∧
        (stateAfter (uploadAttempt env uploader fullURL filePath) w k).sent = w.sent ∧
        (stateAfter (uploadAttempt env uploader fullURL filePath) w k).net = w.net := by
  intro k
  induction k with
  | zero => intro w; exact ⟨rfl, rfl, rfl⟩
  | succ k ih =>
    intro w
    rw [stateAfter_succ, uploadAttempt_empty env uploader fullURL filePath w hempty]
    obtain ⟨h1, h2, h3⟩ := ih ⟨w.net, w.opened ++ [filePath], w.prepared + 1, w.sent⟩
    refine ⟨?_, h2, h3⟩
    simp only [] at h1 ⊢
    rw [h1]
    omega

/-- What an upload attempt returns once the request is prepared. -/
theorem uploadAttempt_prepared {τ : Type} (env : UploadEnv τ) (uploader : HTTPClientAdapter)
    (fullURL filePath : Str) (w w1 : UploadWorld τ) (req : Request)
    (hreq : CreatePutRequest env uploader fullURL filePath w = (Except.ok req, w1)) :
    uploadAttempt env uploader fullURL filePath w =
      match uploader.Do env req w1 with
      | (Except.error err, w2) =>
        (some ("failed to upload file '".toList ++ filePath ++ "': ".toList ++ err), w2)
      | (Except.ok resp, w2) =>
        if resp.statusCode ≠ 201 ∧ resp.statusCode ≠ 200 then
          (some ("unexpected response status ".toList ++ fmtInt resp.statusCode ++
            " for file '".toList ++ filePath ++ "'".toList), w2)
        else (none, w2) := by
  unfold uploadAttempt
  rw [hreq]

/-- C16: one upload attempt returns `nil` if and only if the request was
prepared and `HTTPClientAdapter.Do` returned a response without error whose
status code is 200 or 201; an error of `Do` makes the attempt return
`failed to upload file ...`, every other status code makes it return
`unexpected response status ...`; and when the first attempt of
`UploadFileWithRetry` returns an error and at least two attempts are permitted,
the run is not over after that attempt: `Retry` sleeps 2s and invokes the
attempt again. -/
theorem C16_upload_attempt {τ : Type} (env : UploadEnv τ) (uploader : HTTPClientAdapter)
    (fullURL filePath : Str) (w : UploadWorld τ) :
    ((uploadAttempt env uploader fullURL filePath w).1 = none ↔
      ∃ req w1 resp w2,
        CreatePutRequest env uploader fullURL filePath w = (Except.ok req, w1) ∧
        uploader.Do env req w1 = (Except.ok resp, w2) ∧
        (resp.statusCode = 200 ∨ resp.statusCode = 201)) ∧
    (∀ req w1 err w2,
      CreatePutRequest env uploader fullURL filePath w = (Except.ok req, w1) →
      uploader.Do env req w1 = (Except.error err, w2) →
      uploadAttempt env uploader fullURL filePath w =
        (some ("failed to upload file '".toList ++ filePath ++ "': ".toList ++ err), w2)) ∧
    (∀ req w1 resp w2,
      CreatePutRequest env uploader fullURL filePath w = (Except.ok req, w1) →
      uploader.Do env req w1 = (Except.ok resp, w2) →
      resp.statusCode ≠ 200 → resp.statusCode ≠ 201 →
      uploadAttempt env uploader fullURL filePath w =
        (some ("unexpected response status ".toList ++ fmtInt resp.statusCode ++
          " for file '".toList ++ filePath ++ "'".toList), w2)) ∧
    (∀ (e : Str) (retryAttempts : Int),
      (uploadAttempt env uploader fullURL filePath w).1 = some e → 2 ≤ retryAttempts →
      UploadFileWithRetry env 1 uploader fullURL filePath retryAttempts w = none ∧
      ∀ fuel r, UploadFileWithRetry env fuel uploader fullURL filePath retryAttempts w = some r →
        ∃ res rest, r.events = RetryEvent.call (some e) :: RetryEvent.sleep 2000000000 ::
          RetryEvent.call res :: rest) := by
  refine ⟨?_, ?_, ?_, ?_⟩
  · constructor
    · intro h
      cases hreq : CreatePutRequest env uploader fullURL filePath w with
      | mk res w1 =>
        cases res with
        | error err =>
          unfold uploadAttempt at h
          rw [hreq] at h
          simp at h
        | ok req =>
          rw [uploadAttempt_prepared env uploader fullURL filePath w w1 req hreq] at h
          cases hdo : uploader.Do env req w1 with
          | mk res2 w2 =>
            rw [hdo] at h
            cases res2 with
            | error err => simp at h
            | ok resp =>
              simp only [] at h
              by_cases hst : resp.statusCode ≠ 201 ∧ resp.statusCode ≠ 200
              · rw [if_pos hst] at h
                simp at h
              · refine ⟨req, w1, resp, w2, rfl, hdo, ?_⟩
                by_cases h200 : resp.statusCode = 200
                · exact Or.inl h200
                · right
                  by_contra h201
                  exact hst ⟨h201, h200⟩
    · rintro ⟨req, w1, resp, w2, hreq, hdo, hst⟩
      rw [uploadAttempt_prepared env uploader fullURL filePath w w1 req hreq, hdo]
      simp only []
      rw [if_neg (by
        rintro ⟨h201, h200⟩
        rcases hst with h | h
        · exact h200 h
        · exact h201 h)]
  · intro req w1 err w2 hreq hdo
    rw [uploadAttempt_prepared env uploader fullURL filePath w w1 req hreq, hdo]
  · intro req w1 resp w2 hreq hdo h200 h201
    rw [uploadAttempt_prepared env uploader fullURL filePath w w1 req hreq, hdo]
    simp only []
    rw [if_pos ⟨h201, h200⟩]
  · intro e retryAttempts hfail h2
    exact Retry_retries (uploadAttempt env uploader fullURL filePath) retryAttempts 2000000000
      w e h2 hfail

/-- C16, witness: the transport answers 503 to the first request and 201 to the
second; with 3 attempts permitted the upload returns `nil` after two attempts
and one sleep of 2s. -/
theorem C16_upload_attempt_witness :
    (uploadAttempt flakyEnv plainAdapter "http://nexus:8081/repository/releases/a.jar".toList
        "a.jar".toList ⟨503, [], 0, []⟩).1 =
      some "unexpected response status 503 for file 'a.jar'".toList ∧
    (UploadFileWithRetry flakyEnv 3 plainAdapter
        "http://nexus:8081/repository/releases/a.jar".toList "a.jar".toList 3
        ⟨503, [], 0, []⟩).map (fun r => (r.err, r.events)) =
      some (none, [RetryEvent.call
          (some "unexpected response status 503 for file 'a.jar'".toList),
        RetryEvent.sleep 2000000000, RetryEvent.call none]) ∧
    UploadFileWithRetry flakyEnv 1 plainAdapter
        "http://nexus:8081/repository/releases/a.jar".toList "a.jar".toList 3
        ⟨503, [], 0, []⟩ = none :=
  ⟨by decide, by decide,
    ((C16_upload_attempt flakyEnv plainAdapter
      "http://nexus:8081/repository/releases/a.jar".toList "a.jar".toList
      ⟨503, [], 0, []⟩).2.2.2
      "unexpected response status 503 for file 'a.jar'".toList 3 (by decide) (by decide)).1⟩

/-- `UploadFileWithRetry` on a zero-length file, with a number of attempts
between 1 and `math.MaxInt64 - 1`: every attempt fails in `CreatePutRequest`. -/
theorem UploadFileWithRetry_empty {τ : Type} (env : UploadEnv τ)
    (uploader : HTTPClientAdapter) (fullURL filePath : Str) (w : UploadWorld τ)
    (n fuel : Nat) (hempty : env.fileSystem filePath = FileEntry.regular 0)
    (hmax : (n : Int) + 1 < maxInt64) (hfuel : n + 1 ≤ fuel) :
    UploadFileWithRetry env fuel uploader fullURL filePath ((n : Int) + 1) w =
      some ⟨some (retryExhausted ((n : Int) + 1) (some (emptyFileError filePath))),
        stateAfter (uploadAttempt env uploader fullURL filePath) w (n + 1),
        backoffEvents 2000000000
            (firstResults (uploadAttempt env uploader fullURL filePath) w n) ++
          [RetryEvent.call (some (emptyFileError filePath))]⟩ := by
  unfold UploadFileWithRetry
  rw [Retry_all_fail (uploadAttempt env uploader fullURL filePath) n fuel 2000000000 w hmax
    hfuel (fun i _ => by
      rw [resultOf_empty env uploader fullURL filePath hempty]; simp),
    resultOf_empty env uploader fullURL filePath hempty]

/-- C17 (the code at the failing input): on a zero-length file
`CreatePutRequest` returns the error `File 'empty.jar' is empty` and no request,
and with `retryAttempts = math.MaxInt64` `UploadFileWithRetry` has not returned
after any number of iterations of the loop of `Retry`. -/
theorem C17_empty_file_max_attempts (fuel : Nat) :
    CreatePutRequest emptyFilesEnv plainAdapter
        "http://nexus:8081/repository/releases/empty.jar".toList "empty.jar".toList
        ⟨(), [], 0, []⟩ =
      (Except.error "File 'empty.jar' is empty".toList,
        ⟨(), ["empty.jar".toList], 1, []⟩) ∧
    UploadFileWithRetry emptyFilesEnv fuel plainAdapter
        "http://nexus:8081/repository/releases/empty.jar".toList "empty.jar".toList
        maxInt64 ⟨(), [], 0, []⟩ = none := by
  refine ⟨rfl, ?_⟩
  unfold UploadFileWithRetry Retry
  rw [if_neg (by decide)]
  apply retryLoop_maxInt_none _ _ fuel 1 2000000000 none _ (by decide)
  intro w
  rw [uploadAttempt_empty emptyFilesEnv plainAdapter _ _ w rfl]
  simp

/-- C18: when `BuildFullTargetURL` fails, `UploadMaven2File` returns the error
`failed to build full URL: ` followed by that failure, with the world unchanged
(no file opened, no request prepared or sent) and no event of `Retry`, whatever
the function that uploads is: it is not reached. Likewise `UploadRawFile` returns
`failed to build target URL: ` followed by the failure of `BuildTargetURL`. -/
theorem C18_resolve_failure_is_terminal {τ : Type} (env : UploadEnv τ)
    (filepathAbs : Str → Str × Option Str) (filepathRel : Str → Str → Str × Option Str)
    (mi : Maven2Importer) (ri : RawImporter) (filePath : Str) (retryAttempts : Int)
    (w : UploadWorld τ) :
    (∀ url e, BuildFullTargetURL filepathRel mi filePath = (url, some e) →
      (∀ upload, UploadMaven2FileWith (BuildFullTargetURL filepathRel mi) upload env filePath
          retryAttempts w =
        some ⟨some ("failed to build full URL: ".toList ++ e), w, []⟩) ∧
      (∀ fuel uploader, UploadMaven2File env filepathRel fuel mi uploader filePath
          retryAttempts w =
        some ⟨some ("failed to build full URL: ".toList ++ e), w, []⟩)) ∧
    (∀ url e, BuildTargetURL filepathAbs filepathRel ri filePath = (url, some e) →
      (∀ upload, UploadRawFileWith (BuildTargetURL filepathAbs filepathRel ri) upload filePath
          retryAttempts w =
        some ⟨some ("failed to build target URL: ".toList ++ e), w, []⟩) ∧
      (∀ fuel uploader, UploadRawFile env filepathAbs filepathRel fuel ri uploader filePath
          retryAttempts w =
        some ⟨some ("failed to build target URL: ".toList ++ e), w, []⟩)) := by
  constructor
  · intro url e hbuild
    have h : ∀ upload, UploadMaven2FileWith (BuildFullTargetURL filepathRel mi) upload env
        filePath retryAttempts w =
        some ⟨some ("failed to build full URL: ".toList ++ e), w, []⟩ := by
      intro upload
      unfold UploadMaven2FileWith
      rw [hbuild]
    exact ⟨h, fun fuel uploader => h _⟩
  · intro url e hbuild
    have h : ∀ upload, UploadRawFileWith (BuildTargetURL filepathAbs filepathRel ri) upload
        filePath retryAttempts w =
        some ⟨some ("failed to build target URL: ".toList ++ e), w, []⟩ := by
      intro upload
      unfold UploadRawFileWith
      rw [hbuild]
    exact ⟨h, fun fuel uploader => h _⟩

/-- C18, witness: `artifact-1.0.0.jar` directly under the root (one segment) for
Maven2, and a path that `filepath.Rel` rejects for raw. -/
theorem C18_resolve_failure_is_terminal_witness :
    UploadMaven2File flakyEnv (fun _ filePath => (filePath, none)) 3
        ⟨"http://nexus:8081".toList, "releases".toList, ".".toList, false⟩ plainAdapter
        "artifact-1.0.0.jar".toList 3 ⟨201, [], 0, []⟩ =
      some ⟨some "failed to build full URL: invalid Maven2 path: artifact-1.0.0.jar".toList,
        ⟨201, [], 0, []⟩, []⟩ ∧
    UploadRawFile flakyEnv (fun filePath => (filePath, none))
        (fun _ _ => ([], some "Rel: can't make a.txt relative to /data".toList)) 3
        ⟨"http://nexus:8081".toList, "raw".toList, "/data".toList, false⟩ plainAdapter
        "a.txt".toList 3 ⟨201, [], 0, []⟩ =
      some ⟨some ("failed to build target URL: ".toList ++
        "Raw Error - File: a.txt, Relative Path: , Error: failed to compute relative path: Rel: can't make a.txt relative to /data".toList),
        ⟨201, [], 0, []⟩, []⟩ :=
  ⟨((C18_resolve_failure_is_terminal flakyEnv (fun filePath => (filePath, none))
      (fun _ filePath => (filePath, none))
      ⟨"http://nexus:8081".toList, "releases".toList, ".".toList, false⟩
      ⟨"http://nexus:8081".toList, "raw".toList, "/data".toList, false⟩
      "artifact-1.0.0.jar".toList 3 ⟨201, [], 0, []⟩).1 []
      "invalid Maven2 path: artifact-1.0.0.jar".toList (by decide)).2 3 plainAdapter,
    ((C18_resolve_failure_is_terminal flakyEnv (fun filePath => (filePath, none))
      (fun _ _ => ([], some "Rel: can't make a.txt relative to /data".toList))
      ⟨"http://nexus:8081".toList, "releases".toList, ".".toList, false⟩
      ⟨"http://nexus:8081".toList, "raw".toList, "/data".toList, false⟩
      "a.txt".toList 3 ⟨201, [], 0, []⟩).2 []
      "Raw Error - File: a.txt, Relative Path: , Error: failed to compute relative path: Rel: can't make a.txt relative to /data".toList
      (by decide)).2 3 plainAdapter⟩

/-- C19 (as stated, refuted): with `retryAttempts = 2`, uploading a zero-length
file calls `CreatePutRequest` twice and sleeps 2s between the two attempts,
before it returns `Operation failed after 2 attempts: ...`. -/
theorem C19_empty_file_counterexample :
    UploadFileWithRetry emptyFilesEnv 2 plainAdapter
        "http://nexus:8081/repository/releases/empty.jar".toList "empty.jar".toList 2
        ⟨(), [], 0, []⟩ =
      some ⟨some ("Operation failed after 2 attempts: ".toList ++
          "failed to prepare request for file 'empty.jar': File 'empty.jar' is empty".toList),
        ⟨(), ["empty.jar".toList, "empty.jar".toList], 2, []⟩,
        [RetryEvent.call
            (some "failed to prepare request for file 'empty.jar': File 'empty.jar' is empty".toList),
          RetryEvent.sleep 2000000000,
          RetryEvent.call
            (some "failed to prepare request for file 'empty.jar': File 'empty.jar' is empty".toList)]⟩ := by
  decide

/-- C19 (amended): an empty source file is retried like any other failure: for
every `retryAttempts = n` with `1 ≤ n < math.MaxInt64`, uploading a zero-length
file performs the open-and-check step (`CreatePutRequest`) exactly `n` times,
sleeps `n − 1` times, never calls `Do`, and returns
`Operation failed after n attempts: failed to prepare request for file ...:
File ... is empty`; only for `retryAttempts = 1` is the step performed once,
without sleep. -/
theorem C19_empty_file_retried {τ : Type} (env : UploadEnv τ) (uploader : HTTPClientAdapter)
    (fullURL filePath : Str) (w : UploadWorld τ) (n fuel : Nat)
    (hempty : env.fileSystem filePath = FileEntry.regular 0)
    (hmax : (n : Int) + 1 < maxInt64) (hfuel : n + 1 ≤ fuel) :
    ∃ r, UploadFileWithRetry env fuel uploader fullURL filePath ((n : Int) + 1) w = some r ∧
      r.err = some (retryExhausted ((n : Int) + 1) (some (emptyFileError filePath))) ∧
      r.state.prepared = w.prepared + (n + 1) ∧
      callCount r.events = n + 1 ∧
      (sleepsOf r.events).length = n ∧
      r.state.sent = w.sent ∧
      r.state.net = w.net := by
  obtain ⟨h1, h2, h3⟩ := stateAfter_empty env uploader fullURL filePath hempty (n + 1) w
  refine ⟨_, UploadFileWithRetry_empty env uploader fullURL filePath w n fuel hempty hmax hfuel,
    rfl, h1, ?_, ?_, h2, h3⟩
  · simp only [callCount_backoff, firstResults_length]
  · simp only [sleepsOf_backoff, sleepsOf_backoff_length, firstResults_length]

/-- C19, witness: three attempts on a zero-length file. -/
theorem C19_empty_file_retried_witness :
    ∃ r, UploadFileWithRetry emptyFilesEnv 3 plainAdapter
        "http://nexus:8081/repository/releases/empty.jar".toList "empty.jar".toList
        ((2 : Nat) + 1 : Int) ⟨(), [], 0, []⟩ = some r ∧
      r.err = some (retryExhausted ((2 : Nat) + 1 : Int)
        (some (emptyFileError "empty.jar".toList))) ∧
      r.state.prepared = 0 + (2 + 1) ∧
      callCount r.events = 2 + 1 ∧
      (sleepsOf r.events).length = 2 ∧
      r.state.sent = [] ∧
      r.state.net = () :=
  C19_empty_file_retried emptyFilesEnv plainAdapter
    "http://nexus:8081/repository/releases/empty.jar".toList "empty.jar".toList
    ⟨(), [], 0, []⟩ 2 3 rfl (by decide) (by decide)

/-! ## `ProcessBatch` -/

theorem workers_split {T : Type} : ∀ (ws : List (Worker T)) (k : Nat) (w : Worker T),
    ws.get? k = some w →
    ∃ pre post, ws = pre ++ w :: post ∧
      (∀ w1, ws.set k w1 = pre ++ w1 :: post) ∧ ws.eraseIdx k = pre ++ post := by
  intro ws
  induction ws with
  | nil => intro k w h; simp at h
  | cons a rest ih =>
    intro k w h
    cases k with
    | zero =>
      simp only [List.get?_cons_zero, Option.some.injEq] at h
      subst h
      exact ⟨[], rest, rfl, fun _ => rfl, rfl⟩
    | succ k =>
      simp only [List.get?_cons_succ] at h
      obtain ⟨pre, post, h1, h2, h3⟩ := ih k w h
      refine ⟨a :: pre, post, by rw [h1]; rfl, ?_, ?_⟩
      · intro w1
        rw [List.set_cons_succ, h2 w1]
        rfl
      · rw [List.eraseIdx_cons_succ, h3]
        rfl

theorem spawnedItems_append {T : Type} : ∀ (a b : List (Worker T)),
    spawnedItems (a ++ b) = spawnedItems a ++ spawnedItems b := by
  intro a
  induction a with
  | nil => intro b; rfl
  | cons w rest ih =>
    intro b
    cases w <;> simp [spawnedItems, ih]

theorem stepsLeft_sum_append {T : Type} (a b : List (Worker T)) :
    ((a ++ b).map Worker.stepsLeft).sum =
      (a.map Worker.stepsLeft).sum + (b.map Worker.stepsLeft).sum := by
  rw [List.map_append, List.sum_append]

theorem stepsLeft_spawned {T : Type} (i : T) : (Worker.spawned i).stepsLeft = 4 := rfl

theorem stepsLeft_failed {T : Type} (i : T) (e : Str) : (Worker.failed i e).stepsLeft = 3 :=
  rfl

theorem stepsLeft_finished {T : Type} (i : T) : (Worker.finished i).stepsLeft = 2 := rfl

theorem stepsLeft_released {T : Type} (i : T) : (Worker.released i).stepsLeft = 1 := rfl

theorem slotsUsed_pos {T : Type} : ∀ (ws : List (Worker T)), 0 < slotsUsed ws → ws ≠ [] := by
  intro ws h hnil
  rw [hnil] at h
  simp [slotsUsed] at h

theorem mainStep_inv {T : Type} [DecidableEq T] (items : List T) (capacity : Nat)
    (st st1 : BatchState T) (hstep : mainStep capacity st = some st1)
    (hinv : BatchInv items st) : BatchInv items st1 ∧ stepsLeft st1 < stepsLeft st := by
  unfold mainStep at hstep
  cases hres : st.result with
  | some r => rw [hres] at hstep; simp at hstep
  | none =>
    rw [hres] at hstep
    simp only [] at hstep
    cases hpen : st.pending with
    | cons item rest =>
      rw [hpen] at hstep
      simp only [] at hstep
      by_cases hslot : slotsUsed st.workers < capacity
      · rw [if_pos hslot] at hstep
        simp only [Option.some.injEq] at hstep
        subst hstep
        obtain ⟨h1, _⟩ := hinv
        rw [hpen] at h1
        refine ⟨⟨?_, ?_⟩, ?_⟩
        · have e1 : spawnedItems (st.workers ++ [Worker.spawned item]) =
              spawnedItems st.workers ++ [item] := by
            rw [spawnedItems_append]
            rfl
          simp only [e1]
          rw [← h1]
          simp only [← Multiset.coe_add, ← Multiset.cons_coe, ← Multiset.singleton_add,
            Multiset.coe_nil, add_zero]
          abel
        · intro h
          simp only [hres] at h
          exact absurd rfl h
        · simp only [stepsLeft, hpen, hres, List.length_cons, stepsLeft_sum_append,
            List.map_cons, List.map_nil, List.sum_cons, List.sum_nil, Worker.stepsLeft]
          omega
      · rw [if_neg hslot] at hstep
        simp at hstep
    | nil =>
      rw [hpen] at hstep
      simp only [] at hstep
      cases hws : st.workers with
      | cons w rest => rw [hws] at hstep; simp at hstep
      | nil =>
        rw [hws] at hstep
        simp only [Option.some.injEq] at hstep
        subst hstep
        obtain ⟨h1, _⟩ := hinv
        rw [hpen, hws] at h1
        refine ⟨⟨h1, fun _ => ⟨rfl, rfl⟩⟩, ?_⟩
        simp [stepsLeft, hres, hpen, hws]

theorem workerStep_inv {T : Type} (items : List T) (process : T → Option Str) (k : Nat)
    (st st1 : BatchState T) (hstep : workerStep process k st = some st1)
    (hinv : BatchInv items st) : BatchInv items st1 ∧ stepsLeft st1 < stepsLeft st := by
  unfold workerStep at hstep
  obtain ⟨h1, h2⟩ := hinv
  have hres : st.result = none := by
    by_contra h
    have hw := (h2 h).2
    rw [hw] at hstep
    simp at hstep
  cases hget : st.workers.get? k with
  | none => rw [hget] at hstep; simp at hstep
  | some w =>
    rw [hget] at hstep
    obtain ⟨pre, post, hsplit, hset, herase⟩ := workers_split st.workers k w hget
    rw [hsplit] at h1
    cases w with
    | spawned item =>
      simp only [] at hstep
      have hcalls : ∀ w1 : Worker T, spawnedItems [w1] = [] →
          Worker.stepsLeft w1 < 4 →
          BatchInv items { st with workers := st.workers.set k w1,
                                   calls := st.calls ++ [item] } ∧
            stepsLeft { st with workers := st.workers.set k w1,
                                calls := st.calls ++ [item] } < stepsLeft st := by
        intro w1 hw1 hlt
        refine ⟨⟨?_, ?_⟩, ?_⟩
        · simp only [hset w1]
          rw [← h1]
          have e1 : spawnedItems (pre ++ w1 :: post) = spawnedItems pre ++ spawnedItems post := by
            rw [spawnedItems_append, ← List.singleton_append, spawnedItems_append, hw1]
            rfl
          have e2 : spawnedItems (pre ++ Worker.spawned item :: post) =
              spawnedItems pre ++ item :: spawnedItems post := by
            rw [spawnedItems_append]
            rfl
          rw [e1, e2]
          simp only [← Multiset.coe_add, ← Multiset.cons_coe, ← Multiset.singleton_add,
            Multiset.coe_nil, add_zero]
          abel
        · intro h
          simp only [hres] at h
          exact absurd rfl h
        · simp only [stepsLeft, hset w1, hres]
          rw [hsplit]
          simp only [stepsLeft_sum_append, List.map_cons, List.sum_cons, stepsLeft_spawned,
            stepsLeft_failed, stepsLeft_finished, stepsLeft_released]
          omega
      cases hp : process item with
      | none =>
        rw [hp] at hstep
        simp only [Option.some.injEq] at hstep
        subst hstep
        exact hcalls (Worker.finished item) rfl (by rw [stepsLeft_finished]; omega)
      | some err =>
        rw [hp] at hstep
        simp only [Option.some.injEq] at hstep
        subst hstep
        exact hcalls (Worker.failed item err) rfl (by rw [stepsLeft_failed]; omega)
    | failed item err =>
      simp only [Option.some.injEq] at hstep
      subst hstep
      refine ⟨⟨?_, ?_⟩, ?_⟩
      · simp only [hset]
        rw [← h1]
        have e1 : spawnedItems (pre ++ Worker.finished item :: post) =
            spawnedItems (pre ++ Worker.failed item err :: post) := by
          rw [spawnedItems_append, spawnedItems_append]
          rfl
        rw [e1]
      · intro h
        simp only [hres] at h
        exact absurd rfl h
      · simp only [stepsLeft, hset, hres]
        rw [hsplit]
        simp only [stepsLeft_sum_append, List.map_cons, List.sum_cons, stepsLeft_spawned,
            stepsLeft_failed, stepsLeft_finished, stepsLeft_released]
        omega
    | finished item =>
      simp only [Option.some.injEq] at hstep
      subst hstep
      refine ⟨⟨?_, ?_⟩, ?_⟩
      · simp only [hset]
        rw [← h1]
        have e1 : spawnedItems (pre ++ Worker.released item :: post) =
            spawnedItems (pre ++ Worker.finished item :: post) := by
          rw [spawnedItems_append, spawnedItems_append]
          rfl
        rw [e1]
      · intro h
        simp only [hres] at h
        exact absurd rfl h
      · simp only [stepsLeft, hset, hres]
        rw [hsplit]
        simp only [stepsLeft_sum_append, List.map_cons, List.sum_cons, stepsLeft_spawned,
            stepsLeft_failed, stepsLeft_finished, stepsLeft_released]
        omega
    | released item =>
      simp only [Option.some.injEq] at hstep
      subst hstep
      refine ⟨⟨?_, ?_⟩, ?_⟩
      · simp only [herase]
        rw [← h1]
        have e1 : spawnedItems (pre ++ post) =
            spawnedItems (pre ++ Worker.released item :: post) := by
          rw [spawnedItems_append, spawnedItems_append]
          rfl
        rw [e1]
      · intro h
        simp only [hres] at h
        exact absurd rfl h
      · simp only [stepsLeft, herase, hres]
        rw [hsplit]
        simp only [stepsLeft_sum_append, List.map_cons, List.sum_cons, stepsLeft_spawned,
            stepsLeft_failed, stepsLeft_finished, stepsLeft_released]
        omega

theorem batchStep_inv {T : Type} [DecidableEq T] (items : List T) (process : T → Option Str)
    (capacity : Nat) (st st1 : BatchState T) (c : Choice)
    (hstep : batchStep process capacity st c = some st1) (hinv : BatchInv items st) :
    BatchInv items st1 ∧ stepsLeft st1 < stepsLeft st := by
  cases c with
  | main => exact mainStep_inv items capacity st st1 hstep hinv
  | worker k => exact workerStep_inv items process k st st1 hstep hinv

/-- Along a run the invariant is kept and each step uses up one unit of the
bound at least. -/
theorem batchRun_inv {T : Type} [DecidableEq T] (items : List T) (process : T → Option Str)
    (capacity : Nat) : ∀ (schedule : List Choice) (st st1 : BatchState T),
      batchRun process capacity schedule st = some st1 → BatchInv items st →
      BatchInv items st1 ∧ schedule.length + stepsLeft st1 ≤ stepsLeft st := by
  intro schedule
  induction schedule with
  | nil =>
    intro st st1 hrun hinv
    simp only [batchRun, Option.some.injEq] at hrun
    subst hrun
    exact ⟨hinv, by simp⟩
  | cons c rest ih =>
    intro st st1 hrun hinv
    rw [batchRun] at hrun
    cases hstep : batchStep process capacity st c with
    | none => rw [hstep] at hrun; simp at hrun
    | some st2 =>
      rw [hstep] at hrun
      obtain ⟨h1, h2⟩ := batchStep_inv items process capacity st st2 c hstep hinv
      obtain ⟨h3, h4⟩ := ih st2 st1 hrun h1
      refine ⟨h3, ?_⟩
      simp only [List.length_cons]
      omega

theorem batchRun_append {T : Type} [DecidableEq T] (process : T → Option Str)
    (capacity : Nat) : ∀ (s1 s2 : List Choice) (st : BatchState T),
      batchRun process capacity (s1 ++ s2) st =
        (batchRun process capacity s1 st).bind (batchRun process capacity s2) := by
  intro s1
  induction s1 with
  | nil => intro s2 st; rfl
  | cons c rest ih =>
    intro s2 st
    rw [List.cons_append, batchRun, batchRun]
    cases batchStep process capacity st c with
    | none => rfl
    | some st1 => exact ih s2 st1

theorem batchInv_init {T : Type} (items : List T) :
    BatchInv items ⟨items, [], [], [], none⟩ := by
  refine ⟨?_, fun h => absurd rfl h⟩
  simp [spawnedItems]

/-- A goroutine that is live can always make its next step. -/
theorem workerStep_zero {T : Type} (process : T → Option Str) (st : BatchState T)
    (hws : st.workers ≠ []) : ∃ st1, workerStep process 0 st = some st1 := by
  unfold workerStep
  cases hw : st.workers with
  | nil => exact absurd hw hws
  | cons w rest =>
    simp only [List.get?_cons_zero]
    cases w with
    | spawned item =>
      dsimp only
      cases process item <;> exact ⟨_, rfl⟩
    | failed item err => exact ⟨_, rfl⟩
    | finished item => exact ⟨_, rfl⟩
    | released item => exact ⟨_, rfl⟩

/-- No deadlock: as long as the main goroutine has not returned, some goroutine
can make a step. -/
theorem batch_progress {T : Type} [DecidableEq T] (process : T → Option Str)
    (capacity : Nat) (hcap : 1 ≤ capacity) (st : BatchState T) (hres : st.result = none) :
    ∃ c st1, batchStep process capacity st c = some st1 := by
  by_cases hws : st.workers = []
  · refine ⟨Choice.main, ?_⟩
    simp only [batchStep, mainStep, hres, hws]
    cases st.pending with
    | nil => exact ⟨_, rfl⟩
    | cons item rest =>
      have h0 : slotsUsed ([] : List (Worker T)) = 0 := rfl
      simp only [h0]
      rw [if_pos (by omega)]
      exact ⟨_, rfl⟩
  · obtain ⟨st1, h⟩ := workerStep_zero process st hws
    exact ⟨Choice.worker 0, st1, h⟩

/-- From every state some run reaches the return of the main goroutine. -/
theorem batch_terminates {T : Type} [DecidableEq T] (items : List T)
    (process : T → Option Str) (capacity : Nat) (hcap : 1 ≤ capacity) :
    ∀ (m : Nat) (st : BatchState T), stepsLeft st ≤ m → BatchInv items st →
      ∃ schedule st1, batchRun process capacity schedule st = some st1 ∧
        st1.result ≠ none := by
  intro m
  induction m with
  | zero =>
    intro st hm _
    refine ⟨[], st, rfl, ?_⟩
    intro hres
    simp [stepsLeft, hres] at hm
  | succ m ih =>
    intro st hm hinv
    by_cases hres : st.result = none
    · obtain ⟨c, st1, hstep⟩ := batch_progress process capacity hcap st hres
      obtain ⟨h1, h2⟩ := batchStep_inv items process capacity st st1 c hstep hinv
      obtain ⟨schedule, st2, hrun, hfin⟩ := ih st1 (by omega) h1
      refine ⟨c :: schedule, st2, ?_, hfin⟩
      rw [batchRun, hstep]
      exact hrun
    · exact ⟨[], st, rfl, hres⟩

theorem batchCapacity_pos (batchSize : Int) : 1 ≤ batchCapacity batchSize := by
  unfold batchCapacity
  by_cases h : batchSize ≤ 0
  · rw [if_pos h]
  · rw [if_neg h]
    omega

/-- C20: in every run of `ProcessBatch`, whatever the schedule, the batch size
and the processing function (failing or not), the calls of `process` made so far
are on distinct elements of `items` (counted with multiplicity), and when the
main goroutine returns, `process` has been called exactly once for each element
of `items` and every goroutine is done. As long as the main goroutine has not
returned some goroutine can make a step, no run has more than
`5 * len(items) + 1` steps, and some run reaches the return. -/
theorem C20_process_batch_each_item_once {T : Type} [DecidableEq T] (items : List T)
    (batchSize : Int) (process : T → Option Str) :
    (∀ schedule st, ProcessBatch items batchSize process schedule = some st →
      st.calls.Subperm items ∧
      (st.result ≠ none → st.calls.Perm items ∧ st.workers = [] ∧ st.pending = []) ∧
      schedule.length ≤ 5 * items.length + 1 ∧
      (st.result = none →
        ∃ c st1, ProcessBatch items batchSize process (schedule ++ [c]) = some st1)) ∧
    (∃ schedule st, ProcessBatch items batchSize process schedule = some st ∧
      st.result ≠ none) := by
  constructor
  · intro schedule st hrun
    unfold ProcessBatch at hrun
    obtain ⟨⟨h1, h2⟩, h3⟩ := batchRun_inv items process (batchCapacity batchSize) schedule _ st
      hrun (batchInv_init items)
    refine ⟨?_, ?_, ?_, ?_⟩
    · rw [← Multiset.coe_le, ← h1, add_assoc]
      exact Multiset.le_add_right _ _
    · intro hres
      obtain ⟨hp, hw⟩ := h2 hres
      refine ⟨?_, hw, hp⟩
      rw [hp, hw] at h1
      rw [← Multiset.coe_eq_coe, ← h1]
      simp [spawnedItems]
    · have h0 : stepsLeft (⟨items, [], [], [], none⟩ : BatchState T) = 5 * items.length + 1 := by
        simp [stepsLeft]
      omega
    · intro hres
      obtain ⟨c, st1, hstep⟩ := batch_progress process (batchCapacity batchSize)
        (batchCapacity_pos batchSize) st hres
      refine ⟨c, st1, ?_⟩
      unfold ProcessBatch
      rw [batchRun_append, hrun]
      simp only [Option.some_bind, batchRun, hstep]
  · obtain ⟨schedule, st, hrun, hfin⟩ := batch_terminates items process
      (batchCapacity batchSize) (batchCapacity_pos batchSize) _ ⟨items, [], [], [], none⟩
      (Nat.le_refl _) (batchInv_init items)
    exact ⟨schedule, st, hrun, hfin⟩

/-- C20, witness: the items `a`, `b`, `a` with batch size 2 and a processing
function that fails on `a`; the second `a` is processed although the first one
failed. -/
theorem C20_process_batch_each_item_once_witness :
    (ProcessBatch ["a", "b", "a"] 2 (fun i => if i = "a" then some "boom".toList else none)
        [Choice.main, Choice.main, Choice.worker 1, Choice.worker 0, Choice.worker 0,
          Choice.worker 0, Choice.worker 0, Choice.main, Choice.worker 0, Choice.worker 0,
          Choice.worker 0, Choice.worker 0, Choice.worker 0, Choice.worker 0,
          Choice.main]).map (fun st => (st.calls, st.result)) =
      some (["b", "a", "a"], some (some [("a", "boom".toList)])) ∧
    ["b", "a", "a"].Perm ["a", "b", "a"] := by
  have hrun : ProcessBatch ["a", "b", "a"] 2
      (fun i => if i = "a" then some "boom".toList else none)
      [Choice.main, Choice.main, Choice.worker 1, Choice.worker 0, Choice.worker 0,
        Choice.worker 0, Choice.worker 0, Choice.main, Choice.worker 0, Choice.worker 0,
        Choice.worker 0, Choice.worker 0, Choice.worker 0, Choice.worker 0, Choice.main] =
      some ⟨[], [], [("a", "boom".toList), ("a", "boom".toList)], ["b", "a", "a"],
        some (some [("a", "boom".toList)])⟩ := by decide
  refine ⟨by rw [hrun]; rfl, ?_⟩
  exact (((C20_process_batch_each_item_once ["a", "b", "a"] 2
    (fun i => if i = "a" then some "boom".toList else none)).1 _ _ hrun).2.1 (by simp)).1

/-! ## The failure map of `ProcessBatch` -/

theorem mapSet_mem {T : Type} [DecidableEq T] : ∀ (m : List (T × Str)) (key : T) (value : Str),
    (m.map Prod.fst).Nodup → ∀ a b,
      ((a, b) ∈ mapSet m key value ↔ (a = key ∧ b = value) ∨ (a ≠ key ∧ (a, b) ∈ m)) := by
  intro m
  induction m with
  | nil =>
    intro key value _ a b
    simp [mapSet]
  | cons kv rest ih =>
    intro key value hnd a b
    obtain ⟨k, v⟩ := kv
    simp only [List.map_cons, List.nodup_cons] at hnd
    obtain ⟨hk, hrest⟩ := hnd
    by_cases h : k = key
    · subst h
      simp only [mapSet, if_true, List.mem_cons, Prod.mk.injEq]
      constructor
      · rintro (⟨h1, h2⟩ | h1)
        · exact Or.inl ⟨h1, h2⟩
        · refine Or.inr ⟨?_, Or.inr h1⟩
          rintro rfl
          exact hk (List.mem_map_of_mem Prod.fst h1)
      · rintro (⟨h1, h2⟩ | ⟨h1, h2 | h2⟩)
        · exact Or.inl ⟨h1, h2⟩
        · exact absurd h2.1 h1
        · exact Or.inr h2
    · simp only [mapSet, if_neg h, List.mem_cons, Prod.mk.injEq, ih key value hrest a b]
      constructor
      · rintro (⟨h1, h2⟩ | ⟨h1, h2⟩ | ⟨h1, h2⟩)
        · exact Or.inr ⟨by rw [h1]; exact h, Or.inl ⟨h1, h2⟩⟩
        · exact Or.inl ⟨h1, h2⟩
        · exact Or.inr ⟨h1, Or.inr h2⟩
      · rintro (⟨h1, h2⟩ | ⟨h1, ⟨h2, h3⟩ | h2⟩)
        · exact Or.inr (Or.inl ⟨h1, h2⟩)
        · exact Or.inl ⟨h2, h3⟩
        · exact Or.inr (Or.inr ⟨h1, h2⟩)

theorem mapSet_keys {T : Type} [DecidableEq T] : ∀ (m : List (T × Str)) (key : T) (value : Str),
    ∀ a, a ∈ (mapSet m key value).map Prod.fst ↔ a = key ∨ a ∈ m.map Prod.fst := by
  intro m
  induction m with
  | nil => intro key value a; simp [mapSet]
  | cons kv rest ih =>
    intro key value a
    obtain ⟨k, v⟩ := kv
    by_cases h : k = key
    · subst h
      simp only [mapSet, if_true, List.map_cons, List.mem_cons]
      tauto
    · simp only [mapSet, if_neg h, List.map_cons, List.mem_cons, ih key value a]
      tauto

theorem mapSet_nodup {T : Type} [DecidableEq T] : ∀ (m : List (T × Str)) (key : T) (value : Str),
    (m.map Prod.fst).Nodup → ((mapSet m key value).map Prod.fst).Nodup := by
  intro m
  induction m with
  | nil => intro key value _; simp [mapSet]
  | cons kv rest ih =>
    intro key value hnd
    obtain ⟨k, v⟩ := kv
    simp only [List.map_cons, List.nodup_cons] at hnd
    obtain ⟨hk, hrest⟩ := hnd
    by_cases h : k = key
    · subst h
      simp only [mapSet, if_true, List.map_cons, List.nodup_cons]
      exact ⟨hk, hrest⟩
    · simp only [mapSet, if_neg h, List.map_cons, List.nodup_cons]
      refine ⟨?_, ih key value hrest⟩
      rw [mapSet_keys]
      rintro (h1 | h1)
      · exact h h1
      · exact hk h1

/-- The map collected from outcomes that are the outcomes of one processing
function: its keys are distinct and its entries are the outcomes. -/
theorem collect_foldl {T : Type} [DecidableEq T] (process : T → Option Str) :
    ∀ (l acc : List (T × Str)), (acc.map Prod.fst).Nodup →
      (∀ kv ∈ acc, process kv.1 = some kv.2) → (∀ kv ∈ l, process kv.1 = some kv.2) →
      ((l.foldl (fun m kv => mapSet m kv.1 kv.2) acc).map Prod.fst).Nodup ∧
        ∀ a b, ((a, b) ∈ l.foldl (fun m kv => mapSet m kv.1 kv.2) acc ↔
          (a, b) ∈ acc ∨ (a, b) ∈ l) := by
  intro l
  induction l with
  | nil => intro acc hnd _ _; exact ⟨hnd, fun a b => by simp⟩
  | cons kv rest ih =>
    intro acc hnd hacc hl
    obtain ⟨k, v⟩ := kv
    have hkv : process k = some v := hl (k, v) (List.mem_cons_self _ _)
    have hmem := mapSet_mem acc k v hnd
    have hacc1 : ∀ kv ∈ mapSet acc k v, process kv.1 = some kv.2 := by
      rintro ⟨a, b⟩ hab
      rcases (hmem a b).1 hab with ⟨h1, h2⟩ | ⟨_, h2⟩
      · simp only [h1, h2, hkv]
      · exact hacc (a, b) h2
    obtain ⟨h1, h2⟩ := ih (mapSet acc k v) (mapSet_nodup acc k v hnd) hacc1
      (fun kv hkv1 => hl kv (List.mem_cons_of_mem _ hkv1))
    refine ⟨h1, ?_⟩
    intro a b
    rw [List.foldl_cons, h2 a b, hmem a b, List.mem_cons, Prod.mk.injEq]
    constructor
    · rintro ((⟨h3, h4⟩ | ⟨_, h4⟩) | h3)
      · exact Or.inr (Or.inl ⟨h3, h4⟩)
      · exact Or.inl h4
      · exact Or.inr (Or.inr h3)
    · rintro (h3 | ⟨h3, h4⟩ | h3)
      · by_cases h5 : a = k
        · have h6 := hacc (a, b) h3
          simp only [h5, hkv, Option.some.injEq] at h6
          exact Or.inl (Or.inl ⟨h5, h6.symm⟩)
        · exact Or.inl (Or.inr ⟨h5, h3⟩)
      · exact Or.inl (Or.inl ⟨h3, h4⟩)
      · exact Or.inr h3

theorem collectErrors_spec {T : Type} [DecidableEq T] (process : T → Option Str)
    (l : List (T × Str)) (hl : ∀ kv ∈ l, process kv.1 = some kv.2) :
    ((collectErrors l).map Prod.fst).Nodup ∧ ∀ a b, ((a, b) ∈ collectErrors l ↔ (a, b) ∈ l) := by
  obtain ⟨h1, h2⟩ := collect_foldl process l [] (by simp) (by simp) hl
  exact ⟨h1, fun a b => by rw [collectErrors, h2 a b]; simp⟩

theorem mem_filterMap_failureOf {T : Type} (process : T → Option Str) (l : List T) (a : T)
    (b : Str) : (a, b) ∈ l.filterMap (failureOf process) ↔ a ∈ l ∧ process a = some b := by
  rw [List.mem_filterMap]
  constructor
  · rintro ⟨i, hi, h⟩
    unfold failureOf at h
    cases hp : process i with
    | none => rw [hp] at h; simp at h
    | some e =>
      rw [hp] at h
      simp only [Option.some.injEq, Prod.mk.injEq] at h
      obtain ⟨rfl, rfl⟩ := h
      exact ⟨hi, hp⟩
  · rintro ⟨hi, hp⟩
    exact ⟨a, hi, by unfold failureOf; rw [hp]⟩

theorem failedEntries_append {T : Type} : ∀ (a b : List (Worker T)),
    failedEntries (a ++ b) = failedEntries a ++ failedEntries b := by
  intro a
  induction a with
  | nil => intro b; rfl
  | cons w rest ih =>
    intro b
    cases w <;> simp [failedEntries, ih]

theorem mainStep_errInv {T : Type} [DecidableEq T] (process : T → Option Str) (capacity : Nat)
    (st st1 : BatchState T) (hstep : mainStep capacity st = some st1)
    (hinv : ErrInv process st) : ErrInv process st1 := by
  unfold mainStep at hstep
  obtain ⟨h1, h2⟩ := hinv
  cases hres : st.result with
  | some r => rw [hres] at hstep; simp at hstep
  | none =>
    rw [hres] at hstep
    simp only [] at hstep
    cases hpen : st.pending with
    | cons item rest =>
      rw [hpen] at hstep
      simp only [] at hstep
      by_cases hslot : slotsUsed st.workers < capacity
      · rw [if_pos hslot] at hstep
        simp only [Option.some.injEq] at hstep
        subst hstep
        refine ⟨?_, ?_⟩
        · have e1 : failedEntries (st.workers ++ [Worker.spawned item]) =
              failedEntries st.workers := by
            rw [failedEntries_append]
            simp [failedEntries]
          simp only [e1]
          exact h1
        · intro r hr
          simp only [hres] at hr
          exact absurd hr (by simp)
      · rw [if_neg hslot] at hstep
        simp at hstep
    | nil =>
      rw [hpen] at hstep
      simp only [] at hstep
      cases hws : st.workers with
      | cons w rest => rw [hws] at hstep; simp at hstep
      | nil =>
        rw [hws] at hstep
        simp only [Option.some.injEq] at hstep
        subst hstep
        refine ⟨?_, ?_⟩
        · simp only []
          rw [hws] at h1
          exact h1
        · intro r hr
          simp only [Option.some.injEq] at hr
          exact hr.symm

theorem workerStep_errInv {T : Type} [DecidableEq T] (items : List T)
    (process : T → Option Str) (k : Nat)
    (st st1 : BatchState T) (hstep : workerStep process k st = some st1)
    (hbatch : BatchInv items st) (hinv : ErrInv process st) : ErrInv process st1 := by
  unfold workerStep at hstep
  obtain ⟨h1, h2⟩ := hinv
  have hres : st.result = none := by
    by_contra h
    have hw := (hbatch.2 h).2
    rw [hw] at hstep
    simp at hstep
  have hnone : ∀ st2 : BatchState T, st2.result = st.result →
      ∀ r, st2.result = some r →
        r = if 0 < (collectErrors st2.errChan).length then some (collectErrors st2.errChan)
          else none := by
    intro st2 h r hr
    rw [h, hres] at hr
    exact absurd hr (by simp)
  cases hget : st.workers.get? k with
  | none => rw [hget] at hstep; simp at hstep
  | some w =>
    rw [hget] at hstep
    obtain ⟨pre, post, hsplit, hset, herase⟩ := workers_split st.workers k w hget
    rw [hsplit] at h1
    cases w with
    | spawned item =>
      simp only [] at hstep
      have e0 : failedEntries (pre ++ Worker.spawned item :: post) =
          failedEntries pre ++ failedEntries post := by
        rw [failedEntries_append]
        rfl
      rw [e0] at h1
      cases hp : process item with
      | none =>
        rw [hp] at hstep
        simp only [Option.some.injEq] at hstep
        subst hstep
        refine ⟨?_, hnone _ rfl⟩
        simp only [hset]
        have e1 : failedEntries (pre ++ Worker.finished item :: post) =
            failedEntries pre ++ failedEntries post := by
          rw [failedEntries_append]
          rfl
        have e2 : (st.calls ++ [item]).filterMap (failureOf process) =
            st.calls.filterMap (failureOf process) := by
          rw [List.filterMap_append]
          simp [failureOf, hp]
        rw [e1, e2]
        exact h1
      | some err =>
        rw [hp] at hstep
        simp only [Option.some.injEq] at hstep
        subst hstep
        refine ⟨?_, hnone _ rfl⟩
        simp only [hset]
        have e1 : failedEntries (pre ++ Worker.failed item err :: post) =
            failedEntries pre ++ (item, err) :: failedEntries post := by
          rw [failedEntries_append]
          rfl
        have e2 : (st.calls ++ [item]).filterMap (failureOf process) =
            st.calls.filterMap (failureOf process) ++ [(item, err)] := by
          rw [List.filterMap_append]
          simp [failureOf, hp]
        rw [e1, e2, ← Multiset.coe_add (List.filterMap _ _), ← h1]
        simp only [← Multiset.coe_add, ← Multiset.cons_coe, ← Multiset.singleton_add,
          Multiset.coe_nil, add_zero]
        abel
    | failed item err =>
      simp only [Option.some.injEq] at hstep
      subst hstep
      refine ⟨?_, hnone _ rfl⟩
      simp only [hset]
      have e0 : failedEntries (pre ++ Worker.failed item err :: post) =
          failedEntries pre ++ (item, err) :: failedEntries post := by
        rw [failedEntries_append]
        rfl
      have e1 : failedEntries (pre ++ Worker.finished item :: post) =
          failedEntries pre ++ failedEntries post := by
        rw [failedEntries_append]
        rfl
      rw [e0] at h1
      rw [e1, ← h1]
      simp only [← Multiset.coe_add, ← Multiset.cons_coe, ← Multiset.singleton_add,
        Multiset.coe_nil, add_zero]
      abel
    | finished item =>
      simp only [Option.some.injEq] at hstep
      subst hstep
      refine ⟨?_, hnone _ rfl⟩
      simp only [hset]
      have e1 : failedEntries (pre ++ Worker.released item :: post) =
          failedEntries (pre ++ Worker.finished item :: post) := by
        rw [failedEntries_append, failedEntries_append]
        rfl
      rw [e1]
      exact h1
    | released item =>
      simp only [Option.some.injEq] at hstep
      subst hstep
      refine ⟨?_, hnone _ rfl⟩
      simp only [herase]
      have e1 : failedEntries (pre ++ Worker.released item :: post) =
          failedEntries (pre ++ post) := by
        rw [failedEntries_append, failedEntries_append]
        rfl
      rw [← e1]
      exact h1

theorem batchRun_errInv {T : Type} [DecidableEq T] (items : List T) (process : T → Option Str)
    (capacity : Nat) : ∀ (schedule : List Choice) (st st1 : BatchState T),
      batchRun process capacity schedule st = some st1 → BatchInv items st →
      ErrInv process st → ErrInv process st1 := by
  intro schedule
  induction schedule with
  | nil =>
    intro st st1 hrun _ hinv
    simp only [batchRun, Option.some.injEq] at hrun
    subst hrun
    exact hinv
  | cons c rest ih =>
    intro st st1 hrun hbatch hinv
    rw [batchRun] at hrun
    cases hstep : batchStep process capacity st c with
    | none => rw [hstep] at hrun; simp at hrun
    | some st2 =>
      rw [hstep] at hrun
      have hb2 := (batchStep_inv items process capacity st st2 c hstep hbatch).1
      refine ih st2 st1 hrun hb2 ?_
      cases c with
      | main => exact mainStep_errInv process capacity st st2 hstep hinv
      | worker k => exact workerStep_errInv items process k st st2 hstep hbatch hinv

/-- The value returned by a run of `ProcessBatch`: the map has one entry for
each item value whose processing fails, with the error of `process` on it, and
`nil` is returned when the map is empty. -/
theorem batch_result {T : Type} [DecidableEq T] (items : List T) (batchSize : Int)
    (process : T → Option Str) (schedule : List Choice) (st : BatchState T)
    (hrun : ProcessBatch items batchSize process schedule = some st)
    (hres : st.result ≠ none) :
    st.calls.Perm items ∧
    ∃ errors : List (T × Str),
      st.result = some (if 0 < errors.length then some errors else none) ∧
      (errors.map Prod.fst).Nodup ∧
      (∀ k e, (k, e) ∈ errors ↔ k ∈ items ∧ process k = some e) := by
  unfold ProcessBatch at hrun
  obtain ⟨⟨h1, h2⟩, _⟩ := batchRun_inv items process (batchCapacity batchSize) schedule _ st
    hrun (batchInv_init items)
  obtain ⟨h3, h4⟩ := batchRun_errInv items process (batchCapacity batchSize) schedule _ st
    hrun (batchInv_init items) ⟨by simp [failedEntries], fun r hr => absurd hr (by simp)⟩
  obtain ⟨hp, hw⟩ := h2 hres
  have hperm : st.calls.Perm items := by
    rw [hp, hw] at h1
    rw [← Multiset.coe_eq_coe, ← h1]
    simp [spawnedItems]
  refine ⟨hperm, collectErrors st.errChan, ?_, ?_⟩
  · cases hr : st.result with
    | none => exact absurd hr hres
    | some r => rw [h4 r hr]
  · rw [hw] at h3
    have h5 : st.errChan.Perm (st.calls.filterMap (failureOf process)) := by
      rw [← Multiset.coe_eq_coe, ← h3]
      simp [failedEntries]
    have hfun : ∀ kv ∈ st.errChan, process kv.1 = some kv.2 := by
      rintro ⟨a, b⟩ hab
      exact ((mem_filterMap_failureOf process st.calls a b).1 (h5.mem_iff.1 hab)).2
    obtain ⟨h6, h7⟩ := collectErrors_spec process st.errChan hfun
    refine ⟨h6, ?_⟩
    intro k e
    rw [h7 k e, h5.mem_iff, mem_filterMap_failureOf, hperm.mem_iff]

theorem failing_keys {T : Type} [DecidableEq T] (items : List T) (process : T → Option Str)
    (errors : List (T × Str)) (hnd : (errors.map Prod.fst).Nodup)
    (hmem : ∀ k e, (k, e) ∈ errors ↔ k ∈ items ∧ process k = some e) :
    (errors.map Prod.fst).Perm ((items.filter (fails process)).dedup) := by
  rw [List.perm_ext_iff_of_nodup hnd (List.nodup_dedup _)]
  intro k
  rw [List.mem_dedup, List.mem_filter, List.mem_map]
  constructor
  · rintro ⟨⟨a, b⟩, hab, rfl⟩
    obtain ⟨h1, h2⟩ := (hmem a b).1 hab
    exact ⟨h1, by simp [fails, h2]⟩
  · rintro ⟨h1, h2⟩
    unfold fails at h2
    cases hp : process k with
    | none => rw [hp] at h2; simp at h2
    | some e => exact ⟨(k, e), (hmem k e).2 ⟨h1, hp⟩, rfl⟩

theorem result_nil_iff {T : Type} (items : List T) (process : T → Option Str)
    (errors : List (T × Str))
    (hmem : ∀ k e, (k, e) ∈ errors ↔ k ∈ items ∧ process k = some e) :
    (if 0 < errors.length then some errors else none) = none ↔
      ∀ i ∈ items, process i = none := by
  constructor
  · intro h i hi
    by_cases h0 : 0 < errors.length
    · rw [if_pos h0] at h
      simp at h
    · have hnil : errors = [] := List.length_eq_zero.1 (by omega)
      cases hp : process i with
      | none => rfl
      | some e =>
        have := (hmem i e).2 ⟨hi, hp⟩
        rw [hnil] at this
        simp at this
  · intro h
    have hnil : errors = [] := by
      cases herr : errors with
      | nil => rfl
      | cons kv rest =>
        obtain ⟨k, e⟩ := kv
        have h1 := (hmem k e).1 (by rw [herr]; exact List.mem_cons_self _ _)
        rw [h k h1.1] at h1
        simp at h1
    rw [hnil]
    rfl

/-- Two runs of `ProcessBatch` on the same items with the same processing
function return the same value, whatever their batch sizes and schedules: `nil`
both, or maps with the same entries. -/
theorem batch_result_unique {T : Type} [DecidableEq T] (items : List T)
    (process : T → Option Str) (b1 b2 : Int) (s1 s2 : List Choice) (st1 st2 : BatchState T)
    (h1 : ProcessBatch items b1 process s1 = some st1)
    (h2 : ProcessBatch items b2 process s2 = some st2)
    (hr1 : st1.result ≠ none) (hr2 : st2.result ≠ none) :
    (st1.result = some none ∧ st2.result = some none) ∨
      ∃ e1 e2, st1.result = some (some e1) ∧ st2.result = some (some e2) ∧ e1.Perm e2 := by
  obtain ⟨_, e1, hres1, hnd1, hmem1⟩ := batch_result items b1 process s1 st1 h1 hr1
  obtain ⟨_, e2, hres2, hnd2, hmem2⟩ := batch_result items b2 process s2 st2 h2 hr2
  have hperm : e1.Perm e2 := by
    rw [List.perm_ext_iff_of_nodup (List.Nodup.of_map _ hnd1) (List.Nodup.of_map _ hnd2)]
    rintro ⟨k, e⟩
    rw [hmem1, hmem2]
  have hlen := hperm.length_eq
  by_cases h0 : 0 < e1.length
  · right
    refine ⟨e1, e2, ?_, ?_, hperm⟩
    · rw [hres1, if_pos h0]
    · rw [hres2, if_pos (by omega)]
  · left
    refine ⟨?_, ?_⟩
    · rw [hres1, if_neg h0]
    · rw [hres2, if_neg (by omega)]

/-- C21: when `ProcessBatch` has returned, whatever the batch size and the
schedule: it returned `nil` exactly when no item fails; otherwise the failure map
of the `BatchError` has distinct keys and its entries are exactly the item values
whose processing fails, each with the error of `process` on it, so that its size,
the `N` of the message `Batch processing failed for N items`, is the number of
distinct failing item values; that is at most the number of failed calls of
`process`, and smaller as soon as two equal items fail. -/
theorem C21_failure_map_by_item_value {T : Type} [DecidableEq T] (items : List T)
    (batchSize : Int) (process : T → Option Str) (schedule : List Choice) (st : BatchState T)
    (hrun : ProcessBatch items batchSize process schedule = some st)
    (hres : st.result ≠ none) :
    ∃ r, st.result = some r ∧
      (r = none ↔ ∀ i ∈ items, process i = none) ∧
      ∀ errors, r = some errors →
        (errors.map Prod.fst).Nodup ∧
        (∀ k e, (k, e) ∈ errors ↔ k ∈ items ∧ process k = some e) ∧
        errors.length = ((items.filter (fails process)).dedup).length ∧
        FormatBatchErrorMessage errors = "Batch processing failed for ".toList ++
          fmtInt (((items.filter (fails process)).dedup).length : Int) ++ " items".toList ∧
        (st.calls.filter (fails process)).length = (items.filter (fails process)).length ∧
        errors.length ≤ (st.calls.filter (fails process)).length ∧
        (¬ (items.filter (fails process)).Nodup →
          errors.length < (st.calls.filter (fails process)).length) := by
  obtain ⟨hperm, e0, hres0, hnd, hmem⟩ := batch_result items batchSize process schedule st
    hrun hres
  refine ⟨_, hres0, result_nil_iff items process e0 hmem, ?_⟩
  intro errors herr
  have he : errors = e0 := by
    by_cases h0 : 0 < e0.length
    · rw [if_pos h0] at herr
      exact (Option.some.inj herr).symm
    · rw [if_neg h0] at herr
      simp at herr
  subst he
  have hlen : errors.length = ((items.filter (fails process)).dedup).length := by
    rw [← (failing_keys items process errors hnd hmem).length_eq, List.length_map]
  have hcalls : (st.calls.filter (fails process)).length =
      (items.filter (fails process)).length := (hperm.filter _).length_eq
  have hsub := List.dedup_sublist (items.filter (fails process))
  refine ⟨hnd, hmem, hlen, ?_, hcalls, ?_, ?_⟩
  · unfold FormatBatchErrorMessage
    rw [hlen]
  · rw [hlen, hcalls]
    exact hsub.length_le
  · intro hdup
    rw [hlen, hcalls]
    refine lt_of_le_of_ne hsub.length_le ?_
    intro heq
    apply hdup
    rw [← hsub.eq_of_length heq]
    exact List.nodup_dedup _

/-- C21, witness: the items `a`, `b`, `a` with a processing function that fails
on `a`: two calls fail, the map has the one entry for `a`, and the message is
`Batch processing failed for 1 items`. -/
theorem C21_failure_map_by_item_value_witness :
    ∃ st, ProcessBatch ["a", "b", "a"] 2
        (fun i => if i = "a" then some "boom".toList else none)
        [Choice.main, Choice.main, Choice.worker 0, Choice.worker 1, Choice.worker 0,
          Choice.worker 0, Choice.worker 0, Choice.main, Choice.worker 0, Choice.worker 0,
          Choice.worker 0, Choice.worker 0, Choice.worker 0, Choice.worker 0,
          Choice.main] = some st ∧
      st.result = some (some [("a", "boom".toList)]) ∧
      FormatBatchErrorMessage [("a", "boom".toList)] =
        "Batch processing failed for 1 items".toList ∧
      (st.calls.filter (fails (fun i => if i = "a" then some "boom".toList else none))).length
        = 2 ∧
      ([("a", "boom".toList)] : List (String × Str)).length <
        (st.calls.filter (fails (fun i => if i = "a" then some "boom".toList else none))).length
      := by
  have hrun : ProcessBatch ["a", "b", "a"] 2
      (fun i => if i = "a" then some "boom".toList else none)
      [Choice.main, Choice.main, Choice.worker 0, Choice.worker 1, Choice.worker 0,
        Choice.worker 0, Choice.worker 0, Choice.main, Choice.worker 0, Choice.worker 0,
        Choice.worker 0, Choice.worker 0, Choice.worker 0, Choice.worker 0,
        Choice.main] =
      some ⟨[], [], [("a", "boom".toList), ("a", "boom".toList)], ["a", "b", "a"],
        some (some [("a", "boom".toList)])⟩ := by decide
  refine ⟨_, hrun, rfl, by decide, by decide, ?_⟩
  obtain ⟨r, hr, _, h⟩ := C21_failure_map_by_item_value ["a", "b", "a"] 2
    (fun i => if i = "a" then some "boom".toList else none) _ _ hrun (by simp)
  have h1 := (h [("a", "boom".toList)] (by
    simp only [Option.some.injEq] at hr
    exact hr.symm)).2.2.2.2.2.2 (by decide)
  exact h1

/-- C22: for every `batchSize ≤ 0`, `ProcessBatch` has the runs it has with
`batchSize = 1` (the capacity of the semaphore is 1), some run returns, and a
run that returns gives `nil` when every item succeeds and otherwise the map whose
entries are the failing item values with their errors, the same map as any run
with `batchSize = 1`: the batch size is not reported as an error. -/
theorem C22_batch_size_coerced {T : Type} [DecidableEq T] (items : List T) (batchSize : Int)
    (process : T → Option Str) (h : batchSize ≤ 0) :
    (∀ schedule, ProcessBatch items batchSize process schedule =
      ProcessBatch items 1 process schedule) ∧
    (∃ schedule st, ProcessBatch items batchSize process schedule = some st ∧
      st.result ≠ none) ∧
    (∀ schedule st, ProcessBatch items batchSize process schedule = some st →
      st.result ≠ none →
      (∃ r, st.result = some r ∧ (r = none ↔ ∀ i ∈ items, process i = none) ∧
        ∀ errors, r = some errors →
          ∀ k e, (k, e) ∈ errors ↔ k ∈ items ∧ process k = some e) ∧
      ∀ schedule1 st1, ProcessBatch items 1 process schedule1 = some st1 →
        st1.result ≠ none →
        (st.result = some none ∧ st1.result = some none) ∨
          ∃ e e1, st.result = some (some e) ∧ st1.result = some (some e1) ∧ e.Perm e1) := by
  have hcap : batchCapacity batchSize = batchCapacity 1 := by
    unfold batchCapacity
    rw [if_pos h]
    rfl
  refine ⟨?_, ?_, ?_⟩
  · intro schedule
    unfold ProcessBatch
    rw [hcap]
  · obtain ⟨schedule, st, hrun, hfin⟩ := batch_terminates items process
      (batchCapacity batchSize) (batchCapacity_pos batchSize) _ ⟨items, [], [], [], none⟩
      (Nat.le_refl _) (batchInv_init items)
    exact ⟨schedule, st, hrun, hfin⟩
  · intro schedule st hrun hres
    refine ⟨?_, ?_⟩
    · obtain ⟨_, e0, hres0, _, hmem⟩ := batch_result items batchSize process schedule st
        hrun hres
      refine ⟨_, hres0, result_nil_iff items process e0 hmem, ?_⟩
      intro errors herr
      have he : errors = e0 := by
        by_cases h0 : 0 < e0.length
        · rw [if_pos h0] at herr
          exact (Option.some.inj herr).symm
        · rw [if_neg h0] at herr
          simp at herr
      rw [he]
      exact hmem
    · intro schedule1 st1 hrun1 hres1
      exact batch_result_unique items process batchSize 1 schedule schedule1 st st1 hrun hrun1
        hres hres1

/-- C22, witness: `batchSize = -3` on the items `a`, `b`, with `b` failing. -/
theorem C22_batch_size_coerced_witness :
    (-3 : Int) ≤ 0 ∧
    (ProcessBatch ["a", "b"] (-3) (fun i => if i = "b" then some "bad".toList else none)
        [Choice.main, Choice.worker 0, Choice.worker 0, Choice.worker 0, Choice.main,
          Choice.worker 0, Choice.worker 0, Choice.worker 0, Choice.worker 0, Choice.main]).map
        (fun st => st.result) = some (some (some [("b", "bad".toList)])) ∧
    ProcessBatch ["a", "b"] (-3) (fun i => if i = "b" then some "bad".toList else none)
        [Choice.main, Choice.main] = none ∧
    ∀ schedule, ProcessBatch ["a", "b"] (-3)
        (fun i => if i = "b" then some "bad".toList else none) schedule =
      ProcessBatch ["a", "b"] 1 (fun i => if i = "b" then some "bad".toList else none)
        schedule :=
  ⟨by decide, by decide, by decide,
    (C22_batch_size_coerced ["a", "b"] (-3)
      (fun i => if i = "b" then some "bad".toList else none) (by decide)).1⟩

/-- C23: two runs of `ProcessBatch` on the same items with the same processing
function, whatever their batch sizes (1 and `len(items)` among them) and their
schedules, return the same value: `nil` both, or failure maps with the same
keys, the same size and the same error for each key. And the map collected from
the outcomes is the same for every order in which they arrive on `errChan`. -/
theorem C23_result_independent_of_schedule {T : Type} [DecidableEq T] (items : List T)
    (process : T → Option Str) (b1 b2 : Int) (s1 s2 : List Choice) (st1 st2 : BatchState T)
    (h1 : ProcessBatch items b1 process s1 = some st1)
    (h2 : ProcessBatch items b2 process s2 = some st2)
    (hr1 : st1.result ≠ none) (hr2 : st2.result ≠ none) :
    ((st1.result = some none ∧ st2.result = some none) ∨
      ∃ e1 e2, st1.result = some (some e1) ∧ st2.result = some (some e2) ∧
        e1.Perm e2 ∧ e1.length = e2.length ∧
        (e1.map Prod.fst).Nodup ∧ (e2.map Prod.fst).Nodup ∧
        (∀ k, k ∈ e1.map Prod.fst ↔ k ∈ e2.map Prod.fst) ∧
        (∀ k e, (k, e) ∈ e1 ↔ (k, e) ∈ e2)) ∧
    (∀ l1 l2 : List (T × Str), l1.Perm l2 → (∀ kv ∈ l1, process kv.1 = some kv.2) →
      (collectErrors l1).Perm (collectErrors l2) ∧
        ((collectErrors l1).map Prod.fst).Nodup) := by
  constructor
  · obtain ⟨_, e1, hres1, hnd1, hmem1⟩ := batch_result items b1 process s1 st1 h1 hr1
    obtain ⟨_, e2, hres2, hnd2, hmem2⟩ := batch_result items b2 process s2 st2 h2 hr2
    have hperm : e1.Perm e2 := by
      rw [List.perm_ext_iff_of_nodup (List.Nodup.of_map _ hnd1) (List.Nodup.of_map _ hnd2)]
      rintro ⟨k, e⟩
      rw [hmem1, hmem2]
    have hlen := hperm.length_eq
    by_cases h0 : 0 < e1.length
    · right
      refine ⟨e1, e2, ?_, ?_, hperm, hlen, hnd1, hnd2, ?_, ?_⟩
      · rw [hres1, if_pos h0]
      · rw [hres2, if_pos (by omega)]
      · intro k
        exact (hperm.map Prod.fst).mem_iff
      · intro k e
        exact hperm.mem_iff
    · left
      refine ⟨?_, ?_⟩
      · rw [hres1, if_neg h0]
      · rw [hres2, if_neg (by omega)]
  · intro l1 l2 hperm hl1
    have hl2 : ∀ kv ∈ l2, process kv.1 = some kv.2 := fun kv hkv =>
      hl1 kv (hperm.mem_iff.2 hkv)
    obtain ⟨hn1, hm1⟩ := collectErrors_spec process l1 hl1
    obtain ⟨hn2, hm2⟩ := collectErrors_spec process l2 hl2
    refine ⟨?_, hn1⟩
    rw [List.perm_ext_iff_of_nodup (List.Nodup.of_map _ hn1) (List.Nodup.of_map _ hn2)]
    rintro ⟨k, e⟩
    rw [hm1, hm2, hperm.mem_iff]

/-- C23, witness: the items `a`, `b`, `a`, all failing, once with batch size 1
and the goroutines one after the other, once with batch size 3 and `b` processed
first. -/
theorem C23_result_independent_of_schedule_witness :
    ∃ st1 st2,
      ProcessBatch ["a", "b", "a"] 1
        (fun i => if i = "a" then some "boom".toList else some "bad".toList)
        [Choice.main, Choice.worker 0, Choice.worker 0, Choice.worker 0, Choice.worker 0,
          Choice.main, Choice.worker 0, Choice.worker 0, Choice.worker 0, Choice.worker 0,
          Choice.main, Choice.worker 0, Choice.worker 0, Choice.worker 0, Choice.worker 0,
          Choice.main] = some st1 ∧
      ProcessBatch ["a", "b", "a"] 3
        (fun i => if i = "a" then some "boom".toList else some "bad".toList)
        [Choice.main, Choice.main, Choice.main, Choice.worker 1, Choice.worker 1,
          Choice.worker 0, Choice.worker 0, Choice.worker 2, Choice.worker 2,
          Choice.worker 0, Choice.worker 0, Choice.worker 0, Choice.worker 0,
          Choice.worker 0, Choice.worker 0, Choice.main] = some st2 ∧
      st1.errChan = [("a", "boom".toList), ("b", "bad".toList), ("a", "boom".toList)] ∧
      st2.errChan = [("b", "bad".toList), ("a", "boom".toList), ("a", "boom".toList)] ∧
      st1.result = some (some [("a", "boom".toList), ("b", "bad".toList)]) ∧
      st2.result = some (some [("b", "bad".toList), ("a", "boom".toList)]) ∧
      ((st1.result = some none ∧ st2.result = some none) ∨
        ∃ e1 e2, st1.result = some (some e1) ∧ st2.result = some (some e2) ∧
          e1.Perm e2 ∧ e1.length = e2.length ∧
          (e1.map Prod.fst).Nodup ∧ (e2.map Prod.fst).Nodup ∧
          (∀ k, k ∈ e1.map Prod.fst ↔ k ∈ e2.map Prod.fst) ∧
          (∀ k e, (k, e) ∈ e1 ↔ (k, e) ∈ e2)) := by
  have hrun1 : ProcessBatch ["a", "b", "a"] 1
      (fun i => if i = "a" then some "boom".toList else some "bad".toList)
      [Choice.main, Choice.worker 0, Choice.worker 0, Choice.worker 0, Choice.worker 0,
        Choice.main, Choice.worker 0, Choice.worker 0, Choice.worker 0, Choice.worker 0,
        Choice.main, Choice.worker 0, Choice.worker 0, Choice.worker 0, Choice.worker 0,
        Choice.main] =
      some ⟨[], [], [("a", "boom".toList), ("b", "bad".toList), ("a", "boom".toList)],
        ["a", "b", "a"], some (some [("a", "boom".toList), ("b", "bad".toList)])⟩ := by decide
  have hrun2 : ProcessBatch ["a", "b", "a"] 3
      (fun i => if i = "a" then some "boom".toList else some "bad".toList)
      [Choice.main, Choice.main, Choice.main, Choice.worker 1, Choice.worker 1,
        Choice.worker 0, Choice.worker 0, Choice.worker 2, Choice.worker 2,
        Choice.worker 0, Choice.worker 0, Choice.worker 0, Choice.worker 0,
        Choice.worker 0, Choice.worker 0, Choice.main] =
      some ⟨[], [], [("b", "bad".toList), ("a", "boom".toList), ("a", "boom".toList)],
        ["b", "a", "a"], some (some [("b", "bad".toList), ("a", "boom".toList)])⟩ := by decide
  exact ⟨_, _, hrun1, hrun2, rfl, rfl, rfl, rfl,
    (C23_result_independent_of_schedule ["a", "b", "a"]
      (fun i => if i = "a" then some "boom".toList else some "bad".toList) 1 3 _ _ _ _
      hrun1 hrun2 (by simp) (by simp)).1⟩

/-! ## `processFiles` -/

theorem counts_add (uploads : List (Str × Option Str)) :
    succeededCount uploads + failedCount uploads = uploads.length := by
  induction uploads with
  | nil => rfl
  | cons u rest ih =>
    obtain ⟨p, o⟩ := u
    cases o with
    | none =>
      simp only [succeededCount, failedCount, List.filter_cons, Option.isNone_none,
        Option.isSome_none, if_true, List.length_cons] at ih ⊢
      simp only [Bool.false_eq_true, if_false]
      omega
    | some e =>
      simp only [succeededCount, failedCount, List.filter_cons, Option.isNone_some,
        Option.isSome_some, if_true, List.length_cons] at ih ⊢
      simp only [Bool.false_eq_true, if_false]
      omega

theorem failedCount_cons_some (uploads : List (Str × Option Str)) (p e : Str) :
    failedCount ((p, some e) :: uploads) = failedCount uploads + 1 ∧
      succeededCount ((p, some e) :: uploads) = succeededCount uploads := by
  simp [failedCount, succeededCount, List.filter_cons]

theorem failedCount_cons_none (uploads : List (Str × Option Str)) (p : Str) :
    failedCount ((p, none) :: uploads) = failedCount uploads ∧
      succeededCount ((p, none) :: uploads) = succeededCount uploads + 1 := by
  simp [failedCount, succeededCount, List.filter_cons]

theorem wrapInt64_succ (x : Int) : wrapInt64 (wrapInt64 x + 1) = wrapInt64 (x + 1) := by
  unfold wrapInt64
  omega

theorem wrapInt64_add (x y : Int) :
    wrapInt64 (wrapInt64 x + wrapInt64 y) = wrapInt64 (x + y) := by
  unfold wrapInt64
  omega

/-- The paths of the uploads are those of the entries that are files, in the
order of the walk. -/
theorem uploadOutcomes_paths {ω : Type} (upload : Str → ω → Option Str × ω) :
    ∀ (entries : List WalkEntry) (world : ω),
      (uploadOutcomes upload entries world).map Prod.fst =
        (entries.filter WalkEntry.isFile).map WalkEntry.path := by
  intro entries
  induction entries with
  | nil => intro _; rfl
  | cons e rest ih =>
    intro world
    rw [uploadOutcomes, List.filter_cons]
    cases hf : e.isFile with
    | true => simp only [if_true, List.map_cons, ih]
    | false => simp only [Bool.false_eq_true, if_false, ih]

/-- A call for an entry that is not a file leaves the counters and the world as
they are. -/
theorem walkFn_other {ω : Type} (repositoryType : Str) (retryAttempts : Int)
    (uploadMaven2 uploadRaw : Str → Int → ω → Option Str × ω)
    (st : WalkState ω) (e : WalkEntry) (hf : e.isFile = false) :
    (walkFn repositoryType retryAttempts uploadMaven2 uploadRaw st e).totalFiles =
        st.totalFiles ∧
      (walkFn repositoryType retryAttempts uploadMaven2 uploadRaw st e).successfulUploads =
        st.successfulUploads ∧
      (walkFn repositoryType retryAttempts uploadMaven2 uploadRaw st e).failedUploads =
        st.failedUploads ∧
      (walkFn repositoryType retryAttempts uploadMaven2 uploadRaw st e).world = st.world := by
  unfold WalkEntry.isFile at hf
  unfold walkFn
  cases herr : e.err with
  | some err => exact ⟨rfl, rfl, rfl, rfl⟩
  | none =>
    rw [herr] at hf
    simp only [Option.isNone_none, Bool.true_and, Bool.not_eq_false_eq_eq_true] at hf
    simp only [hf, Bool.not_true, Bool.false_eq_true, if_false, and_self]

/-- A call for a file: one more file, the world that the upload left, and one
more failure or one more success by what the upload returned. -/
theorem walkFn_file {ω : Type} (repositoryType : Str) (retryAttempts : Int)
    (uploadMaven2 uploadRaw : Str → Int → ω → Option Str × ω)
    (st : WalkState ω) (e : WalkEntry) (hf : e.isFile = true) :
    (walkFn repositoryType retryAttempts uploadMaven2 uploadRaw st e).totalFiles =
        wrapInt64 (st.totalFiles + 1) ∧
      (walkFn repositoryType retryAttempts uploadMaven2 uploadRaw st e).world =
        (uploadOf repositoryType retryAttempts uploadMaven2 uploadRaw e.path st.world).2 ∧
      ((∃ uploadErr, (uploadOf repositoryType retryAttempts uploadMaven2 uploadRaw e.path
            st.world).1 = some uploadErr ∧
          (walkFn repositoryType retryAttempts uploadMaven2 uploadRaw st e).successfulUploads =
            st.successfulUploads ∧
          (walkFn repositoryType retryAttempts uploadMaven2 uploadRaw st e).failedUploads =
            wrapInt64 (st.failedUploads + 1)) ∨
        ((uploadOf repositoryType retryAttempts uploadMaven2 uploadRaw e.path
            st.world).1 = none ∧
          (walkFn repositoryType retryAttempts uploadMaven2 uploadRaw st e).successfulUploads =
            wrapInt64 (st.successfulUploads + 1) ∧
          (walkFn repositoryType retryAttempts uploadMaven2 uploadRaw st e).failedUploads =
            st.failedUploads)) := by
  unfold WalkEntry.isFile at hf
  unfold walkFn uploadOf
  cases herr : e.err with
  | some err => rw [herr] at hf; simp at hf
  | none =>
    rw [herr] at hf
    simp only [Option.isNone_none, Bool.true_and] at hf
    simp only [hf, if_true]
    generalize (if repositoryType = "maven2".toList then
        uploadMaven2 e.path retryAttempts st.world
      else if repositoryType = "raw".toList then uploadRaw e.path retryAttempts st.world
      else (none, st.world)) = outcome
    obtain ⟨o, world⟩ := outcome
    cases o with
    | some uploadErr => exact ⟨rfl, rfl, Or.inl ⟨uploadErr, rfl, rfl, rfl⟩⟩
    | none => exact ⟨rfl, rfl, Or.inr ⟨rfl, rfl, rfl⟩⟩

/-- The counters after a walk, from any state whose counters are the 64-bit
values of `a`, `b`, `c`: the files of the walk are added to the first, the
uploads that returned `nil` to the second, those that returned an error to the
third. -/
theorem walk_counts {ω : Type} (repositoryType : Str) (retryAttempts : Int)
    (uploadMaven2 uploadRaw : Str → Int → ω → Option Str × ω) :
    ∀ (entries : List WalkEntry) (st : WalkState ω) (a b c : Int),
      st.totalFiles = wrapInt64 a → st.successfulUploads = wrapInt64 b →
      st.failedUploads = wrapInt64 c →
      (entries.foldl (walkFn repositoryType retryAttempts uploadMaven2 uploadRaw)
          st).totalFiles =
        wrapInt64 (a + ((entries.filter WalkEntry.isFile).length : Int)) ∧
      (entries.foldl (walkFn repositoryType retryAttempts uploadMaven2 uploadRaw)
          st).successfulUploads =
        wrapInt64 (b + (succeededCount (uploadOutcomes
          (uploadOf repositoryType retryAttempts uploadMaven2 uploadRaw) entries
          st.world) : Int)) ∧
      (entries.foldl (walkFn repositoryType retryAttempts uploadMaven2 uploadRaw)
          st).failedUploads =
        wrapInt64 (c + (failedCount (uploadOutcomes
          (uploadOf repositoryType retryAttempts uploadMaven2 uploadRaw) entries
          st.world) : Int)) := by
  intro entries
  induction entries with
  | nil =>
    intro st a b c h1 h2 h3
    simp only [List.foldl_nil, List.filter_nil, List.length_nil, uploadOutcomes,
      succeededCount, failedCount, Nat.cast_zero, add_zero]
    exact ⟨h1, h2, h3⟩
  | cons e rest ih =>
    intro st a b c h1 h2 h3
    rw [List.foldl_cons, uploadOutcomes, List.filter_cons]
    cases hf : e.isFile with
    | false =>
      obtain ⟨g1, g2, g3, g4⟩ := walkFn_other repositoryType retryAttempts uploadMaven2
        uploadRaw st e hf
      have := ih (walkFn repositoryType retryAttempts uploadMaven2 uploadRaw st e) a b c
        (g1.trans h1) (g2.trans h2) (g3.trans h3)
      rw [g4] at this
      simpa only [Bool.false_eq_true, if_false] using this
    | true =>
      obtain ⟨g1, g4, hcase⟩ := walkFn_file repositoryType retryAttempts uploadMaven2
        uploadRaw st e hf
      have t1 : (walkFn repositoryType retryAttempts uploadMaven2 uploadRaw st e).totalFiles =
          wrapInt64 (a + 1) := by
        rw [g1, h1, wrapInt64_succ]
      simp only [if_true, List.length_cons, Nat.cast_add, Nat.cast_one]
      rcases hcase with ⟨uploadErr, ho, g2, g3⟩ | ⟨ho, g2, g3⟩
      · have t3 : (walkFn repositoryType retryAttempts uploadMaven2 uploadRaw st
            e).failedUploads = wrapInt64 (c + 1) := by
          rw [g3, h3, wrapInt64_succ]
        obtain ⟨r1, r2, r3⟩ := ih (walkFn repositoryType retryAttempts uploadMaven2 uploadRaw
          st e) (a + 1) b (c + 1) t1 (g2.trans h2) t3
        rw [g4] at r2 r3
        obtain ⟨q1, q2⟩ := failedCount_cons_some (uploadOutcomes
          (uploadOf repositoryType retryAttempts uploadMaven2 uploadRaw) rest
          (uploadOf repositoryType retryAttempts uploadMaven2 uploadRaw e.path st.world).2)
          e.path uploadErr
        rw [ho, q1, q2, r1, r2, r3]
        refine ⟨by congr 1; omega, rfl, by congr 1; push_cast; omega⟩
      · have t2 : (walkFn repositoryType retryAttempts uploadMaven2 uploadRaw st
            e).successfulUploads = wrapInt64 (b + 1) := by
          rw [g2, h2, wrapInt64_succ]
        obtain ⟨r1, r2, r3⟩ := ih (walkFn repositoryType retryAttempts uploadMaven2 uploadRaw
          st e) (a + 1) (b + 1) c t1 t2 (g3.trans h3)
        rw [g4] at r2 r3
        obtain ⟨q1, q2⟩ := failedCount_cons_none (uploadOutcomes
          (uploadOf repositoryType retryAttempts uploadMaven2 uploadRaw) rest
          (uploadOf repositoryType retryAttempts uploadMaven2 uploadRaw e.path st.world).2)
          e.path
        rw [ho, q1, q2, r1, r2, r3]
        refine ⟨by congr 1; omega, by congr 1; push_cast; omega, rfl⟩

/-- C24: after `processFiles` has walked any sequence of entries, with any
upload methods, any outcomes of the uploads and any repository type,
`successfulUploads + failedUploads` equals `totalFiles`, where `totalFiles` is
the number of the entries that are not directories and came without a traversal
error, `failedUploads` is the number of those whose upload returned an error and
`successfulUploads` the number of those whose upload returned `nil`; the uploads
are described by `uploadOutcomes`, from what the upload methods return, without
the counters. The equalities hold in the 64-bit arithmetic of Go for every walk,
and as integers when the walk made at most `math.MaxInt64` calls. -/
theorem C24_summary_invariant {ω : Type} (repositoryType : Str) (retryAttempts : Int)
    (uploadMaven2 uploadRaw : Str → Int → ω → Option Str × ω)
    (entries : List WalkEntry) (world : ω) :
    wrapInt64 ((processFiles repositoryType retryAttempts uploadMaven2 uploadRaw entries
        world).successfulUploads +
      (processFiles repositoryType retryAttempts uploadMaven2 uploadRaw entries
        world).failedUploads) =
      (processFiles repositoryType retryAttempts uploadMaven2 uploadRaw entries
        world).totalFiles ∧
    (processFiles repositoryType retryAttempts uploadMaven2 uploadRaw entries
        world).totalFiles =
      wrapInt64 ((entries.filter WalkEntry.isFile).length : Int) ∧
    (processFiles repositoryType retryAttempts uploadMaven2 uploadRaw entries
        world).failedUploads =
      wrapInt64 (failedCount (uploadOutcomes
        (uploadOf repositoryType retryAttempts uploadMaven2 uploadRaw) entries world) : Int) ∧
    (processFiles repositoryType retryAttempts uploadMaven2 uploadRaw entries
        world).successfulUploads =
      wrapInt64 (succeededCount (uploadOutcomes
        (uploadOf repositoryType retryAttempts uploadMaven2 uploadRaw) entries world) : Int) ∧
    (uploadOutcomes (uploadOf repositoryType retryAttempts uploadMaven2 uploadRaw) entries
        world).map Prod.fst =
      (entries.filter WalkEntry.isFile).map WalkEntry.path ∧
    ((entries.length : Int) ≤ maxInt64 →
      (processFiles repositoryType retryAttempts uploadMaven2 uploadRaw entries
          world).totalFiles = ((entries.filter WalkEntry.isFile).length : Int) ∧
      (processFiles repositoryType retryAttempts uploadMaven2 uploadRaw entries
          world).failedUploads =
        (failedCount (uploadOutcomes
          (uploadOf repositoryType retryAttempts uploadMaven2 uploadRaw) entries world) : Int) ∧
      (processFiles repositoryType retryAttempts uploadMaven2 uploadRaw entries
          world).successfulUploads =
        (succeededCount (uploadOutcomes
          (uploadOf repositoryType retryAttempts uploadMaven2 uploadRaw) entries world) : Int) ∧
      (processFiles repositoryType retryAttempts uploadMaven2 uploadRaw entries
          world).successfulUploads +
        (processFiles repositoryType retryAttempts uploadMaven2 uploadRaw entries
          world).failedUploads =
        (processFiles repositoryType retryAttempts uploadMaven2 uploadRaw entries
          world).totalFiles) := by
  have h0 : (0 : Int) = wrapInt64 0 := by
    unfold wrapInt64
    omega
  obtain ⟨h1, h2, h3⟩ := walk_counts repositoryType retryAttempts uploadMaven2 uploadRaw
    entries ⟨0, 0, 0, [], world⟩ 0 0 0 h0 h0 h0
  simp only [zero_add] at h1 h2 h3
  have hst : entries.foldl (walkFn repositoryType retryAttempts uploadMaven2 uploadRaw)
      ⟨0, 0, 0, [], world⟩ =
    processFiles repositoryType retryAttempts uploadMaven2 uploadRaw entries world := rfl
  rw [hst] at h1 h2 h3
  have hpaths := uploadOutcomes_paths (uploadOf repositoryType retryAttempts uploadMaven2
    uploadRaw) entries world
  generalize processFiles repositoryType retryAttempts uploadMaven2 uploadRaw entries world = r
    at h1 h2 h3
  generalize uploadOutcomes (uploadOf repositoryType retryAttempts uploadMaven2 uploadRaw)
    entries world = outcomes at h2 h3 hpaths
  have hadd := counts_add outcomes
  have hlen : outcomes.length = (entries.filter WalkEntry.isFile).length := by
    have := congrArg List.length hpaths
    simpa using this
  refine ⟨?_, h1, h3, h2, hpaths, ?_⟩
  · rw [h1, h2, h3, wrapInt64_add, ← hlen]
    congr 1
    exact_mod_cast hadd
  · intro hbound
    have hle : (entries.filter WalkEntry.isFile).length ≤ entries.length :=
      List.length_filter_le _ _
    have hmax : ((outcomes.length : Nat) : Int) ≤ maxInt64 := by
      rw [hlen]
      omega
    have hmin : ∀ n : Nat, minInt64 ≤ (n : Int) := by
      intro n
      simp only [minInt64]
      omega
    have e1 : r.totalFiles = (outcomes.length : Int) := by
      rw [h1, ← hlen, wrapInt64_of_range _ (hmin _) hmax]
    have e2 : r.successfulUploads = (succeededCount outcomes : Int) := by
      rw [h2, wrapInt64_of_range _ (hmin _) (by omega)]
    have e3 : r.failedUploads = (failedCount outcomes : Int) := by
      rw [h3, wrapInt64_of_range _ (hmin _) (by omega)]
    refine ⟨by rw [e1, hlen], e3, e2, ?_⟩
    rw [e1, e2, e3]
    exact_mod_cast hadd

set_option maxRecDepth 100000 in
/-- C24, witness: a walk in a `maven2` repository over a directory, three files
and a directory that cannot be read, where the first and the third upload fail:
3 files, 1 success, 2 failures, 3 errors listed. -/
theorem C24_summary_invariant_witness :
    (uploadOutcomes (uploadOf "maven2".toList 3 failsButSecond (fun _ _ w => (none, w)))
        sampleWalk 0 =
      [("d/a.jar".toList, some "boom".toList), ("d/b.jar".toList, none),
        ("d/c.jar".toList, some "boom".toList)] ∧
      (processFiles "maven2".toList 3 failsButSecond (fun _ _ w => (none, w))
        sampleWalk 0).totalFiles = 3 ∧
      (processFiles "maven2".toList 3 failsButSecond (fun _ _ w => (none, w))
        sampleWalk 0).successfulUploads = 1 ∧
      (processFiles "maven2".toList 3 failsButSecond (fun _ _ w => (none, w))
        sampleWalk 0).failedUploads = 2 ∧
      (processFiles "maven2".toList 3 failsButSecond (fun _ _ w => (none, w))
        sampleWalk 0).uploadErrors =
        ["failed to upload file d/a.jar: boom".toList,
          "error accessing path locked: denied".toList,
          "failed to upload file d/c.jar: boom".toList]) ∧
    ((processFiles "maven2".toList 3 failsButSecond (fun _ _ w => (none, w))
        sampleWalk 0).totalFiles = ((sampleWalk.filter WalkEntry.isFile).length : Int) ∧
      (processFiles "maven2".toList 3 failsButSecond (fun _ _ w => (none, w))
          sampleWalk 0).failedUploads =
        (failedCount (uploadOutcomes
          (uploadOf "maven2".toList 3 failsButSecond (fun _ _ w => (none, w)))
          sampleWalk 0) : Int) ∧
      (processFiles "maven2".toList 3 failsButSecond (fun _ _ w => (none, w))
          sampleWalk 0).successfulUploads =
        (succeededCount (uploadOutcomes
          (uploadOf "maven2".toList 3 failsButSecond (fun _ _ w => (none, w)))
          sampleWalk 0) : Int) ∧
      (processFiles "maven2".toList 3 failsButSecond (fun _ _ w => (none, w))
          sampleWalk 0).successfulUploads +
        (processFiles "maven2".toList 3 failsButSecond (fun _ _ w => (none, w))
          sampleWalk 0).failedUploads =
        (processFiles "maven2".toList 3 failsButSecond (fun _ _ w => (none, w))
          sampleWalk 0).totalFiles) :=
  ⟨⟨by decide, by decide, by decide, by decide, by decide⟩,
    (C24_summary_invariant "maven2".toList 3 failsButSecond (fun _ _ w => (none, w))
      sampleWalk 0).2.2.2.2.2 (by decide)⟩

/-! ## Behaviour that the code has and its documentation does not state -/

/-- C27: when the version token that the pattern finds in the file name
(`matches[2]`) differs from `versionFromPath`, `ParseMavenFileName` returns
`matches[1]`, `versionFromPath`, `matches[2]` as classifier and the extension: the
trailing classifier token (`matches[3]`) is not in the result, so two file names
that differ only in it give the same result. For `a-1.0-SNAPSHOT.jar` under the
path version `1.0-SNAPSHOT` the result is version `1.0-SNAPSHOT`, classifier
`1.0`, and the regenerated file name is `a-1.0-SNAPSHOT-1.0.jar`. -/
theorem C27_classifier_token_dropped :
    (∀ fileName versionFromPath whole artifactID parsedVersion classifierCandidate : Str,
      fileNameMatches fileName = some [whole, artifactID, parsedVersion, classifierCandidate] →
      parsedVersion ≠ versionFromPath →
      ParseMavenFileName fileName versionFromPath =
        (artifactID, versionFromPath, parsedVersion, filepathExt fileName, none)) ∧
    (∀ fileName1 fileName2 versionFromPath whole1 whole2 artifactID parsedVersion c1 c2 : Str,
      fileNameMatches fileName1 = some [whole1, artifactID, parsedVersion, c1] →
      fileNameMatches fileName2 = some [whole2, artifactID, parsedVersion, c2] →
      filepathExt fileName1 = filepathExt fileName2 →
      parsedVersion ≠ versionFromPath →
      ParseMavenFileName fileName1 versionFromPath =
        ParseMavenFileName fileName2 versionFromPath) ∧
    fileNameMatches "a-1.0-SNAPSHOT.jar".toList =
      some ["a-1.0-SNAPSHOT".toList, "a".toList, "1.0".toList, "SNAPSHOT".toList] ∧
    ParseMavenFileName "a-1.0-SNAPSHOT.jar".toList "1.0-SNAPSHOT".toList =
      ("a".toList, "1.0-SNAPSHOT".toList, "1.0".toList, ".jar".toList, none) ∧
    ParseMavenFileName "a-1.0-sources.jar".toList "1.0-SNAPSHOT".toList =
      ("a".toList, "1.0-SNAPSHOT".toList, "1.0".toList, ".jar".toList, none) ∧
    GenerateMavenPath "g".toList "a".toList "1.0-SNAPSHOT".toList "1.0".toList ".jar".toList =
      "g/a/1.0-SNAPSHOT/a-1.0-SNAPSHOT-1.0.jar".toList := by
  have key : ∀ fileName versionFromPath whole artifactID parsedVersion classifierCandidate : Str,
      fileNameMatches fileName = some [whole, artifactID, parsedVersion, classifierCandidate] →
      parsedVersion ≠ versionFromPath →
      ParseMavenFileName fileName versionFromPath =
        (artifactID, versionFromPath, parsedVersion, filepathExt fileName, none) := by
    intro fileName versionFromPath whole artifactID parsedVersion classifierCandidate hm hne
    unfold ParseMavenFileName
    rw [hm]
    simp only [List.length_cons, List.length_nil]
    rw [if_neg (by omega)]
    simp only [List.getD_cons_succ, List.getD_cons_zero]
    rw [if_neg hne]
  refine ⟨key, ?_, by decide, by decide, by decide, by decide⟩
  intro fileName1 fileName2 versionFromPath whole1 whole2 artifactID parsedVersion c1 c2
    h1 h2 hext hne
  rw [key _ _ _ _ _ _ h1 hne, key _ _ _ _ _ _ h2 hne, hext]

/-- C27, witness: `a-1.0-SNAPSHOT.jar` and `a-1.0-sources.jar` under the path
version `1.0-SNAPSHOT`. -/
theorem C27_classifier_token_dropped_witness :
    ParseMavenFileName "a-1.0-SNAPSHOT.jar".toList "1.0-SNAPSHOT".toList =
      ParseMavenFileName "a-1.0-sources.jar".toList "1.0-SNAPSHOT".toList :=
  C27_classifier_token_dropped.2.1 "a-1.0-SNAPSHOT.jar".toList "a-1.0-sources.jar".toList
    "1.0-SNAPSHOT".toList "a-1.0-SNAPSHOT".toList "a-1.0-sources".toList "a".toList
    "1.0".toList "SNAPSHOT".toList "sources".toList (by decide) (by decide) (by decide)
    (by decide)

/-- C28: `CreatePutRequest` does not read the field `ForceReplace` of its
adapter: two adapters that differ only in it return the same result, and a
request that is built has exactly the headers `X-Content-Force-Replace: false`
and `Content-Type: application/json`. -/
theorem C28_force_replace_ignored {τ : Type} (env : UploadEnv τ)
    (authenticator : Option Authenticator) (baseURL repository urlStr filePath : Str)
    (w : UploadWorld τ) (forceReplace : Bool) :
    CreatePutRequest env (NewHTTPClientAdapter authenticator baseURL repository forceReplace)
        urlStr filePath w =
      CreatePutRequest env (NewHTTPClientAdapter authenticator baseURL repository false)
        urlStr filePath w ∧
    CreatePutRequest env (NewHTTPClientAdapter authenticator baseURL repository true)
        urlStr filePath w =
      CreatePutRequest env (NewHTTPClientAdapter authenticator baseURL repository false)
        urlStr filePath w ∧
    ∀ req w1,
      CreatePutRequest env (NewHTTPClientAdapter authenticator baseURL repository forceReplace)
        urlStr filePath w = (Except.ok req, w1) →
      req.headers = [("X-Content-Force-Replace".toList, "false".toList),
        ("Content-Type".toList, "application/json".toList)] ∧
      req.method = "PUT".toList ∧ req.url = urlStr := by
  refine ⟨rfl, rfl, ?_⟩
  intro req w1 h
  unfold CreatePutRequest at h
  cases hfs : env.fileSystem filePath with
  | openError msg => rw [hfs] at h; simp at h
  | statError msg => rw [hfs] at h; simp at h
  | regular size =>
    rw [hfs] at h
    simp only [] at h
    by_cases hsize : size = 0
    · rw [if_pos hsize] at h
      simp at h
    · rw [if_neg hsize] at h
      cases hnew : env.newRequestError "PUT".toList urlStr with
      | some msg => rw [hnew] at h; simp at h
      | none =>
        rw [hnew] at h
        simp only [Prod.mk.injEq, Except.ok.injEq] at h
        obtain ⟨h1, _⟩ := h
        subst h1
        exact ⟨rfl, rfl, rfl⟩

/-- C28, witness: an adapter built with `forceReplace = true` on an 18-byte
file. -/
theorem C28_force_replace_ignored_witness :
    CreatePutRequest flakyEnv
        (NewHTTPClientAdapter none "http://nexus:8081".toList "releases".toList true)
        "http://nexus:8081/repository/releases/a.jar".toList "a.jar".toList ⟨201, [], 0, []⟩ =
      (Except.ok ⟨"PUT".toList, "http://nexus:8081/repository/releases/a.jar".toList,
        "a.jar".toList, [("X-Content-Force-Replace".toList, "false".toList),
          ("Content-Type".toList, "application/json".toList)]⟩,
        ⟨201, ["a.jar".toList], 1, []⟩) ∧
    (⟨"PUT".toList, "http://nexus:8081/repository/releases/a.jar".toList,
        "a.jar".toList, [("X-Content-Force-Replace".toList, "false".toList),
          ("Content-Type".toList, "application/json".toList)]⟩ : Request).headers =
      [("X-Content-Force-Replace".toList, "false".toList),
        ("Content-Type".toList, "application/json".toList)] :=
  ⟨rfl, ((C28_force_replace_ignored flakyEnv none "http://nexus:8081".toList
    "releases".toList "http://nexus:8081/repository/releases/a.jar".toList "a.jar".toList
    ⟨201, [], 0, []⟩ true).2.2 _ _ rfl).1⟩

/-- C29: for two files whose root-relative paths have at least three segments
and differ only in the third-to-last one (the artifact folder),
`BuildFullTargetURL` returns the same result, error or URL; the URL is built from
the segments before the artifact folder, the version folder and what
`ParseMavenFileName` finds in the file name. -/
theorem C29_artifact_folder_ignored (filepathRel : Str → Str → Str × Option Str)
    (mi : Maven2Importer) (filePath1 filePath2 relativePath1 relativePath2 : Str)
    (gs : List Str) (x1 x2 v f : Str)
    (hrel1 : filepathRel mi.RootPath filePath1 = (relativePath1, none))
    (hrel2 : filepathRel mi.RootPath filePath2 = (relativePath2, none))
    (hsegs1 : stringsSplit relativePath1 '/' = gs ++ [x1, v, f])
    (hsegs2 : stringsSplit relativePath2 '/' = gs ++ [x2, v, f]) :
    BuildFullTargetURL filepathRel mi filePath1 = BuildFullTargetURL filepathRel mi filePath2 ∧
    BuildFullTargetURL filepathRel mi filePath1 =
      match ParseMavenFileName f v with
      | (_, _, _, _, some err) =>
        ([], some ("failed to parse Maven file name '".toList ++ f ++ "': ".toList ++ err))
      | (artifactID, parsedVersion, classifier, extension, none) =>
        (mi.BaseURL ++ "/repository/".toList ++ mi.Repository ++ "/".toList ++
          GenerateMavenPath (stringsJoin gs ".".toList) artifactID parsedVersion classifier
            extension, none) := by
  unfold BuildFullTargetURL
  rw [BuildFullTargetURLWith_segments filepathRel _ _ mi filePath1 relativePath1 gs x1 v f
      hrel1 hsegs1,
    BuildFullTargetURLWith_segments filepathRel _ _ mi filePath2 relativePath2 gs x2 v f
      hrel2 hsegs2]
  exact ⟨rfl, rfl⟩

/-- C29, witness: `foo-1.0.jar` under the artifact folders `foo` and `bar`. -/
theorem C29_artifact_folder_ignored_witness :
    BuildFullTargetURL (fun _ p => (p, none))
        ⟨"http://nexus:8081".toList, "releases".toList, ".".toList, false⟩
        "org/acme/foo/1.0/foo-1.0.jar".toList =
      ("http://nexus:8081/repository/releases/org/acme/foo/1.0/foo-1.0.jar".toList, none) ∧
    BuildFullTargetURL (fun _ p => (p, none))
        ⟨"http://nexus:8081".toList, "releases".toList, ".".toList, false⟩
        "org/acme/bar/1.0/foo-1.0.jar".toList =
      ("http://nexus:8081/repository/releases/org/acme/foo/1.0/foo-1.0.jar".toList, none) ∧
    BuildFullTargetURL (fun _ p => (p, none))
        ⟨"http://nexus:8081".toList, "releases".toList, ".".toList, false⟩
        "org/acme/foo/1.0/foo-1.0.jar".toList =
      BuildFullTargetURL (fun _ p => (p, none))
        ⟨"http://nexus:8081".toList, "releases".toList, ".".toList, false⟩
        "org/acme/bar/1.0/foo-1.0.jar".toList :=
  ⟨by decide, by decide,
    (C29_artifact_folder_ignored (fun _ p => (p, none))
      ⟨"http://nexus:8081".toList, "releases".toList, ".".toList, false⟩
      "org/acme/foo/1.0/foo-1.0.jar".toList "org/acme/bar/1.0/foo-1.0.jar".toList
      "org/acme/foo/1.0/foo-1.0.jar".toList "org/acme/bar/1.0/foo-1.0.jar".toList
      ["org".toList, "acme".toList] "foo".toList "bar".toList "1.0".toList
      "foo-1.0.jar".toList rfl rfl (by decide) (by decide)).1⟩

theorem validateConfig_attempts (cfg : Config) (n : Int) (hn : 0 ≤ n) :
    validateConfig (cfg.withRetryAttempts n) = validateConfig (cfg.withRetryAttempts 0) := by
  unfold validateConfig Config.withRetryAttempts
  simp only []
  rw [if_neg (show ¬ n < 0 by omega), if_neg (show ¬ (0 : Int) < 0 by omega)]

theorem validateConfig_nonneg (cfg : Config) (h : validateConfig cfg = none) :
    0 ≤ cfg.Retry.RetryAttempts := by
  unfold validateConfig at h
  by_contra hneg
  split_ifs at h
  all_goals first
    | exact absurd h (by simp)
    | omega

/-- C30: `validateConfig` accepts `retry.retry_attempts = 0`: its result is the
same for 0 as for every positive value, it rejects a negative value once the
checks before that one have passed, and a configuration with 0 that it accepts
exists. With the `RetryAttempts` of an accepted configuration that is 0, `Retry`
returns `Attempts must be greater than 0` without invoking the operation, and
`UploadFileWithRetry` returns that error with the world unchanged: no file
opened, no request prepared or sent, no attempt and no sleep. -/
theorem C30_zero_attempts_accepted (σ τ : Type) (cfg : Config) (n : Int) :
    (0 ≤ n → validateConfig (cfg.withRetryAttempts n) =
      validateConfig (cfg.withRetryAttempts 0)) ∧
    (validateConfig cfg = none → 0 ≤ cfg.Retry.RetryAttempts) ∧
    (validateConfig zeroAttemptsConfig = none ∧ zeroAttemptsConfig.Retry.RetryAttempts = 0) ∧
    (validateConfig cfg = none → cfg.Retry.RetryAttempts = 0 →
      (∀ (fuel : Nat) (delay : Int) (operation : σ → Option Str × σ) (s : σ),
        Retry fuel cfg.Retry.RetryAttempts delay operation s =
          some ⟨some "Attempts must be greater than 0".toList, s, []⟩) ∧
      (∀ (env : UploadEnv τ) (fuel : Nat) (uploader : HTTPClientAdapter)
          (fullURL filePath : Str) (w : UploadWorld τ),
        UploadFileWithRetry env fuel uploader fullURL filePath cfg.Retry.RetryAttempts w =
          some ⟨some "Attempts must be greater than 0".toList, w, []⟩)) := by
  refine ⟨validateConfig_attempts cfg n, validateConfig_nonneg cfg, ⟨by decide, rfl⟩, ?_⟩
  intro _ hzero
  rw [hzero]
  refine ⟨?_, ?_⟩
  · intro fuel delay operation s
    unfold Retry
    rw [if_pos (le_refl _)]
  · intro env fuel uploader fullURL filePath w
    unfold UploadFileWithRetry Retry
    rw [if_pos (le_refl _)]

/-- C30, witness: the accepted configuration `zeroAttemptsConfig` and an upload
of a file of 18 bytes to a transport that would answer 201. -/
theorem C30_zero_attempts_accepted_witness :
    validateConfig zeroAttemptsConfig = none ∧
    UploadFileWithRetry flakyEnv 5 plainAdapter
        "http://nexus:8081/repository/releases/a.jar".toList "a.jar".toList
        zeroAttemptsConfig.Retry.RetryAttempts ⟨201, [], 0, []⟩ =
      some ⟨some "Attempts must be greater than 0".toList, ⟨201, [], 0, []⟩, []⟩ ∧
    UploadFileWithRetry flakyEnv 5 plainAdapter
        "http://nexus:8081/repository/releases/a.jar".toList "a.jar".toList
        1 ⟨201, [], 0, []⟩ =
      some ⟨none, ⟨201, ["a.jar".toList], 1,
        [⟨"PUT".toList, "http://nexus:8081/repository/releases/a.jar".toList, "a.jar".toList,
          [("X-Content-Force-Replace".toList, "false".toList),
            ("Content-Type".toList, "application/json".toList)]⟩]⟩,
        [RetryEvent.call none]⟩ :=
  ⟨by decide,
    ((C30_zero_attempts_accepted Unit Int zeroAttemptsConfig 0).2.2.2 (by decide) rfl).2
      flakyEnv 5 plainAdapter _ _ _,
    by decide⟩

/-! ## The decoder on what the encoder wrote -/

theorem readValueLoop_continue (m m1 : Machine) (seen : Bool) (c : Char) (rest : Str)
    (h : m.step c = (ScanCode.continue, m1)) :
    readValueLoop m seen (c :: rest) = readValueLoop m1 (seen || !isSpace c) rest := by
  rw [readValueLoop, h]

theorem Machine.step_inStr (st st1 : ScanState) (ps : List ParseState) (err : Option Str)
    (fr : List Frame) (l : Str) (dn : Option JValue) (c : Char)
    (hscan : scanStep ⟨st, ps, err⟩ c = (ScanCode.continue, ⟨st1, ps, err⟩))
    (hstr : st.inStr = true) (hq : ¬ (st = ScanState.inString ∧ c = '\"')) :
    Machine.step ⟨⟨st, ps, err⟩, fr, l, dn⟩ c =
      (ScanCode.continue, ⟨⟨st1, ps, err⟩, fr, l ++ [c], dn⟩) := by
  unfold Machine.step
  simp only [hscan]
  have h1 : ¬ (st.inNumber = true ∧ ScanCode.continue ≠ ScanCode.continue) := by
    rintro ⟨_, h⟩
    exact h rfl
  rw [if_neg h1]
  unfold Machine.build
  simp only []
  rw [if_neg hq, if_pos (Or.inl hstr)]

theorem isHexDigit_hexDigit (n : Nat) : isHexDigit (hexDigit n) = true := by
  by_cases h : n < 16
  · interval_cases n <;> decide
  · have h1 : hexDigit n = '0' := by
      unfold hexDigit
      rw [List.getD_eq_default]
      simp only [String.toList, String.length] at *
      simpa using h
    rw [h1]
    decide

theorem run_plain (ps : List ParseState) (err : Option Str) (fr : List Frame) (l : Str)
    (dn : Option JValue) (c : Char) (q : Str)
    (h1 : c ≠ '\"') (h2 : c ≠ '\\') (h3 : ¬ c.toNat < 32) :
    readValueLoop ⟨⟨ScanState.inString, ps, err⟩, fr, l, dn⟩ true (c :: q) =
      readValueLoop ⟨⟨ScanState.inString, ps, err⟩, fr, l ++ [c], dn⟩ true q := by
  rw [readValueLoop_continue _ _ _ _ _
    (Machine.step_inStr ScanState.inString ScanState.inString ps err fr l dn c
      (by simp only [scanStep, if_neg h1, if_neg h2, if_neg h3]) rfl
      (fun h => h1 h.2))]
  rfl

theorem run_escape (ps : List ParseState) (err : Option Str) (fr : List Frame) (l : Str)
    (dn : Option JValue) (x : Char) (q : Str)
    (hx : x = 'b' ∨ x = 'f' ∨ x = 'n' ∨ x = 'r' ∨ x = 't' ∨ x = '\\' ∨ x = '/' ∨ x = '\"') :
    readValueLoop ⟨⟨ScanState.inString, ps, err⟩, fr, l, dn⟩ true ('\\' :: x :: q) =
      readValueLoop ⟨⟨ScanState.inString, ps, err⟩, fr, l ++ ['\\', x], dn⟩ true q := by
  rw [readValueLoop_continue _ _ _ _ _
    (Machine.step_inStr ScanState.inString ScanState.inStringEsc ps err fr l dn '\\'
      (by simp only [scanStep]; rfl) rfl (fun h => absurd h.2 (by decide)))]
  rw [readValueLoop_continue _ _ _ _ _
    (Machine.step_inStr ScanState.inStringEsc ScanState.inString ps err fr (l ++ ['\\']) dn x
      (by simp only [scanStep, if_pos hx]) rfl (fun h => absurd h.1 (by decide)))]
  simp only [List.append_assoc, List.singleton_append, Bool.true_or]

theorem run_hex (ps : List ParseState) (err : Option Str) (fr : List Frame) (l : Str)
    (dn : Option JValue) (a b c d : Char) (q : Str)
    (ha : isHexDigit a = true) (hb : isHexDigit b = true) (hc : isHexDigit c = true)
    (hd : isHexDigit d = true) :
    readValueLoop ⟨⟨ScanState.inString, ps, err⟩, fr, l, dn⟩ true
        ('\\' :: 'u' :: a :: b :: c :: d :: q) =
      readValueLoop ⟨⟨ScanState.inString, ps, err⟩, fr, l ++ ['\\', 'u', a, b, c, d], dn⟩
        true q := by
  rw [readValueLoop_continue _ _ _ _ _
    (Machine.step_inStr ScanState.inString ScanState.inStringEsc ps err fr l dn '\\'
      (by simp only [scanStep]; rfl) rfl (fun h => absurd h.2 (by decide)))]
  rw [readValueLoop_continue _ _ _ _ _
    (Machine.step_inStr ScanState.inStringEsc ScanState.inStringEscU ps err fr _ dn 'u'
      (by simp only [scanStep]; rfl) rfl (fun h => absurd h.1 (by decide)))]
  rw [readValueLoop_continue _ _ _ _ _
    (Machine.step_inStr ScanState.inStringEscU ScanState.inStringEscU1 ps err fr _ dn a
      (by simp only [scanStep, ha, if_true]) rfl (fun h => absurd h.1 (by decide)))]
  rw [readValueLoop_continue _ _ _ _ _
    (Machine.step_inStr ScanState.inStringEscU1 ScanState.inStringEscU12 ps err fr _ dn b
      (by simp only [scanStep, hb, if_true]) rfl (fun h => absurd h.1 (by decide)))]
  rw [readValueLoop_continue _ _ _ _ _
    (Machine.step_inStr ScanState.inStringEscU12 ScanState.inStringEscU123 ps err fr _ dn c
      (by simp only [scanStep, hc, if_true]) rfl (fun h => absurd h.1 (by decide)))]
  rw [readValueLoop_continue _ _ _ _ _
    (Machine.step_inStr ScanState.inStringEscU123 ScanState.inString ps err fr _ dn d
      (by simp only [scanStep, hd, if_true]) rfl (fun h => absurd h.1 (by decide)))]
  simp only [List.append_assoc, List.singleton_append, List.cons_append, List.nil_append,
    Bool.true_or]

/-- The scanner stays inside the string over what the encoder writes for one
character, and the decoder collects it. -/
theorem run_escapeChar (ps : List ParseState) (err : Option Str) (fr : List Frame) (l : Str)
    (dn : Option JValue) (c : Char) (q : Str) :
    readValueLoop ⟨⟨ScanState.inString, ps, err⟩, fr, l, dn⟩ true (escapeChar c ++ q) =
      readValueLoop ⟨⟨ScanState.inString, ps, err⟩, fr, l ++ escapeChar c, dn⟩ true q := by
  unfold escapeChar
  split_ifs with h1 h2 h3 h4 h5 h6 h7 h8 h9
  · exact run_escape ps err fr l dn c q (by tauto)
  · exact run_escape ps err fr l dn 'b' q (by tauto)
  · exact run_escape ps err fr l dn 'f' q (by tauto)
  · exact run_escape ps err fr l dn 'n' q (by tauto)
  · exact run_escape ps err fr l dn 'r' q (by tauto)
  · exact run_escape ps err fr l dn 't' q (by tauto)
  · exact run_hex ps err fr l dn '0' '0' _ _ q (by decide) (by decide)
      (isHexDigit_hexDigit _) (isHexDigit_hexDigit _)
  · exact run_hex ps err fr l dn '2' '0' '2' '8' q (by decide) (by decide) (by decide)
      (by decide)
  · exact run_hex ps err fr l dn '2' '0' '2' '9' q (by decide) (by decide) (by decide)
      (by decide)
  · refine run_plain ps err fr l dn c q (fun h => h1 (Or.inr h)) (fun h => h1 (Or.inl h)) ?_
    intro h
    exact h7 (Or.inl h)

/-- The same over what the encoder writes for a string. -/
theorem run_escaped (ps : List ParseState) (err : Option Str) (fr : List Frame)
    (dn : Option JValue) : ∀ (s l q : Str),
    readValueLoop ⟨⟨ScanState.inString, ps, err⟩, fr, l, dn⟩ true
        ((s.map escapeChar).flatten ++ q) =
      readValueLoop ⟨⟨ScanState.inString, ps, err⟩, fr, l ++ (s.map escapeChar).flatten, dn⟩
        true q := by
  intro s
  induction s with
  | nil => intro l q; simp
  | cons c rest ih =>
    intro l q
    simp only [List.map_cons, List.flatten_cons, List.append_assoc]
    rw [run_escapeChar, ih]
    simp only [List.append_assoc]

theorem hexVal_hexDigit (n : Nat) (h : n < 16) : hexVal (hexDigit n) = n := by
  interval_cases n <;> decide

theorem unquote_plain (fuel : Nat) (c : Char) (rest : Str) (h : c ≠ '\\') :
    unquote (fuel + 1) (c :: rest) = c :: unquote fuel rest := by
  rw [unquote.eq_def]
  simp only [if_neg h]

theorem unquote_escape (fuel : Nat) (x : Char) (rest : Str) (h : x ≠ 'u') :
    unquote (fuel + 1) ('\\' :: x :: rest) = unescape x :: unquote fuel rest := by
  rw [unquote.eq_def]
  simp only [if_true, if_neg h]

theorem unquote_hex (fuel : Nat) (a b c d : Char) (rest : Str)
    (h : ¬ (55296 ≤ getu4 a b c d ∧ getu4 a b c d < 57344)) :
    unquote (fuel + 1) ('\\' :: 'u' :: a :: b :: c :: d :: rest) =
      Char.ofNat (getu4 a b c d) :: unquote fuel rest := by
  rw [unquote.eq_def]
  simp only [if_true, if_neg h]

theorem getu4_low (c : Char) (h : c.toNat < 128) :
    getu4 '0' '0' (hexDigit (c.toNat / 16)) (hexDigit (c.toNat % 16)) = c.toNat := by
  unfold getu4
  rw [hexVal_hexDigit _ (by omega), hexVal_hexDigit _ (by omega)]
  have h0 : hexVal '0' = 0 := by decide
  rw [h0]
  omega

theorem unquote_escapeChar (fuel : Nat) (c : Char) (rest : Str) :
    unquote (fuel + 1) (escapeChar c ++ rest) = c :: unquote fuel rest := by
  unfold escapeChar
  split_ifs with h1 h2 h3 h4 h5 h6 h7 h8 h9
  · rw [List.cons_append, List.cons_append, List.nil_append, unquote_escape]
    · rcases h1 with h | h <;> subst h <;> rfl
    · rcases h1 with h | h <;> subst h <;> decide
  · rw [h2]; exact unquote_escape fuel 'b' rest (by decide)
  · rw [h3]; exact unquote_escape fuel 'f' rest (by decide)
  · rw [h4]; exact unquote_escape fuel 'n' rest (by decide)
  · rw [h5]; exact unquote_escape fuel 'r' rest (by decide)
  · rw [h6]; exact unquote_escape fuel 't' rest (by decide)
  · have hlt : c.toNat < 128 := by
      rcases h7 with h | h | h | h
      · omega
      · subst h; decide
      · subst h; decide
      · subst h; decide
    have hval := getu4_low c hlt
    simp only [List.cons_append, List.nil_append]
    rw [unquote_hex fuel _ _ _ _ rest (by rw [hval]; omega), hval, Char.ofNat_toNat]
  · rw [h8]; exact unquote_hex fuel '2' '0' '2' '8' rest (by decide)
  · rw [h9]; exact unquote_hex fuel '2' '0' '2' '9' rest (by decide)
  · exact unquote_plain fuel c rest (fun h => h1 (Or.inl h))

theorem escapeChar_length (c : Char) : 1 ≤ (escapeChar c).length := by
  unfold escapeChar
  split_ifs <;> simp

/-- The decoder reads a string that the encoder wrote back as it was. -/
theorem unquote_escaped : ∀ (s : Str) (fuel : Nat),
    ((s.map escapeChar).flatten).length ≤ fuel →
    unquote fuel ((s.map escapeChar).flatten) = s := by
  intro s
  induction s with
  | nil =>
    intro fuel _
    cases fuel <;> rfl
  | cons c rest ih =>
    intro fuel hfuel
    simp only [List.map_cons, List.flatten_cons, List.length_append] at hfuel ⊢
    have h1 := escapeChar_length c
    obtain ⟨f, rfl⟩ : ∃ f, fuel = f + 1 := ⟨fuel - 1, by omega⟩
    rw [unquote_escapeChar, ih f (by omega)]

theorem run_plainStr (ps : List ParseState) (err : Option Str) (fr : List Frame)
    (dn : Option JValue) : ∀ (s l q : Str),
    (∀ c ∈ s, c ≠ '\"' ∧ c ≠ '\\' ∧ ¬ c.toNat < 32) →
    readValueLoop ⟨⟨ScanState.inString, ps, err⟩, fr, l, dn⟩ true (s ++ q) =
      readValueLoop ⟨⟨ScanState.inString, ps, err⟩, fr, l ++ s, dn⟩ true q := by
  intro s
  induction s with
  | nil => intro l q _; simp
  | cons c rest ih =>
    intro l q h
    obtain ⟨h1, h2, h3⟩ := h c (List.mem_cons_self _ _)
    rw [List.cons_append, run_plain ps err fr l dn c _ h1 h2 h3,
      ih _ _ (fun x hx => h x (List.mem_cons_of_mem _ hx))]
    simp only [List.append_assoc, List.singleton_append]

theorem run_brace (q : Str) :
    readValueLoop Machine.init false ('\x7b' :: q) =
      readValueLoop ⟨⟨ScanState.beginStringOrEmpty, [ParseState.objectKey], none⟩,
        [Frame.obj [] none], [], none⟩ true q := by
  rfl

theorem run_key_open (ps : List ParseState) (fr : List Frame) (q : Str) :
    readValueLoop ⟨⟨ScanState.beginStringOrEmpty, ps, none⟩, fr, [], none⟩ true ('\"' :: q) =
      readValueLoop ⟨⟨ScanState.inString, ps, none⟩, fr, [], none⟩ true q := by
  rfl

theorem run_key_close (ps : List ParseState) (fr : List Frame)
    (members : List (Str × JValue)) (l q : Str) :
    readValueLoop ⟨⟨ScanState.inString, ParseState.objectKey :: ps, none⟩,
        Frame.obj members none :: fr, l, none⟩ true ('\"' :: q) =
      readValueLoop ⟨⟨ScanState.endValue, ParseState.objectKey :: ps, none⟩,
        Frame.obj members (some (unquote l.length l)) :: fr, [], none⟩ true q := by
  rfl

theorem run_colon (ps : List ParseState) (fr : List Frame) (q : Str) :
    readValueLoop ⟨⟨ScanState.endValue, ParseState.objectKey :: ps, none⟩, fr, [], none⟩ true
        (':' :: q) =
      readValueLoop ⟨⟨ScanState.beginValue, ParseState.objectValue :: ps, none⟩, fr, [], none⟩
        true q := by
  rfl

theorem run_value_open (ps : List ParseState) (fr : List Frame) (q : Str) :
    readValueLoop ⟨⟨ScanState.beginValue, ps, none⟩, fr, [], none⟩ true ('\"' :: q) =
      readValueLoop ⟨⟨ScanState.inString, ps, none⟩, fr, [], none⟩ true q := by
  rfl

theorem run_value_close (ps : List ParseState) (fr : List Frame)
    (members : List (Str × JValue)) (k l q : Str) :
    readValueLoop ⟨⟨ScanState.inString, ParseState.objectValue :: ps, none⟩,
        Frame.obj members (some k) :: fr, l, none⟩ true ('\"' :: q) =
      readValueLoop ⟨⟨ScanState.endValue, ParseState.objectValue :: ps, none⟩,
        Frame.obj (members ++ [(k, JValue.string (unquote l.length l))]) none :: fr, [],
        none⟩ true q := by
  rfl

theorem run_comma (ps : List ParseState) (fr : List Frame) (q : Str) :
    readValueLoop ⟨⟨ScanState.endValue, ParseState.objectValue :: ps, none⟩, fr, [], none⟩ true
        (',' :: q) =
      readValueLoop ⟨⟨ScanState.beginString, ParseState.objectKey :: ps, none⟩, fr, [], none⟩
        true q := by
  rfl

theorem run_next_key (ps : List ParseState) (fr : List Frame) (q : Str) :
    readValueLoop ⟨⟨ScanState.beginString, ps, none⟩, fr, [], none⟩ true ('\"' :: q) =
      readValueLoop ⟨⟨ScanState.inString, ps, none⟩, fr, [], none⟩ true q := by
  rfl

theorem run_end (members : List (Str × JValue)) (q : Str) :
    readValueLoop ⟨⟨ScanState.endValue, [ParseState.objectValue], none⟩,
        [Frame.obj members none], [], none⟩ true ('\x7d' :: q) =
      ReadResult.value (JValue.object members) q := by
  rfl

/-- A member of the object that the encoder writes, after the quote that opens
its key: the key, the colon and the string. -/
theorem run_member (members : List (Str × JValue)) (key s q : Str)
    (hkey : ∀ c ∈ key, c ≠ '\"' ∧ c ≠ '\\' ∧ ¬ c.toNat < 32) :
    readValueLoop ⟨⟨ScanState.inString, [ParseState.objectKey], none⟩,
        [Frame.obj members none], [], none⟩ true
        (key ++ ('\"' :: ':' :: (encodeString s ++ q))) =
      readValueLoop ⟨⟨ScanState.endValue, [ParseState.objectValue], none⟩,
        [Frame.obj (members ++ [(unquote key.length key, JValue.string s)]) none], [],
        none⟩ true q := by
  rw [run_plainStr _ _ _ _ key [] _ hkey, List.nil_append, run_key_close, run_colon]
  unfold encodeString
  rw [List.cons_append, run_value_open, List.append_assoc, run_escaped, List.nil_append,
    List.singleton_append, run_value_close, unquote_escaped _ _ (le_refl _)]

theorem readValue_Marshal (e : ImportError) (q : Str) :
    readValue (Marshal e ++ q) =
      ReadResult.value (JValue.object [("file_path".toList, JValue.string e.FilePath),
        ("repository_type".toList, JValue.string e.RepositoryType),
        ("error".toList, JValue.string e.Error)]) q := by
  have htext : Marshal e ++ q =
      '\x7b' :: '\"' :: ("file_path".toList ++ ('\"' :: ':' :: (encodeString e.FilePath ++
        (',' :: '\"' :: ("repository_type".toList ++
          ('\"' :: ':' :: (encodeString e.RepositoryType ++
            (',' :: '\"' :: ("error".toList ++
              ('\"' :: ':' :: (encodeString e.Error ++ ('\x7d' :: q)))))))))))) := by
    unfold Marshal
    have h1 : "\x7b\"file_path\":".toList = '\x7b' :: '\"' :: ("file_path".toList ++ ['\"', ':']) := by
      decide
    have h2 : ",\"repository_type\":".toList =
        ',' :: '\"' :: ("repository_type".toList ++ ['\"', ':']) := by decide
    have h3 : ",\"error\":".toList = ',' :: '\"' :: ("error".toList ++ ['\"', ':']) := by decide
    have h4 : "\x7d".toList = ['\x7d'] := by decide
    rw [h1, h2, h3, h4]
    simp only [List.append_assoc, List.cons_append, List.nil_append]
  rw [htext]
  unfold readValue
  rw [run_brace, run_key_open, run_member [] _ _ _ (by decide), run_comma, run_next_key,
    run_member _ _ _ _ (by decide), run_comma, run_next_key, run_member _ _ _ _ (by decide),
    run_end]
  rfl

theorem unmarshal_fields (e : ImportError) :
    unmarshal (JValue.object [("file_path".toList, JValue.string e.FilePath),
      ("repository_type".toList, JValue.string e.RepositoryType),
      ("error".toList, JValue.string e.Error)]) = (e, none) := by
  rfl

/-- `Decode` reads back the record that `Encode` wrote, whatever follows it, and
stops after the closing brace. -/
theorem Decode_Encode (e : ImportError) (q : Str) :
    Decode (Encode e ++ q) = (Except.ok e, '\n' :: q) := by
  unfold Decode Encode
  rw [List.append_assoc, readValue_Marshal]
  simp only [unmarshal_fields]
  rfl

theorem Machine.result_value (m : Machine) (rest rest1 : Str) (v : JValue)
    (h : m.result rest = ReadResult.value v rest1) : m.done = some v ∧ rest1 = rest := by
  unfold Machine.result at h
  cases hd : m.done with
  | none => rw [hd] at h; simp at h
  | some w =>
    rw [hd] at h
    simp only [ReadResult.value.injEq] at h
    exact ⟨by rw [h.1], h.2.symm⟩

theorem Machine.result_of_done (m : Machine) (rest : Str) (v : JValue)
    (h : m.done = some v) : m.result rest = ReadResult.value v rest := by
  unfold Machine.result
  rw [h]

/-- The input left after a value is a suffix of the input. -/
theorem readValueLoop_suffix : ∀ (input : Str) (m : Machine) (seen : Bool) (v : JValue)
    (rest : Str), readValueLoop m seen input = ReadResult.value v rest →
    rest.length ≤ input.length := by
  intro input
  induction input with
  | nil =>
    intro m seen v rest h
    rw [readValueLoop] at h
    split at h
    · rw [(Machine.result_value _ _ _ _ h).2]
    · split at h <;> simp at h
  | cons c tl ih =>
    intro m seen v rest h
    rw [readValueLoop] at h
    split at h
    · rw [(Machine.result_value _ _ _ _ h).2]
    · split at h
      · rw [(Machine.result_value _ _ _ _ h).2]
        simp
      · have := ih _ _ _ _ h
        simp only [List.length_cons]
        omega
    · split at h
      · rw [(Machine.result_value _ _ _ _ h).2]
        simp
      · have := ih _ _ _ _ h
        simp only [List.length_cons]
        omega
    · split at h <;> simp at h
    · have := ih _ _ _ _ h
      simp only [List.length_cons]
      omega

theorem Machine.step_code (m : Machine) (c : Char) :
    (m.step c).1 = (scanStep m.scan c).1 := by
  unfold Machine.step
  rfl

theorem pushParseState_code (s : Scanner) (c : Char) (next : ScanState) (p : ParseState)
    (code : ScanCode) :
    (pushParseState s c next p code).1 = code ∨
      (pushParseState s c next p code).1 = ScanCode.scanError := by
  unfold pushParseState
  split_ifs
  · exact Or.inl rfl
  · exact Or.inr rfl

set_option maxHeartbeats 1000000 in
theorem stateBeginValue_code (s : Scanner) (c : Char) :
    (stateBeginValue s c).1 ≠ ScanCode.scanEnd := by
  unfold stateBeginValue
  split_ifs
  · exact fun h => ScanCode.noConfusion h
  · rcases pushParseState_code s c ScanState.beginStringOrEmpty ParseState.objectKey
      ScanCode.beginObject with h | h <;> rw [h] <;> exact fun h => ScanCode.noConfusion h
  · rcases pushParseState_code s c ScanState.beginValueOrEmpty ParseState.arrayValue
      ScanCode.beginArray with h | h <;> rw [h] <;> exact fun h => ScanCode.noConfusion h
  all_goals exact fun h => ScanCode.noConfusion h

theorem Machine.init_step_ne_end (c : Char) : (Machine.init.step c).1 ≠ ScanCode.scanEnd := by
  rw [Machine.step_code]
  exact stateBeginValue_code _ c

/-- A value that `readValue` finds takes at least one character. -/
theorem readValue_shorter (input : Str) (v : JValue) (rest : Str)
    (h : readValue input = ReadResult.value v rest) : rest.length < input.length := by
  unfold readValue at h
  cases input with
  | nil =>
    rw [readValueLoop] at h
    split at h
    · rename_i m1 heq
      exact absurd (congrArg Prod.fst heq) (Machine.init_step_ne_end ' ')
    · split at h <;> simp at h
  | cons c tl =>
    rw [readValueLoop] at h
    split at h
    · rename_i m1 heq
      exact absurd (congrArg Prod.fst heq) (Machine.init_step_ne_end c)
    · split at h
      · rw [(Machine.result_value _ _ _ _ h).2]
        simp
      · have := readValueLoop_suffix _ _ _ _ _ h
        simp only [List.length_cons]
        omega
    · split at h
      · rw [(Machine.result_value _ _ _ _ h).2]
        simp
      · have := readValueLoop_suffix _ _ _ _ _ h
        simp only [List.length_cons]
        omega
    · split at h <;> simp at h
    · have := readValueLoop_suffix _ _ _ _ _ h
      simp only [List.length_cons]
      omega

theorem Decode_shorter (input : Str) (e : ImportError) (rest : Str)
    (h : Decode input = (Except.ok e, rest)) : rest.length < input.length := by
  unfold Decode at h
  cases hr : readValue input with
  | failed err => rw [hr] at h; simp at h
  | value v rest1 =>
    rw [hr] at h
    simp only [] at h
    have hlt := readValue_shorter input v rest1 hr
    cases hu : unmarshal v with
    | mk r oerr =>
      rw [hu] at h
      cases oerr with
      | some err => simp at h
      | none =>
        simp only [Prod.mk.injEq] at h
        rw [← h.2]
        exact hlt

/-- The loop of `ReadErrors` gives the same result with every bound above the
length of the input, and it gives one. -/
theorem readLoop_fuel : ∀ (f1 f2 : Nat) (input : Str) (errors : List ImportError),
    input.length < f1 → input.length < f2 →
    readLoop f1 input errors = readLoop f2 input errors ∧ readLoop f1 input errors ≠ none := by
  intro f1
  induction f1 with
  | zero => intro f2 input errors h; omega
  | succ f ih =>
    intro f2 input errors h1 h2
    obtain ⟨g, rfl⟩ : ∃ g, f2 = g + 1 := ⟨f2 - 1, by omega⟩
    rw [readLoop, readLoop]
    cases hd : Decode input with
    | mk res rest =>
      cases res with
      | error err =>
        simp only []
        split_ifs <;> exact ⟨trivial, by simp⟩
      | ok e =>
        simp only []
        have hlt := Decode_shorter input e rest hd
        exact ih g rest _ (by omega) (by omega)

theorem ErrStep.same (s : Scanner) (code : ScanCode) (st : ScanState) (ps : List ParseState) :
    ErrStep s (code, ⟨st, ps, s.err⟩) := Or.inl rfl

theorem ErrStep.error (s s0 : Scanner) (c : Char) (context : Str) :
    ErrStep s (Scanner.error s0 c context) := by
  refine Or.inr ⟨Or.inl rfl, quoteChar c ++ " ".toList ++ context, ?_⟩
  unfold Scanner.error
  simp only [List.append_assoc]

theorem ErrStep.push (s : Scanner) (c : Char) (next : ScanState) (p : ParseState)
    (code : ScanCode) : ErrStep s (pushParseState s c next p code) := by
  unfold pushParseState
  split_ifs
  · exact Or.inl rfl
  · exact ErrStep.error s _ c _

theorem ErrStep.endTop (s s0 : Scanner) (c : Char) (h : s0.err = s.err) :
    ErrStep s (stateEndTop s0 c) := by
  unfold stateEndTop
  split_ifs
  · exact Or.inl h
  · refine Or.inr ⟨Or.inr rfl, quoteChar c ++ " ".toList ++ "after top-level value".toList, ?_⟩
    unfold Scanner.error
    simp only [List.append_assoc]

set_option maxHeartbeats 1000000 in
theorem ErrStep.endValue (s s0 : Scanner) (c : Char) (h : s0.err = s.err) :
    ErrStep s (stateEndValue s0 c) := by
  unfold stateEndValue
  split
  · exact ErrStep.endTop s s0 c h
  · split_ifs <;> (try split) <;> first
      | exact Or.inl h
      | exact ErrStep.error s _ c _

set_option maxHeartbeats 1000000 in
theorem ErrStep.beginValue (s : Scanner) (c : Char) : ErrStep s (stateBeginValue s c) := by
  unfold stateBeginValue
  split_ifs
  · exact Or.inl rfl
  · exact ErrStep.push s c _ _ _
  · exact ErrStep.push s c _ _ _
  all_goals first
    | exact Or.inl rfl
    | exact ErrStep.error s _ c _

theorem ErrStep.beginString (s : Scanner) (c : Char) : ErrStep s (stateBeginString s c) := by
  unfold stateBeginString
  split_ifs
  · exact Or.inl rfl
  · exact Or.inl rfl
  · exact ErrStep.error s _ c _

theorem ErrStep.expect (s : Scanner) (c want : Char) (next : ScanState) (context : Str) :
    ErrStep s (expectChar s c want next context) := by
  unfold expectChar
  split_ifs
  · exact Or.inl rfl
  · exact ErrStep.error s _ c _

theorem ErrStep.of_state0 (s : Scanner) (c : Char) : ErrStep s (state0 s c) := by
  unfold state0
  split_ifs
  · exact Or.inl rfl
  · exact Or.inl rfl
  · exact ErrStep.endValue s s c rfl

theorem ErrStep.eSign (s : Scanner) (c : Char) : ErrStep s (stateESign s c) := by
  unfold stateESign
  split_ifs
  · exact Or.inl rfl
  · exact ErrStep.error s _ c _

set_option maxHeartbeats 4000000 in
theorem ErrStep.of_scanStep (s : Scanner) (c : Char) : ErrStep s (scanStep s c) := by
  unfold scanStep
  split
  · exact ErrStep.beginValue s c
  · split_ifs
    · exact Or.inl rfl
    · exact ErrStep.endValue s s c rfl
    · exact ErrStep.beginValue s c
  · split_ifs
    · exact Or.inl rfl
    · exact ErrStep.endValue s _ c rfl
    · exact ErrStep.beginString s c
  · exact ErrStep.beginString s c
  · exact ErrStep.endValue s s c rfl
  · exact ErrStep.endTop s s c rfl
  all_goals first
    | exact ErrStep.expect s c _ _ _
    | exact ErrStep.of_state0 s c
    | exact ErrStep.eSign s c
    | exact Or.inl rfl
    | (split_ifs <;> first
        | exact Or.inl rfl
        | exact ErrStep.error s _ c _
        | exact ErrStep.of_state0 s c
        | exact ErrStep.eSign s c
        | exact ErrStep.endValue s s c rfl)

theorem Machine.emit_scan (m : Machine) (top : Bool) (v : JValue) :
    (m.emit top v).scan = m.scan := by
  unfold Machine.emit
  split_ifs
  · rfl
  · split
    · rfl
    · rfl
    · rfl
    · split <;> rfl

theorem Machine.build_scan (m : Machine) (old : ScanState) (code : ScanCode) (c : Char) :
    (m.build old code c).scan = m.scan := by
  unfold Machine.build
  split
  · rfl
  · rfl
  · rfl
  · split_ifs <;> first
      | rfl
      | exact Machine.emit_scan _ _ _
  · split
    · exact Machine.emit_scan _ _ _
    · rfl
  · split
    · exact Machine.emit_scan _ _ _
    · rfl
  · rfl

theorem Machine.step_scan (m : Machine) (c : Char) :
    (m.step c).2.scan = (scanStep m.scan c).2 := by
  unfold Machine.step
  exact Machine.build_scan _ _ _ _

theorem Machine.step_err (m m1 : Machine) (c : Char) (code : ScanCode)
    (h : m.step c = (code, m1)) (herr : m.scan.err = none) :
    (code ≠ ScanCode.scanError → code ≠ ScanCode.scanEnd → m1.scan.err = none) ∧
      (m1.scan.err = none ∨ ∃ msg, m1.scan.err = some ("invalid character ".toList ++ msg)) := by
  have h1 : code = (scanStep m.scan c).1 := by
    rw [← Machine.step_code, h]
  have h2 : m1.scan = (scanStep m.scan c).2 := by
    rw [← Machine.step_scan, h]
  rcases ErrStep.of_scanStep m.scan c with h3 | ⟨h3, msg, h4⟩
  · rw [← h2, herr] at h3
    exact ⟨fun _ _ => h3, Or.inl h3⟩
  · rw [← h1] at h3
    rw [← h2] at h4
    refine ⟨fun e1 e2 => ?_, Or.inr ⟨msg, h4⟩⟩
    rcases h3 with h3 | h3
    · exact absurd h3 e1
    · exact absurd h3 e2

theorem Machine.result_ne_eof (m : Machine) (rest : Str) :
    m.result rest ≠ ReadResult.failed "EOF".toList := by
  unfold Machine.result
  split
  · exact fun h => ReadResult.noConfusion h
  · intro h
    simp only [ReadResult.failed.injEq] at h
    exact absurd h (by decide)

theorem invalid_ne_eof (msg : Str) : "invalid character ".toList ++ msg ≠ "EOF".toList := by
  intro h
  have h1 := congrArg List.head? h
  have h2 : ("invalid character ".toList ++ msg).head? = some 'i' := rfl
  have h3 : "EOF".toList.head? = some 'E' := rfl
  rw [h2, h3] at h1
  exact absurd h1 (by decide)

/-- Once the decoder has read a character that is not white space, the error
of `readValue` is not `EOF`. -/
theorem readValueLoop_ne_eof : ∀ (input : Str) (m : Machine), m.scan.err = none →
    readValueLoop m true input ≠ ReadResult.failed "EOF".toList := by
  intro input
  induction input with
  | nil =>
    intro m _
    rw [readValueLoop]
    split
    · exact Machine.result_ne_eof _ _
    · simp only [if_true]
      intro h
      simp only [ReadResult.failed.injEq] at h
      exact absurd h (by decide)
  | cons c tl ih =>
    intro m herr
    rw [readValueLoop]
    split
    · exact Machine.result_ne_eof _ _
    · rename_i m1 heq
      split_ifs
      · exact Machine.result_ne_eof _ _
      · exact ih m1 ((Machine.step_err m m1 c _ heq herr).1
          (fun h => ScanCode.noConfusion h) (fun h => ScanCode.noConfusion h))
    · rename_i m1 heq
      split_ifs
      · exact Machine.result_ne_eof _ _
      · exact ih m1 ((Machine.step_err m m1 c _ heq herr).1
          (fun h => ScanCode.noConfusion h) (fun h => ScanCode.noConfusion h))
    · rename_i m1 heq
      rcases (Machine.step_err m m1 c _ heq herr).2 with h | ⟨msg, h⟩
      · rw [h]
        intro h0
        simp only [ReadResult.failed.injEq] at h0
        exact absurd h0 (by decide)
      · rw [h]
        intro h0
        simp only [ReadResult.failed.injEq] at h0
        exact invalid_ne_eof msg h0
    · rename_i code m1 hne1 hne2 hne3 hne4 heq
      simp only [Bool.true_or]
      exact ih m1 ((Machine.step_err m m1 c code heq herr).1
        (fun h => hne4 h) (fun h => hne1 h))

theorem Machine.init_step_space (c : Char) (h : isSpace c = true) :
    Machine.init.step c = (ScanCode.skipSpace, Machine.init) := by
  unfold Machine.step Machine.init
  simp only [scanStep, stateBeginValue, if_pos h]
  rfl

theorem readValue_space (c : Char) (q : Str) (h : isSpace c = true) :
    readValue (c :: q) = readValue q := by
  unfold readValue
  rw [readValueLoop, Machine.init_step_space c h]
  simp only [h, Bool.not_true, Bool.or_false]

/-- White space before a value is skipped. -/
theorem readValue_spaces : ∀ (s t : Str), s.all isSpace = true →
    readValue (s ++ t) = readValue t := by
  intro s
  induction s with
  | nil => intro t _; rfl
  | cons c tl ih =>
    intro t h
    simp only [List.all_cons, Bool.and_eq_true] at h
    rw [List.cons_append, readValue_space c _ h.1, ih t h.2]

theorem readValue_nil : readValue [] = ReadResult.failed "EOF".toList := by
  rfl

/-- The error of `readValue` is `EOF` exactly when only white space is left. -/
theorem readValue_eof_iff : ∀ (s : Str),
    readValue s = ReadResult.failed "EOF".toList ↔ s.all isSpace = true := by
  intro s
  constructor
  · induction s with
    | nil => intro _; rfl
    | cons c tl ih =>
      intro h
      by_cases hc : isSpace c = true
      · rw [readValue_space c tl hc] at h
        simp only [List.all_cons, hc, Bool.true_and]
        exact ih h
      · exfalso
        unfold readValue at h
        rw [readValueLoop] at h
        have hseen : (false || !isSpace c) = true := by
          cases hsp : isSpace c with
          | true => exact absurd hsp hc
          | false => rfl
        split at h
        · exact Machine.result_ne_eof _ _ h
        · rename_i m1 heq
          split_ifs at h
          · exact Machine.result_ne_eof _ _ h
          · exact readValueLoop_ne_eof tl m1 ((Machine.step_err _ m1 c _ heq rfl).1
              (fun h => ScanCode.noConfusion h) (fun h => ScanCode.noConfusion h)) h
        · rename_i m1 heq
          split_ifs at h
          · exact Machine.result_ne_eof _ _ h
          · exact readValueLoop_ne_eof tl m1 ((Machine.step_err _ m1 c _ heq rfl).1
              (fun h => ScanCode.noConfusion h) (fun h => ScanCode.noConfusion h)) h
        · rename_i m1 heq
          rcases (Machine.step_err _ m1 c _ heq rfl).2 with h1 | ⟨msg, h1⟩
          · rw [h1] at h
            simp only [ReadResult.failed.injEq] at h
            exact absurd h (by decide)
          · rw [h1] at h
            simp only [ReadResult.failed.injEq] at h
            exact invalid_ne_eof msg h
        · rename_i code m1 hne1 hne2 hne3 hne4 heq
          rw [hseen] at h
          exact readValueLoop_ne_eof tl m1 ((Machine.step_err _ m1 c code heq rfl).1
            (fun h => hne4 h) (fun h => hne1 h)) h
  · intro h
    have := readValue_spaces s [] h
    rw [List.append_nil] at this
    rw [this, readValue_nil]

theorem storeMember_err (acc : ImportError × Option Str) (member : Str × JValue)
    (h : ∀ err, acc.2 = some err → err ≠ "EOF".toList) :
    ∀ err, (storeMember acc member).2 = some err → err ≠ "EOF".toList := by
  intro err herr
  unfold storeMember at herr
  simp only [] at herr
  split at herr
  · exact h err herr
  · split at herr
    · exact h err herr
    · split_ifs at herr <;> exact h err herr
    · split at herr
      · rename_i msg hmsg
        simp only [Option.some.injEq] at herr
        exact h err (by rw [hmsg, herr])
      · simp only [Option.some.injEq] at herr
        rw [← herr]
        unfold fieldTypeError
        intro h0
        have h1 := congrArg List.head? h0
        simp only [List.append_assoc] at h1
        have h2 : ∀ x : Str, ("json: cannot unmarshal ".toList ++ x).head? = some 'j' :=
          fun _ => rfl
        have h3 : "EOF".toList.head? = some 'E' := rfl
        rw [h2, h3] at h1
        exact absurd h1 (by decide)

theorem foldl_storeMember_err : ∀ (members : List (Str × JValue))
    (acc : ImportError × Option Str), (∀ err, acc.2 = some err → err ≠ "EOF".toList) →
    ∀ err, (members.foldl storeMember acc).2 = some err → err ≠ "EOF".toList := by
  intro members
  induction members with
  | nil => intro acc h; exact h
  | cons m tl ih =>
    intro acc h
    rw [List.foldl_cons]
    exact ih _ (storeMember_err acc m h)

/-- The error of `unmarshal` is not `EOF`. -/
theorem unmarshal_ne_eof (v : JValue) (r : ImportError) (err : Str)
    (h : unmarshal v = (r, some err)) : err ≠ "EOF".toList := by
  have hkind : ∀ x : Str, "json: cannot unmarshal ".toList ++ x ≠ "EOF".toList := by
    intro x h0
    have h1 := congrArg List.head? h0
    have h2 : ("json: cannot unmarshal ".toList ++ x).head? = some 'j' := rfl
    have h3 : "EOF".toList.head? = some 'E' := rfl
    rw [h2, h3] at h1
    exact absurd h1 (by decide)
  cases v with
  | object members =>
    have h1 := foldl_storeMember_err members (⟨[], [], []⟩, none) (fun e he => by simp at he) err
    apply h1
    have h2 : unmarshal (JValue.object members) =
        List.foldl storeMember (⟨[], [], []⟩, none) members := rfl
    rw [← h2, h]
  | null => simp [unmarshal] at h
  | bool b =>
    simp only [unmarshal, Prod.mk.injEq, Option.some.injEq] at h
    rw [← h.2, List.append_assoc]
    exact hkind _
  | number t =>
    simp only [unmarshal, Prod.mk.injEq, Option.some.injEq] at h
    rw [← h.2, List.append_assoc]
    exact hkind _
  | string s =>
    simp only [unmarshal, Prod.mk.injEq, Option.some.injEq] at h
    rw [← h.2, List.append_assoc]
    exact hkind _
  | array elems =>
    simp only [unmarshal, Prod.mk.injEq, Option.some.injEq] at h
    rw [← h.2, List.append_assoc]
    exact hkind _

/-- `Decode` returns the error `EOF` exactly at a clean end of the input: when
only white space is left. -/
theorem Decode_eof_iff (input : Str) :
    (Decode input).1 = Except.error "EOF".toList ↔ input.all isSpace = true := by
  rw [← readValue_eof_iff]
  unfold Decode
  cases hr : readValue input with
  | failed err =>
    simp only [Except.error.injEq, ReadResult.failed.injEq]
  | value v rest =>
    simp only []
    cases hu : unmarshal v with
    | mk r oerr =>
      cases oerr with
      | none => simp
      | some err =>
        simp only [Except.error.injEq]
        constructor
        · intro h
          exact absurd h (unmarshal_ne_eof v r err hu)
        · intro h
          exact ReadResult.noConfusion h

set_option maxHeartbeats 4000000 in
/-- The states in which a space ends the value: after a top-level value, or
inside a top-level number. -/
theorem scanStep_space_end (s : Scanner) (h : (scanStep s ' ').1 = ScanCode.scanEnd) :
    (s.step.inNumber = true ∧ s.parseState = []) ∨
      (s.step.inNumber = false ∧
        (s.step = ScanState.endTop ∨ (s.step = ScanState.endValue ∧ s.parseState = []))) := by
  obtain ⟨st, ps, err⟩ := s
  cases ps with
  | nil =>
    cases st <;>
      first
      | (exfalso
         revert h
         simp +decide [scanStep, stateBeginValue, stateBeginString, stateEndValue, stateEndTop,
           state0, stateESign, expectChar, Scanner.error, isSpace]
         done)
      | exact Or.inl ⟨rfl, rfl⟩
      | exact Or.inr ⟨rfl, Or.inl rfl⟩
      | exact Or.inr ⟨rfl, Or.inr ⟨rfl, rfl⟩⟩
  | cons p rest =>
    cases st <;>
      first
      | exact Or.inr ⟨rfl, Or.inl rfl⟩
      | (exfalso
         revert h
         cases p <;>
         simp +decide [scanStep, stateBeginValue, stateBeginString, stateEndValue, stateEndTop,
           state0, stateESign, expectChar, Scanner.error, isSpace])

theorem stateEndTop_code (s : Scanner) (c : Char) : (stateEndTop s c).1 = ScanCode.scanEnd := by
  unfold stateEndTop
  split_ifs <;> rfl

/-- After a top-level value every character ends the value. -/
theorem scanStep_end (s : Scanner) (c : Char)
    (h : s.step = ScanState.endTop ∨ (s.step = ScanState.endValue ∧ s.parseState = [])) :
    (scanStep s c).1 = ScanCode.scanEnd := by
  obtain ⟨st, ps, err⟩ := s
  rcases h with h | ⟨h1, h2⟩
  · simp only [] at h
    subst h
    simp only [scanStep]
    exact stateEndTop_code _ c
  · simp only [] at h1 h2
    subst h1
    subst h2
    simp only [scanStep, stateEndValue]
    exact stateEndTop_code _ c

theorem Machine.step_end_done (m : Machine) (c : Char)
    (h : (m.step c).1 = ScanCode.scanEnd) :
    (m.scan.step.inNumber = false → (m.step c).2.done = m.done) ∧
      (m.scan.step.inNumber = true → m.scan.parseState = [] →
        (m.step c).2.done = some (JValue.number m.lit)) := by
  unfold Machine.step at h ⊢
  generalize scanStep m.scan c = r at h ⊢
  obtain ⟨code, scan1⟩ := r
  simp only [] at h
  subst h
  constructor
  · intro hnum
    simp only [hnum, Bool.false_eq_true, false_and, if_false, Machine.build]
  · intro hnum hps
    simp only [hnum, true_and, ne_eq, reduceCtorEq, not_false_eq_true, if_true, Machine.build,
      Machine.emit, hps, decide_True]

/-- A value that is complete at the end of the input, and is not a number, is
complete before any character that follows. -/
theorem Machine.step_end_any (m m1 : Machine) (v : JValue)
    (h : m.step ' ' = (ScanCode.scanEnd, m1)) (hv : m1.done = some v)
    (hnum : ∀ text, v ≠ JValue.number text) (c : Char) :
    ∃ m2, m.step c = (ScanCode.scanEnd, m2) ∧ m2.done = some v := by
  have hcode : (m.step ' ').1 = ScanCode.scanEnd := by rw [h]
  have hscan : (scanStep m.scan ' ').1 = ScanCode.scanEnd := by
    rw [← Machine.step_code, hcode]
  obtain ⟨d1, d2⟩ := Machine.step_end_done m ' ' hcode
  rw [h] at d1 d2
  simp only [] at d1 d2
  rcases scanStep_space_end m.scan hscan with ⟨h1, h2⟩ | ⟨h1, h2⟩
  · rw [d2 h1 h2] at hv
    exact absurd (Option.some.inj hv).symm (hnum m.lit)
  · have hc : (m.step c).1 = ScanCode.scanEnd := by
      rw [Machine.step_code]
      exact scanStep_end m.scan c h2
    refine ⟨(m.step c).2, ?_, ?_⟩
    · rw [← hc]
    · rw [(Machine.step_end_done m c hc).1 h1, ← d1 h1, hv]

/-- What `readValue` finds is not changed by what is appended to the input,
unless the value is a number at the very end. -/
theorem readValueLoop_append : ∀ (input : Str) (m : Machine) (seen : Bool) (v : JValue)
    (rest t : Str), readValueLoop m seen input = ReadResult.value v rest →
    (∀ text, v ≠ JValue.number text) →
    readValueLoop m seen (input ++ t) = ReadResult.value v (rest ++ t) := by
  intro input
  induction input with
  | nil =>
    intro m seen v rest t h hnum
    rw [readValueLoop] at h
    split at h
    · rename_i m1 heq
      obtain ⟨hd, hrest⟩ := Machine.result_value _ _ _ _ h
      subst hrest
      rw [List.nil_append]
      cases t with
      | nil =>
        rw [readValueLoop, heq]
        exact Machine.result_of_done _ _ _ hd
      | cons c tl =>
        obtain ⟨m2, h2, hd2⟩ := Machine.step_end_any m m1 v heq hd hnum c
        rw [readValueLoop, h2]
        exact Machine.result_of_done _ _ _ hd2
    · split at h <;> exact ReadResult.noConfusion h
  | cons c tl ih =>
    intro m seen v rest t h hnum
    rw [readValueLoop] at h
    rw [List.cons_append, readValueLoop]
    split at h
    · rename_i m1 heq
      obtain ⟨hd, hrest⟩ := Machine.result_value _ _ _ _ h
      subst hrest
      exact Machine.result_of_done _ _ _ hd
    · rename_i m1 heq
      split_ifs at h with hps
      · obtain ⟨hd, hrest⟩ := Machine.result_value _ _ _ _ h
        subst hrest
        rw [if_pos hps]
        exact Machine.result_of_done _ _ _ hd
      · rw [if_neg hps]
        exact ih _ _ _ _ t h hnum
    · rename_i m1 heq
      split_ifs at h with hps
      · obtain ⟨hd, hrest⟩ := Machine.result_value _ _ _ _ h
        subst hrest
        rw [if_pos hps]
        exact Machine.result_of_done _ _ _ hd
      · rw [if_neg hps]
        exact ih _ _ _ _ t h hnum
    · split at h <;> exact ReadResult.noConfusion h
    · exact ih _ _ _ _ t h hnum

theorem readLoop_succ (fuel : Nat) (input : Str) (errors : List ImportError) :
    readLoop (fuel + 1) input errors =
      match readValue input with
      | ReadResult.failed err =>
        if err = "EOF".toList then some (errors, none)
        else some ([], some ("failed to decode error log: ".toList ++ err))
      | ReadResult.value v rest =>
        match unmarshal v with
        | (_, some err) =>
          if err = "EOF".toList then some (errors, none)
          else some ([], some ("failed to decode error log: ".toList ++ err))
        | (importError, none) => readLoop fuel rest (errors ++ [importError]) := by
  rw [readLoop]
  unfold Decode
  cases readValue input with
  | failed err => rfl
  | value v rest =>
    simp only []
    cases hu : unmarshal v with
    | mk r oerr =>
      cases oerr with
      | none => rfl
      | some err => rfl

theorem readLoop_congr (fuel : Nat) (i1 i2 : Str) (errors : List ImportError)
    (h : readValue i1 = readValue i2) : readLoop fuel i1 errors = readLoop fuel i2 errors := by
  cases fuel with
  | zero => rfl
  | succ f => rw [readLoop_succ, readLoop_succ, h]

theorem readLoop_error (fuel : Nat) (input : Str) (errors : List ImportError) (err rest : Str)
    (h : Decode input = (Except.error err, rest)) :
    readLoop (fuel + 1) input errors =
      if err = "EOF".toList then some (errors, none)
      else some ([], some ("failed to decode error log: ".toList ++ err)) := by
  rw [readLoop, h]

theorem readLoop_ok (fuel : Nat) (input : Str) (errors : List ImportError) (r : ImportError)
    (rest : Str) (h : Decode input = (Except.ok r, rest)) :
    readLoop (fuel + 1) input errors = readLoop fuel rest (errors ++ [r]) := by
  rw [readLoop, h]

/-- A successful `Decode` is not changed by what is appended to the input. -/
theorem Decode_append (input t : Str) (r : ImportError) (rest : Str)
    (h : Decode input = (Except.ok r, rest)) :
    Decode (input ++ t) = (Except.ok r, rest ++ t) := by
  unfold Decode at h ⊢
  cases hr : readValue input with
  | failed err => rw [hr] at h; simp at h
  | value v rest1 =>
    rw [hr] at h
    simp only [] at h
    have hnum : ∀ text, v ≠ JValue.number text := by
      intro text hv
      rw [hv] at h
      simp [unmarshal] at h
    unfold readValue at hr ⊢
    rw [readValueLoop_append input _ _ v rest1 t hr hnum]
    simp only []
    cases hu : unmarshal v with
    | mk r1 oerr =>
      rw [hu] at h
      cases oerr with
      | some err => simp at h
      | none =>
        simp only [Prod.mk.injEq, Except.ok.injEq] at h ⊢
        exact ⟨h.1, by rw [h.2]⟩

theorem Decode_spaces (input t : Str) (h : input.all isSpace = true) :
    readValue (input ++ t) = readValue t := readValue_spaces input t h

/-- What `ReadErrors` reads from a log file that it reads without error is read
first from every log file that starts with it. -/
theorem readLoop_append : ∀ (n : Nat) (prior t : Str) (errors rs : List ImportError),
    prior.length < n → readLoop n prior errors = some (rs, none) →
    readLoop ((prior ++ t).length + 1) (prior ++ t) errors = readLoop (t.length + 1) t rs := by
  intro n
  induction n with
  | zero => intro prior t errors rs h; omega
  | succ n ih =>
    intro prior t errors rs hlen h
    cases hd : Decode prior with
    | mk res rest =>
      cases res with
      | error err =>
        rw [readLoop_error n prior errors err rest hd] at h
        by_cases he : err = "EOF".toList
        · rw [if_pos he] at h
          simp only [Option.some.injEq, Prod.mk.injEq, and_true] at h
          subst h
          have hsp : prior.all isSpace = true := by
            rw [← Decode_eof_iff, hd, he]
          rw [readLoop_congr _ (prior ++ t) t errors (readValue_spaces prior t hsp)]
          exact (readLoop_fuel _ _ t errors (by simp only [List.length_append]; omega)
            (by omega)).1
        · rw [if_neg he] at h
          simp at h
      | ok r =>
        rw [readLoop_ok n prior errors r rest hd] at h
        have hlt := Decode_shorter prior r rest hd
        rw [readLoop_ok _ (prior ++ t) errors r (rest ++ t) (Decode_append prior t r rest hd)]
        rw [(readLoop_fuel (prior ++ t).length ((rest ++ t).length + 1) (rest ++ t) _
          (by simp only [List.length_append]; omega) (by omega)).1]
        exact ih rest t _ rs (by omega) h

theorem Encode_length (e : ImportError) : 1 ≤ (Marshal e).length := by
  unfold Marshal
  simp only [List.length_append]
  have : ("\x7d".toList).length = 1 := rfl
  omega

/-- `ReadErrors` on the one line that `Encode` wrote, after the records `rs`. -/
theorem readLoop_Encode (e : ImportError) (rs : List ImportError) :
    readLoop ((Encode e).length + 1) (Encode e) rs = some (rs ++ [e], none) := by
  have hd := Decode_Encode e []
  rw [List.append_nil] at hd
  rw [readLoop_ok _ _ _ _ _ hd]
  have hlen : (Encode e).length = (Marshal e).length + 1 := by
    unfold Encode
    simp
  obtain ⟨k, hk⟩ : ∃ k, (Encode e).length = k + 1 := ⟨(Marshal e).length, hlen⟩
  rw [hk]
  have hd2 : Decode ['\n'] = (Except.error "EOF".toList, ['\n']) := rfl
  rw [readLoop_error _ _ _ _ _ hd2, if_pos rfl]

/-- The calls of `Decode` on an input end, and `ReadErrors` returns what they
read: all the records when the last error is `EOF`, no record and the error
otherwise. -/
theorem readLoop_chain : ∀ (records : List ImportError) (input : Str) (err : Str)
    (fuel : Nat) (errors : List ImportError), input.length < fuel →
    DecodeChain input records err →
    readLoop fuel input errors =
      if err = "EOF".toList then some (errors ++ records, none)
      else some ([], some ("failed to decode error log: ".toList ++ err)) := by
  intro records
  induction records with
  | nil =>
    intro input err fuel errors hfuel hchain
    unfold DecodeChain at hchain
    obtain ⟨f, rfl⟩ : ∃ f, fuel = f + 1 := ⟨fuel - 1, by omega⟩
    cases hd : Decode input with
    | mk res rest =>
      rw [hd] at hchain
      simp only [] at hchain
      subst hchain
      rw [readLoop_error f input errors err rest hd, List.append_nil]
  | cons r tl ih =>
    intro input err fuel errors hfuel hchain
    unfold DecodeChain at hchain
    obtain ⟨input1, hd, hrest⟩ := hchain
    obtain ⟨f, rfl⟩ : ∃ f, fuel = f + 1 := ⟨fuel - 1, by omega⟩
    have hlt := Decode_shorter input r input1 hd
    rw [readLoop_ok f input errors r input1 hd, ih input1 err f _ (by omega) hrest]
    simp only [List.append_assoc, List.singleton_append]

theorem DecodeChain_exists : ∀ (n : Nat) (input : Str), input.length < n →
    ∃ records err, DecodeChain input records err := by
  intro n
  induction n with
  | zero => intro input h; omega
  | succ n ih =>
    intro input hlen
    cases hd : Decode input with
    | mk res rest =>
      cases res with
      | error err =>
        refine ⟨[], err, ?_⟩
        unfold DecodeChain
        rw [hd]
      | ok r =>
        have hlt := Decode_shorter input r rest hd
        obtain ⟨records, err, hchain⟩ := ih rest (by omega)
        refine ⟨r :: records, err, ?_⟩
        unfold DecodeChain
        exact ⟨rest, hd, hchain⟩

theorem Decode_space (c : Char) (q : Str) (r : ImportError) (rest : Str)
    (hc : isSpace c = true) (h : Decode q = (Except.ok r, rest)) :
    Decode (c :: q) = (Except.ok r, rest) := by
  unfold Decode at h ⊢
  rw [readValue_space c q hc]
  cases hr : readValue q with
  | failed err => rw [hr] at h; simp at h
  | value v rest1 =>
    rw [hr] at h
    exact h

/-- A log file that holds what `Encode` wrote for the records `rs`, and nothing
else, is decoded into `rs`, up to the end of the file. -/
theorem DecodeChain_encoded : ∀ (rs : List ImportError),
    DecodeChain ((rs.map Encode).flatten) rs "EOF".toList ∧
      DecodeChain ('\n' :: (rs.map Encode).flatten) rs "EOF".toList := by
  intro rs
  induction rs with
  | nil =>
    constructor
    · unfold DecodeChain
      rfl
    · unfold DecodeChain
      rfl
  | cons r tl ih =>
    have hd : Decode ((List.map Encode (r :: tl)).flatten) =
        (Except.ok r, '\n' :: (tl.map Encode).flatten) := by
      rw [List.map_cons, List.flatten_cons]
      exact Decode_Encode r _
    constructor
    · unfold DecodeChain
      exact ⟨_, hd, ih.2⟩
    · unfold DecodeChain
      exact ⟨_, Decode_space '\n' _ r _ rfl hd, ih.2⟩

/-- C25 (as stated, refuted): the log file holds the line `oops`, or a record
that was cut off; `LogError` appends the record and returns `nil`, and
`ReadErrors` then returns no record and the error of the decoder. -/
theorem C25_append_then_read_counterexample :
    LogError plainLogEnv ⟨"errors.log".toList⟩
        ⟨"a.jar".toList, "maven2".toList, "boom".toList⟩ (some "oops\n".toList) =
      (none, some ("oops\n\x7b\"file_path\":\"a.jar\",\"repository_type\":\"maven2\"," ++
        "\"error\":\"boom\"\x7d\n").toList) ∧
    ReadErrors plainLogEnv ⟨"errors.log".toList⟩
        (some ("oops\n\x7b\"file_path\":\"a.jar\",\"repository_type\":\"maven2\"," ++
          "\"error\":\"boom\"\x7d\n").toList) =
      some ([], some ("failed to decode error log: " ++
        "invalid character 'o' looking for beginning of value").toList) ∧
    LogError plainLogEnv ⟨"errors.log".toList⟩
        ⟨"a.jar".toList, "maven2".toList, "boom".toList⟩
        (some "\x7b\"file_path\":\"b.j".toList) =
      (none, some ("\x7b\"file_path\":\"b.j\x7b\"file_path\":\"a.jar\"," ++
        "\"repository_type\":\"maven2\",\"error\":\"boom\"\x7d\n").toList) ∧
    ReadErrors plainLogEnv ⟨"errors.log".toList⟩
        (some ("\x7b\"file_path\":\"b.j\x7b\"file_path\":\"a.jar\"," ++
          "\"repository_type\":\"maven2\",\"error\":\"boom\"\x7d\n").toList) =
      some ([], some ("failed to decode error log: " ++
        "invalid character 'f' after object key:value pair").toList) :=
  ⟨by decide, by decide, by decide, by decide⟩

/-- C25 (amended): for every record `r` and every log file that does not exist
or that `ReadErrors` reads without error into the records `rs`, a `LogError(r)`
that returns `nil` followed by a `ReadErrors` that can open the file returns,
without error, `rs` followed by `r`: the last element is `r` and the earlier
ones are the records that were read before. -/
theorem C25_append_then_read (env : LogEnv) (el : ErrorLogger) (r : ImportError)
    (file file1 : Option Str) (rs : List ImportError)
    (hlog : LogError env el r file = (none, file1))
    (hopen : env.openError = none)
    (hprior : (file = none ∧ rs = []) ∨ ReadErrors env el file = some (rs, none)) :
    ReadErrors env el file1 = some (rs ++ [r], none) ∧
      (rs ++ [r]).getLast? = some r := by
  refine ⟨?_, by simp⟩
  have hfile1 : file1 = some (file.getD [] ++ Encode r) := by
    unfold LogError at hlog
    cases h1 : env.mkdirAllError with
    | some e => rw [h1] at hlog; simp at hlog
    | none =>
      rw [h1] at hlog
      cases h2 : env.openFileError with
      | some e => rw [h2] at hlog; simp at hlog
      | none =>
        rw [h2] at hlog
        cases h3 : env.writeFailure with
        | some e => rw [h3] at hlog; simp at hlog
        | none =>
          rw [h3] at hlog
          simp only [Prod.mk.injEq, true_and] at hlog
          exact hlog.symm
  rw [hfile1]
  cases file with
  | none =>
    have hrs : rs = [] := by
      rcases hprior with h | h
      · exact h.2
      · simp [ReadErrors] at h
    subst hrs
    simp only [ReadErrors, hopen, Option.getD_none, List.nil_append]
    exact readLoop_Encode r []
  | some content =>
    rcases hprior with h | h
    · exact absurd h.1 (by simp)
    · simp only [ReadErrors, hopen] at h ⊢
      simp only [Option.getD_some]
      rw [readLoop_append (content.length + 1) content (Encode r) [] rs (by omega) h]
      exact readLoop_Encode r rs

/-- C25, witness: a log file that holds one record, to which a second one is
appended. -/
theorem C25_append_then_read_witness :
    ReadErrors plainLogEnv ⟨"errors.log".toList⟩
        (some ("\x7b\"file_path\":\"a<b>.jar\",\"repository_type\":\"raw\"," ++
          "\"error\":\"boom\"\x7d\n").toList) =
      some ([⟨"a<b>.jar".toList, "raw".toList, "boom".toList⟩], none) ∧
    ReadErrors plainLogEnv ⟨"errors.log".toList⟩
        (some (("\x7b\"file_path\":\"a<b>.jar\",\"repository_type\":\"raw\"," ++
          "\"error\":\"boom\"\x7d\n").toList ++
          Encode ⟨"c\"d\n.jar".toList, "maven2".toList, "status 500".toList⟩)) =
      some ([⟨"a<b>.jar".toList, "raw".toList, "boom".toList⟩] ++
        [⟨"c\"d\n.jar".toList, "maven2".toList, "status 500".toList⟩], none) :=
  ⟨by decide,
    (C25_append_then_read plainLogEnv ⟨"errors.log".toList⟩
      ⟨"c\"d\n.jar".toList, "maven2".toList, "status 500".toList⟩
      (some ("\x7b\"file_path\":\"a<b>.jar\",\"repository_type\":\"raw\"," ++
        "\"error\":\"boom\"\x7d\n").toList) _
      [⟨"a<b>.jar".toList, "raw".toList, "boom".toList⟩] rfl rfl (Or.inr (by decide))).1⟩

/-- C26: for every log file that `ReadErrors` can open, the calls of `Decode`
read some records and end with an error; `ReadErrors` returns these records, in
the order of the file, and no error when that error is `EOF`, and no record and
the wrapped error otherwise. The error is `EOF` exactly at a clean end of the
file, that is when only white space is left: malformed JSON gives
`invalid character ...` and a last record that is cut off gives
`unexpected EOF`, and in both cases the records read before are not returned. -/
theorem C26_read_errors (env : LogEnv) (el : ErrorLogger) (content : Str)
    (hopen : env.openError = none) :
    (∃ records err, DecodeChain content records err) ∧
    (∀ records err, DecodeChain content records err →
      ReadErrors env el (some content) =
        if err = "EOF".toList then some (records, none)
        else some ([], some ("failed to decode error log: ".toList ++ err))) ∧
    (∀ input : Str, (Decode input).1 = Except.error "EOF".toList ↔ input.all isSpace = true) ∧
    ReadErrors env el
        (some ("\x7b\"file_path\":\"a.jar\",\"repository_type\":\"raw\",\"error\":\"boom\"\x7d\n" ++
          "not json\n").toList) =
      some ([], some ("failed to decode error log: " ++
        "invalid character 'o' in literal null (expecting 'u')").toList) ∧
    ReadErrors env el
        (some ("\x7b\"file_path\":\"a.jar\",\"repository_type\":\"raw\",\"error\":\"boom\"\x7d\n" ++
          "\x7b\"file_path\":\"b.jar\",\"repo").toList) =
      some ([], some "failed to decode error log: unexpected EOF".toList) := by
  refine ⟨DecodeChain_exists (content.length + 1) content (by omega), ?_, Decode_eof_iff,
    ?_, ?_⟩
  · intro records err hchain
    simp only [ReadErrors, hopen]
    rw [readLoop_chain records content err _ [] (by omega) hchain, List.nil_append]
  · simp only [ReadErrors, hopen]
    decide
  · simp only [ReadErrors, hopen]
    decide

/-- C26, witness: a log file with two records is read into the two records, in
order. -/
theorem C26_read_errors_witness :
    ReadErrors plainLogEnv ⟨"errors.log".toList⟩
        (some ((List.map Encode [⟨"a.jar".toList, "raw".toList, "boom".toList⟩,
          ⟨"b.jar".toList, "raw".toList, "status 500".toList⟩]).flatten)) =
      some ([⟨"a.jar".toList, "raw".toList, "boom".toList⟩,
        ⟨"b.jar".toList, "raw".toList, "status 500".toList⟩], none) ∧
    (List.map Encode [⟨"a.jar".toList, "raw".toList, "boom".toList⟩,
        ⟨"b.jar".toList, "raw".toList, "status 500".toList⟩]).flatten =
      ("\x7b\"file_path\":\"a.jar\",\"repository_type\":\"raw\",\"error\":\"boom\"\x7d\n" ++
        "\x7b\"file_path\":\"b.jar\",\"repository_type\":\"raw\"," ++
        "\"error\":\"status 500\"\x7d\n").toList :=
  ⟨(C26_read_errors plainLogEnv ⟨"errors.log".toList⟩ _ rfl).2.1 _ "EOF".toList
    (DecodeChain_encoded _).1, by decide⟩

end Iscrie
